import Mathlib

/-!
Shallow embedding of the FBOSS Broadcom layer-3 forwarding object manager
(`fboss/agent/hw/bcm/BcmHost.cpp` and `fboss/agent/hw/bcm/BcmRoute.cpp`).

Hosts, ECMP hosts and egress objects live in reference-counted association
lists; vendor-SDK calls are recorded in a trace and their success is decided
by an oracle.  C++ exceptions (FbossError / BcmError thrown by
`bcmCheckError`) are the `err` outcome (scope guards run); `CHECK` /
`LOG(FATAL)` aborts are the `fatal` outcome (nothing runs afterwards).
-/

namespace Fboss

/-- VRF identifier (`opennsl_vrf_t`). -/
abbrev Vrf := Int

/-- Egress object identifier (`opennsl_if_t`). -/
abbrev EgressId := Int

/-- Physical port number (`opennsl_port_t`); `0` means "no port". -/
abbrev PortT := Nat

/-- Software interface identifier (`InterfaceID`). -/
abbrev IntfId := Nat

/-- An IP address, tagged v4 or v6 (`folly::IPAddress`); the numeric payload
is opaque to the modelled code except for the v4/v6 distinction. -/
inductive IP where
  | v4 (a : Nat)
  | v6 (a : Nat)
deriving DecidableEq

/-- Whether the address is IPv6 (`folly::IPAddress::isV6`). -/
def IP.isV6 : IP → Bool
  | .v4 _ => false
  | .v6 _ => true

/-- Flag bit `OPENNSL_L3_IP6` of `l3a_flags`. -/
def L3_IP6 : Nat := 16

/-- Flag bit `OPENNSL_L3_MULTIPATH` of `l3a_flags`. -/
def L3_MULTIPATH : Nat := 16384

/-- Flag bit `OPENNSL_L3_REPLACE` of `l3a_flags`. -/
def L3_REPLACE : Nat := 256

/-- Modelled from the spec: the sentinel `BcmEgressBase::INVALID`
(declared in `BcmEgress.h`, which is outside the source excerpt); an
opaque reserved id distinct from every real egress id. -/
def INVALID : EgressId := -1

/-- One forwarding next hop: `(interface, address)`
(`RouteNextHop` inside `RouteForwardNexthops`). -/
structure Nexthop where
  intf : IntfId
  nexthop : IP
deriving DecidableEq

/-- The action of a `RouteForwardInfo`. -/
inductive RouteForwardAction where
  | drop
  | toCpu
  | nexthops
deriving DecidableEq

/-- A `RouteForwardInfo`: an action plus (for `nexthops`) the canonical
next-hop set, kept as a list. -/
structure RouteForwardInfo where
  action : RouteForwardAction
  nhops : List Nexthop
deriving DecidableEq

/-- Kind of an egress object owned by the egress table. -/
inductive EgressKind where
  | unicast
  | ecmp
deriving DecidableEq

/-- An egress object (`BcmEgressBase`): its kind, and for ECMP groups the
member path set. -/
structure EgressObj where
  kind : EgressKind
  members : List EgressId
deriving DecidableEq

/-- A `BcmHost`: key data plus the fields `egressId_`, `port_`, `added_`. -/
structure BcmHostObj where
  vrf : Vrf
  addr : IP
  egressId : EgressId
  port : PortT
  added : Bool
deriving DecidableEq

/-- A `BcmEcmpHost`: the owned next-hop set `fwd_` plus `egressId_` and
`ecmpEgressId_`. -/
structure BcmEcmpHostObj where
  vrf : Vrf
  fwd : List Nexthop
  egressId : EgressId
  ecmpEgressId : EgressId
deriving DecidableEq

/-- The significant fields of an `opennsl_l3_host_t` structure. -/
structure L3HostRec where
  flags : Nat
  vrf : Vrf
  intf : EgressId
deriving DecidableEq

/-- The significant fields of an `opennsl_l3_route_t` structure as kept by
the warm-boot cache. -/
structure L3RouteRec where
  flags : Nat
  intf : EgressId
deriving DecidableEq

/-- Trace events: vendor-SDK calls that were issued, plus the two
cross-component invocations the claims talk about (`updatePortEgressMapping`
and `egressResolutionChangedMaybeLocked`). -/
inductive Event where
  | hostAdd (vrf : Vrf) (ip : IP) (intf : EgressId) (flags : Nat)
  | hostDelete (vrf : Vrf) (ip : IP)
  | routeAdd (vrf : Vrf) (pfx : IP) (len : Nat) (intf : EgressId) (flags : Nat)
  | egressProgramHw (eid : EgressId) (intf : Nat) (mac : Option Nat)
      (action : RouteForwardAction)
  | egressDestroyHw (eid : EgressId)
  | ecmpCreateHw (eid : EgressId) (paths : List EgressId)
  | portEgressUpdate (eid : EgressId) (oldPort newPort : PortT)
  | resolutionChanged (paths : List EgressId) (up : Bool) (locked : Bool)
deriving DecidableEq

/-- Immutable environment: the SDK-call success oracle, the platform's
host-route capability (`BcmPlatform::canUseHostTableForHostRoutes`), the
process-wide drop and to-CPU egress ids, and the interface table
(`BcmIntfTable`, here just `InterfaceID → hardware if-id`). -/
structure Env where
  hwOk : Event → Bool
  hostRoutesSupported : Bool
  dropEgressId : EgressId
  toCpuEgressId : EgressId
  intfs : List (IntfId × Nat)

/-- Mutable state: the three refcounted tables, the port↔egress index, the
warm-boot cache maps, a fresh-id source for created egress objects, and the
call trace (most recent first). -/
structure HwState where
  hosts : List ((Vrf × IP) × (BcmHostObj × Nat))
  ecmpHosts : List ((Vrf × List Nexthop) × (BcmEcmpHostObj × Nat))
  egressMap : List (EgressId × (EgressObj × Nat))
  egressId2Port : List (EgressId × PortT)
  port2EgressIds : List (PortT × List EgressId)
  vrfIp2Host : List ((Vrf × IP) × L3HostRec)
  vrfPfx2Route : List ((Vrf × IP × Nat) × L3RouteRec)
  nextEgressId : EgressId
  trace : List Event
deriving DecidableEq

/-- Outcome of a modelled C++ operation: normal return, a propagating
exception (scope guards have already run), or a fatal `CHECK`/`LOG(FATAL)`
abort. -/
inductive Outcome (α : Type) where
  | ok (a : α) (s : HwState)
  | err (s : HwState)
  | fatal (s : HwState)
deriving DecidableEq

/-- Whether an outcome is a propagating exception. -/
def Outcome.isErr : Outcome α → Bool
  | .err _ => true
  | _ => false

/-- Whether an outcome is a normal return. -/
def Outcome.isOk : Outcome α → Bool
  | .ok _ _ => true
  | _ => false

/-- The state carried by an `err` outcome, if any. -/
def Outcome.errState : Outcome α → Option HwState
  | .err s => some s
  | _ => none

/-- The state carried by an `ok` outcome, if any. -/
def Outcome.okState : Outcome α → Option HwState
  | .ok _ s => some s
  | _ => none

section AList

variable {κ ν : Type} [DecidableEq κ]

/-- Association-list lookup (first matching key). -/
def lookupA : List (κ × ν) → κ → Option ν
  | [], _ => none
  | (k', v) :: t, k => if k' = k then some v else lookupA t k

/-- Association-list update in place (first matching key). -/
def setA : List (κ × ν) → κ → ν → List (κ × ν)
  | [], _, _ => []
  | (k', v') :: t, k, v => if k' = k then (k, v) :: t else (k', v') :: setA t k v

/-- Association-list removal (first matching key). -/
def eraseA : List (κ × ν) → κ → List (κ × ν)
  | [], _ => []
  | (k', v') :: t, k => if k' = k then t else (k', v') :: eraseA t k

/-- Association-list insert-or-update (`map[k] = v`). -/
def upsertA (m : List (κ × ν)) (k : κ) (v : ν) : List (κ × ν) :=
  match lookupA m k with
  | some _ => setA m k v
  | none => (k, v) :: m

end AList

/-- Refcount of a host-table entry (0 when absent). -/
def hostRc (s : HwState) (k : Vrf × IP) : Nat :=
  match lookupA s.hosts k with
  | some (_, n) => n
  | none => 0

/-- Refcount of an ECMP-host-table entry (0 when absent). -/
def ecmpRc (s : HwState) (k : Vrf × List Nexthop) : Nat :=
  match lookupA s.ecmpHosts k with
  | some (_, n) => n
  | none => 0

/-- Refcount of an egress-table entry (0 when absent). -/
def egressRc (s : HwState) (e : EgressId) : Nat :=
  match lookupA s.egressMap e with
  | some (_, n) => n
  | none => 0

/-- Well-formedness of one refcounted table: keys are unique and every
live entry has a positive reference count. -/
def WfMap {κ ο : Type} (m : List (κ × (ο × Nat))) : Prop :=
  (m.map Prod.fst).Nodup ∧ ∀ kv ∈ m, 1 ≤ kv.2.2

instance {κ ο : Type} [DecidableEq κ] (m : List (κ × (ο × Nat))) :
    Decidable (WfMap m) := by
  unfold WfMap
  infer_instance

/-- Well-formedness of the whole state: the three refcounted tables are
well formed. -/
def Wf (s : HwState) : Prop :=
  WfMap s.hosts ∧ WfMap s.ecmpHosts ∧ WfMap s.egressMap

instance (s : HwState) : Decidable (Wf s) := by
  unfold Wf
  infer_instance

/-- `BcmHostTable::incEgressReference`: no-op on the `INVALID` and drop
sentinels; `CHECK` (fatal) when the id is not in the egress map; otherwise
bump the refcount. -/
def incEgressReference (E : Env) (s : HwState) (egressId : EgressId) :
    Outcome Unit :=
  if egressId = INVALID ∨ egressId = E.dropEgressId then .ok () s
  else
    match lookupA s.egressMap egressId with
    | none => .fatal s
    | some (obj, n) =>
      .ok () { s with egressMap := setA s.egressMap egressId (obj, n + 1) }

/-- `BcmHostTable::derefEgress`: no-op on the sentinels; `CHECK` (fatal)
when the id is unknown or its count is already zero; on reaching zero the
egress object is destroyed (its destructor releases the hardware resource,
recorded as an `egressDestroyHw` event) and removed from the map. -/
def derefEgress (E : Env) (s : HwState) (egressId : EgressId) :
    Outcome Unit :=
  if egressId = INVALID ∨ egressId = E.dropEgressId then .ok () s
  else
    match lookupA s.egressMap egressId with
    | none => .fatal s
    | some (obj, n) =>
      if n = 0 then .fatal s
      else if n = 1 then
        .ok () { s with egressMap := eraseA s.egressMap egressId,
                        trace := .egressDestroyHw egressId :: s.trace }
      else
        .ok () { s with egressMap := setA s.egressMap egressId (obj, n - 1) }

/-- `BcmHostTable::egressResolutionChangedMaybeLocked`: the claims only
observe that it is invoked and with which arguments, so the invocation is
recorded as a trace event; its body acts on `BcmEcmpEgress` objects and the
warm-boot ECMP map through SDK calls defined in `BcmEgress.cpp`, which is
outside the source excerpt. -/
def egressResolutionChangedMaybeLocked (s : HwState)
    (paths : List EgressId) (up locked : Bool) : HwState :=
  { s with trace := .resolutionChanged paths up locked :: s.trace }

/-- `BcmHostTable::updatePortEgressMapping`: records the invocation, then
rewrites the copy-on-write port→egress-ids map and the reverse
egress-id→port map exactly as the source does, and finally, on a
resolution transition (`cameUp`/`wentDown`), invokes
`egressResolutionChangedMaybeLocked` with the singleton path set,
`up = cameUp`, and `locked = true`. -/
def updatePortEgressMapping (s0 : HwState) (egressId : EgressId)
    (oldPort newPort : PortT) : Outcome Unit :=
  let s := { s0 with trace := .portEgressUpdate egressId oldPort newPort :: s0.trace }
  let afterOld : Outcome Unit :=
    if oldPort = 0 then .ok () s
    else
      match lookupA s.port2EgressIds oldPort with
      | none => .fatal s
      | some ids =>
        let ids' := ids.filter (fun x => x ≠ egressId)
        let pm := if ids' = [] then eraseA s.port2EgressIds oldPort
                  else setA s.port2EgressIds oldPort ids'
        .ok () { s with egressId2Port := eraseA s.egressId2Port egressId,
                        port2EgressIds := pm }
  match afterOld with
  | .ok _ s1 =>
    let s2 :=
      if newPort = 0 then s1
      else
        let pm :=
          match lookupA s1.port2EgressIds newPort with
          | some ids =>
            setA s1.port2EgressIds newPort
              (if egressId ∈ ids then ids else ids ++ [egressId])
          | none => (newPort, [egressId]) :: s1.port2EgressIds
        { s1 with egressId2Port := upsertA s1.egressId2Port egressId newPort,
                  port2EgressIds := pm }
    let cameUp := oldPort = 0 ∧ newPort ≠ 0
    let wentDown := oldPort ≠ 0 ∧ newPort = 0
    if cameUp ∨ wentDown then
      .ok () (egressResolutionChangedMaybeLocked s2 [egressId]
        (decide (newPort ≠ 0)) true)
    else .ok () s2
  | r => r

/-- `BcmHost::BcmHost`: adopt the referenced egress id and take a reference
on it via `incEgressReference`.  The field initializers `port_ = 0` and
`added_ = false` come from `BcmHost.h`; they are modelled from the spec
("`port` (0 if unresolved/drop/to-cpu)", "`added` (true once a hardware L3
host entry exists)"). -/
def bcmHostCtor (E : Env) (s : HwState) (vrf : Vrf) (addr : IP)
    (referencedEgress : EgressId) : Outcome BcmHostObj :=
  match incEgressReference E s referencedEgress with
  | .ok _ s' => .ok ⟨vrf, addr, referencedEgress, 0, false⟩ s'
  | .err s' => .err s'
  | .fatal s' => .fatal s'

/-- `BcmHost::initHostCommon`: sets `l3a_flags |= OPENNSL_L3_IP6` for a v6
address, `l3a_vrf`, and `l3a_intf = getEgressId()`. -/
def initHostCommon (h : BcmHostObj) : L3HostRec :=
  { flags := if h.addr.isV6 then L3_IP6 else 0, vrf := h.vrf, intf := h.egressId }

/-- `BcmHost::addBcmHost`: return if already added; otherwise build the
`opennsl_l3_host_t` (adding `MULTIPATH` when requested) and consult the
warm-boot cache: on a hit, compare only the `IP6` and `MULTIPATH` flag
bits plus `l3a_vrf` and `l3a_intf`; equivalent ⇒ elide the hardware call
and claim the cache entry, different ⇒ `LOG(FATAL)`.  On a miss issue
`opennsl_l3_host_add` (fallible).  Finally set `added_`. -/
def addBcmHostObj (E : Env) (s : HwState) (h : BcmHostObj)
    (isMultipath : Bool) : Outcome BcmHostObj :=
  if h.added then .ok h s
  else
    let r0 := initHostCommon h
    let r1 := if isMultipath then { r0 with flags := r0.flags ||| L3_MULTIPATH }
              else r0
    match lookupA s.vrfIp2Host (h.vrf, h.addr) with
    | some cached =>
      if cached.flags &&& L3_IP6 = r1.flags &&& L3_IP6 ∧
         cached.flags &&& L3_MULTIPATH = r1.flags &&& L3_MULTIPATH ∧
         cached.vrf = r1.vrf ∧ cached.intf = r1.intf then
        .ok { h with added := true }
          { s with vrfIp2Host := eraseA s.vrfIp2Host (h.vrf, h.addr) }
      else .fatal s
    | none =>
      let ev := Event.hostAdd h.vrf h.addr r1.intf r1.flags
      let s1 := { s with trace := ev :: s.trace }
      if E.hwOk ev then .ok { h with added := true } s1
      else .err s1

/-- Overwrite the stored object of a live host-table entry, keeping its
refcount (the C++ code mutates the object behind the map's `unique_ptr` in
place). -/
def setHostObj (s : HwState) (k : Vrf × IP) (h : BcmHostObj) : HwState :=
  match lookupA s.hosts k with
  | some (_, n) => { s with hosts := setA s.hosts k (h, n) }
  | none => s

/-- Shared tail of `BcmHost::program` once the egress object has been
programmed and (for a fresh egress) inserted: run `addBcmHost` if no host
entry was added yet, update `port_`, and refresh the port↔egress index. -/
def bcmHostProgramFinish (E : Env) (s : HwState) (vrf : Vrf) (addr : IP)
    (h1 : BcmHostObj) (port : PortT) : Outcome Unit :=
  let s3 := setHostObj s (vrf, addr) h1
  match addBcmHostObj E s3 h1 false with
  | .ok h2 s4 =>
    let oldPort := h2.port
    let h3 := { h2 with port := port }
    let s5 := setHostObj s4 (vrf, addr) h3
    updatePortEgressMapping s5 h1.egressId oldPort port
  | .err s4 => .err s4
  | .fatal s4 => .fatal s4

/-- `BcmHost::program` on the host stored under `(vrf, addr)` (the C++
method receiver; the call sites modelled here always pass a live entry).
If `egressId_` is `INVALID` a fresh `BcmEgress` is created and programmed
(the `BcmEgress::program*` bodies live in `BcmEgress.cpp`, outside the
excerpt, and are modelled from the spec as one fallible hardware call, with
the id assigned on success); otherwise the existing egress object is
fetched (`CHECK(egress)` and the `dynamic_cast` to a unicast egress are
fatal on failure) and reprogrammed.  A created egress is then adopted
(`egressId_ = createdEgress->getID()`) and inserted into the egress table
with refcount 1 (`insertBcmEgress`, whose `CHECK` rejects duplicate ids). -/
def bcmHostProgram (E : Env) (s : HwState) (vrf : Vrf) (addr : IP)
    (intf : Nat) (mac : Option Nat) (port : PortT)
    (action : RouteForwardAction) : Outcome Unit :=
  match lookupA s.hosts (vrf, addr) with
  | none => .fatal s
  | some (h, _) =>
    if h.egressId = INVALID then
      let eid := s.nextEgressId
      let ev := Event.egressProgramHw eid intf mac action
      let s1 := { s with trace := ev :: s.trace }
      if E.hwOk ev then
        if (lookupA s1.egressMap eid).isSome then .fatal s1
        else
          let s2 := { s1 with nextEgressId := eid + 1,
                              egressMap := (eid, (⟨.unicast, []⟩, 1)) :: s1.egressMap }
          bcmHostProgramFinish E s2 vrf addr { h with egressId := eid } port
      else .err s1
    else
      match lookupA s.egressMap h.egressId with
      | none => .fatal s
      | some (obj, _) =>
        if obj.kind = .ecmp then .fatal s
        else
          let ev := Event.egressProgramHw h.egressId intf mac action
          let s1 := { s with trace := ev :: s.trace }
          if E.hwOk ev then bcmHostProgramFinish E s1 vrf addr h port
          else .err s1

/-- Modelled from the spec: the inline `BcmHost::programToCPU(intf)`
convenience wrapper declared in `BcmHost.h` (outside the excerpt) —
"program it `to_cpu` on the given interface's hardware interface-id";
to-CPU entries carry no MAC and port 0. -/
def bcmHostProgramToCPU (E : Env) (s : HwState) (vrf : Vrf) (addr : IP)
    (intf : Nat) : Outcome Unit :=
  bcmHostProgram E s vrf addr intf none 0 .toCpu

/-- `BcmHost::~BcmHost`: nothing at all when the host was never added;
otherwise delete the hardware entry (`bcmLogFatal` on failure), refresh the
port↔egress index with `updatePortEgressMapping(egressId_, port_, 0)`, and
release the egress reference with `derefEgress(egressId_)`. -/
def bcmHostDtor (E : Env) (s : HwState) (h : BcmHostObj) : Outcome Unit :=
  if h.added = false then .ok () s
  else
    let ev := Event.hostDelete h.vrf h.addr
    let s1 := { s with trace := ev :: s.trace }
    if E.hwOk ev then
      match updatePortEgressMapping s1 h.egressId h.port 0 with
      | .ok _ s2 => derefEgress E s2 h.egressId
      | r => r
    else .fatal s1

/-- `BcmHostTable::derefBcmHost` (host variant): absent key is a silent
no-op; `CHECK_GT(entry.second, 0)`; on reaching zero the entry is erased
and the `BcmHost` destructor runs. -/
def derefBcmHost (E : Env) (s : HwState) (vrf : Vrf) (addr : IP) :
    Outcome Unit :=
  match lookupA s.hosts (vrf, addr) with
  | none => .ok () s
  | some (h, n) =>
    if n = 0 then .fatal s
    else if n = 1 then
      bcmHostDtor E { s with hosts := eraseA s.hosts (vrf, addr) } h
    else .ok () { s with hosts := setA s.hosts (vrf, addr) (h, n - 1) }

/-- The `nullptr` placeholder emplaced by `incRefOrCreateBcmHost` before
the constructor runs; it is never observed (overwritten on success, erased
by the scope guard on failure). -/
def hostPlaceholder : BcmHostObj := ⟨0, .v4 0, INVALID, 0, false⟩

/-- `BcmHostTable::incRefOrCreateBcmHost` (host variant, with a referenced
egress id): an existing entry just gets its refcount bumped; otherwise a
placeholder `(nullptr, 1)` is emplaced, the `BcmHost` constructor runs, and
the `SCOPE_FAIL` guard erases the placeholder if the constructor throws. -/
def incRefOrCreateBcmHostE (E : Env) (s : HwState) (vrf : Vrf) (addr : IP)
    (egressId : EgressId) : Outcome BcmHostObj :=
  match lookupA s.hosts (vrf, addr) with
  | some (h, n) => .ok h { s with hosts := setA s.hosts (vrf, addr) (h, n + 1) }
  | none =>
    let s1 := { s with hosts := ((vrf, addr), (hostPlaceholder, 1)) :: s.hosts }
    match bcmHostCtor E s1 vrf addr egressId with
    | .ok h s2 => .ok h (setHostObj s2 (vrf, addr) h)
    | .err s2 => .err { s2 with hosts := eraseA s2.hosts (vrf, addr) }
    | .fatal s2 => .fatal s2

/-- `BcmHostTable::incRefOrCreateBcmHost` (host variant without an egress
id): the `BcmHost.h` declaration defaults `referenced_egress` to
`BcmEgressBase::INVALID` (modelled from the spec's optional `egress_id`
argument), on which `incEgressReference` is a no-op. -/
def incRefOrCreateBcmHost (E : Env) (s : HwState) (vrf : Vrf) (addr : IP) :
    Outcome BcmHostObj :=
  incRefOrCreateBcmHostE E s vrf addr INVALID

/-- Modelled from the spec: `BcmHost::isProgrammed` (inline in `BcmHost.h`,
outside the excerpt).  The spec's host state machine counts a host as
programmed once it has a hardware entry, i.e. once `added_` is set. -/
def BcmHostObj.isProgrammed (h : BcmHostObj) : Bool := h.added

/-- `BcmEcmpEgress::Paths` insertion (a set: insert only when absent). -/
def insertPath (paths : List EgressId) (e : EgressId) : List EgressId :=
  if e ∈ paths then paths else paths ++ [e]

/-- Deref every host named by a next-hop list in order — the body of the
`SCOPE_FAIL` rollback in `BcmEcmpHost::BcmEcmpHost` and the member-release
loop of `BcmEcmpHost::~BcmEcmpHost`. -/
def derefNexthops (E : Env) (vrf : Vrf) :
    List Nexthop → HwState → Outcome Unit
  | [], s => .ok () s
  | n :: t, s =>
    match derefBcmHost E s vrf n.nexthop with
    | .ok _ s' => derefNexthops E vrf t s'
    | .err s' => .err s'
    | .fatal s' => .fatal s'

/-- Result of the per-nexthop loop of `BcmEcmpHost::BcmEcmpHost`: on
success the candidate path set and the acquired set `prog`; on an
exception the `prog` acquired so far (for the `SCOPE_FAIL` guard). -/
inductive ELoop where
  | ok (paths : List EgressId) (prog : List Nexthop) (s : HwState)
  | err (prog : List Nexthop) (s : HwState)
  | fatal (s : HwState)

/-- The per-nexthop loop of `BcmEcmpHost::BcmEcmpHost`: take a reference
on each member host (`incRefOrCreateBcmHost`), record it in `prog`
(`CHECK(ret.second)` on a duplicate), program an unprogrammed host to CPU
on the nexthop interface's hardware if-id (`getBcmIntf` throws when the
interface is unknown), and collect the host's egress id into the
candidate path set. -/
def ecmpLoop (E : Env) (vrf : Vrf) :
    List Nexthop → HwState → List Nexthop → List EgressId → ELoop
  | [], s, prog, paths => .ok paths prog s
  | nhop :: rest, s, prog, paths =>
    match incRefOrCreateBcmHost E s vrf nhop.nexthop with
    | .fatal s' => .fatal s'
    | .err s' => .err prog s'
    | .ok host s' =>
      if nhop ∈ prog then .fatal s'
      else
        let prog' := prog ++ [nhop]
        if host.isProgrammed then
          ecmpLoop E vrf rest s' prog' (insertPath paths host.egressId)
        else
          match lookupA E.intfs nhop.intf with
          | none => .err prog' s'
          | some bcmIf =>
            match bcmHostProgramToCPU E s' vrf nhop.nexthop bcmIf with
            | .ok _ s2 =>
              match lookupA s2.hosts (vrf, nhop.nexthop) with
              | some (h2, _) =>
                ecmpLoop E vrf rest s2 prog' (insertPath paths h2.egressId)
              | none => .fatal s2
            | .err s2 => .err prog' s2
            | .fatal s2 => .fatal s2

/-- `BcmEcmpHost::BcmEcmpHost`: `CHECK_GT(fwd.size(), 0)`; run the member
loop with its `SCOPE_FAIL` rollback (deref every host acquired so far on
an exception); with a single candidate path adopt it directly and leave
`ecmpEgressId_ = INVALID` (its `BcmHost.h` default initializer, modelled
from the spec); otherwise construct a `BcmEcmpEgress` holding the path
set — its constructor programs the hardware ECMP group (`BcmEgress.cpp`,
outside the excerpt; modelled from the spec as one fallible call that
assigns the id) — and insert it into the egress table. -/
def bcmEcmpHostCtor (E : Env) (s0 : HwState) (vrf : Vrf)
    (fwd : List Nexthop) : Outcome BcmEcmpHostObj :=
  if fwd = [] then .fatal s0
  else
    match ecmpLoop E vrf fwd s0 [] [] with
    | .fatal s => .fatal s
    | .err prog s =>
      match derefNexthops E vrf prog s with
      | .ok _ s' => .err s'
      | .err s' => .err s'
      | .fatal s' => .fatal s'
    | .ok paths prog s =>
      match paths with
      | [e] => .ok ⟨vrf, prog, e, INVALID⟩ s
      | _ =>
        let eid := s.nextEgressId
        let ev := Event.ecmpCreateHw eid paths
        let s1 := { s with trace := ev :: s.trace }
        if E.hwOk ev then
          let s2 := { s1 with nextEgressId := eid + 1 }
          if (lookupA s2.egressMap eid).isSome then .fatal s2
          else
            .ok ⟨vrf, prog, eid, eid⟩
              { s2 with egressMap := (eid, (⟨.ecmp, paths⟩, 1)) :: s2.egressMap }
        else
          match derefNexthops E vrf prog s1 with
          | .ok _ s' => .err s'
          | .err s' => .err s'
          | .fatal s' => .fatal s'

/-- `BcmEcmpHost::~BcmEcmpHost`: deref the ECMP egress first, then deref
every member host of `fwd_`. -/
def bcmEcmpHostDtor (E : Env) (s : HwState) (h : BcmEcmpHostObj) :
    Outcome Unit :=
  match derefEgress E s h.ecmpEgressId with
  | .ok _ s1 => derefNexthops E h.vrf h.fwd s1
  | .err s1 => .err s1
  | .fatal s1 => .fatal s1

/-- `BcmHostTable::derefBcmHost` (ECMP variant): absent key is a silent
no-op; `CHECK_GT`; on zero erase the entry and run the destructor. -/
def derefBcmEcmpHost (E : Env) (s : HwState) (vrf : Vrf)
    (nhops : List Nexthop) : Outcome Unit :=
  match lookupA s.ecmpHosts (vrf, nhops) with
  | none => .ok () s
  | some (h, n) =>
    if n = 0 then .fatal s
    else if n = 1 then
      bcmEcmpHostDtor E { s with ecmpHosts := eraseA s.ecmpHosts (vrf, nhops) } h
    else .ok () { s with ecmpHosts := setA s.ecmpHosts (vrf, nhops) (h, n - 1) }

/-- The `nullptr` placeholder emplaced by the ECMP variant of
`incRefOrCreateBcmHost`; never observed. -/
def ecmpPlaceholder : BcmEcmpHostObj := ⟨0, [], INVALID, INVALID⟩

/-- Overwrite the stored object of a live ECMP-host-table entry, keeping
its refcount. -/
def setEcmpObj (s : HwState) (k : Vrf × List Nexthop) (h : BcmEcmpHostObj) :
    HwState :=
  match lookupA s.ecmpHosts k with
  | some (_, n) => { s with ecmpHosts := setA s.ecmpHosts k (h, n) }
  | none => s

/-- `BcmHostTable::incRefOrCreateBcmEcmpHost`: an existing entry just gets
its refcount bumped; otherwise a placeholder `(nullptr, 1)` is emplaced,
the `BcmEcmpHost` constructor runs, and the `SCOPE_FAIL` guard erases the
placeholder if the constructor throws. -/
def incRefOrCreateBcmEcmpHost (E : Env) (s : HwState) (vrf : Vrf)
    (fwd : List Nexthop) : Outcome BcmEcmpHostObj :=
  match lookupA s.ecmpHosts (vrf, fwd) with
  | some (h, n) =>
    .ok h { s with ecmpHosts := setA s.ecmpHosts (vrf, fwd) (h, n + 1) }
  | none =>
    let s1 := { s with ecmpHosts := ((vrf, fwd), (ecmpPlaceholder, 1)) :: s.ecmpHosts }
    match bcmEcmpHostCtor E s1 vrf fwd with
    | .ok h s2 => .ok h (setEcmpObj s2 (vrf, fwd) h)
    | .err s2 => .err { s2 with ecmpHosts := eraseA s2.ecmpHosts (vrf, fwd) }
    | .fatal s2 => .fatal s2

/-- A `BcmRoute`: key data plus `fwd_` and `added_` (a fresh route has
`added_ = false`; the initial `fwd_` value is never consulted before the
first successful program). -/
structure BcmRouteObj where
  vrf : Vrf
  pfx : IP
  len : Nat
  fwd : RouteForwardInfo
  added : Bool
deriving DecidableEq

/-- `BcmRoute::isHostRoute`: a /32 (v4) or /128 (v6) prefix. -/
def isHostRoute (r : BcmRouteObj) : Bool :=
  if r.pfx.isV6 then r.len == 128 else r.len == 32

/-- `BcmRoute::canUseHostTable`: host route and the platform allows host
routes in the host table. -/
def canUseHostTable (E : Env) (r : BcmRouteObj) : Bool :=
  isHostRoute r && E.hostRoutesSupported

/-- The `cleanupHost` lambda of `BcmRoute::program`: deref the ECMP host
for a non-empty next-hop set. -/
def cleanupHost (E : Env) (s : HwState) (vrf : Vrf)
    (nhopsClean : List Nexthop) : Outcome Unit :=
  if nhopsClean = [] then .ok () s
  else derefBcmEcmpHost E s vrf nhopsClean

/-- `BcmRoute::programHostRoute`: take a reference on (or create) the Host
keyed by the route's own prefix pointing at the chosen egress id, then
`addBcmHost(multipath)`; its `SCOPE_FAIL` guard derefs that host again if
the add throws. -/
def programHostRoute (E : Env) (s : HwState) (r : BcmRouteObj)
    (egressId : EgressId) (f : RouteForwardInfo) : Outcome Unit :=
  match incRefOrCreateBcmHostE E s r.vrf r.pfx egressId with
  | .ok host s1 =>
    match addBcmHostObj E s1 host (decide (1 < f.nhops.length)) with
    | .ok h2 s2 => .ok () (setHostObj s2 (r.vrf, r.pfx) h2)
    | .err s2 =>
      match derefBcmHost E s2 r.vrf r.pfx with
      | .ok _ s3 => .err s3
      | .err s3 => .err s3
      | .fatal s3 => .fatal s3
    | .fatal s2 => .fatal s2
  | .err s1 => .err s1
  | .fatal s1 => .fatal s1

/-- `BcmRoute::programLpmRoute`: build the `opennsl_l3_route_t` flags
(`IP6` for v6, `MULTIPATH` when more than one next hop); consult the
warm-boot cache — an equivalent cached route (full flag word and egress
id) elides the hardware call, a different one forces `REPLACE`; a
previously added route also forces `REPLACE`; issue `opennsl_l3_route_add`
(fallible) when needed, then claim the cache entry. -/
def programLpmRoute (E : Env) (s : HwState) (r : BcmRouteObj)
    (egressId : EgressId) (f : RouteForwardInfo) : Outcome Unit :=
  let flags0 := if r.pfx.isV6 then L3_IP6 else 0
  let flags1 := if 1 < f.nhops.length then flags0 ||| L3_MULTIPATH else flags0
  let cached := lookupA s.vrfPfx2Route (r.vrf, r.pfx, r.len)
  let addAndF : Bool × Nat :=
    match cached with
    | some ex =>
      if ex.flags = flags1 ∧ ex.intf = egressId then (false, flags1)
      else (true, flags1 ||| L3_REPLACE)
    | none => (true, flags1)
  let step : Outcome Unit :=
    if addAndF.1 then
      let flags2 := if r.added then addAndF.2 ||| L3_REPLACE else addAndF.2
      let ev := Event.routeAdd r.vrf r.pfx r.len egressId flags2
      let s1 := { s with trace := ev :: s.trace }
      if E.hwOk ev then .ok () s1 else .err s1
    else .ok () s
  match step with
  | .ok _ s1 =>
    .ok () (if cached.isSome then
      { s1 with vrfPfx2Route := eraseA s1.vrfPfx2Route (r.vrf, r.pfx, r.len) }
    else s1)
  | .err s1 => .err s1
  | .fatal s1 => .fatal s1

/-- `BcmRoute::program`: return immediately when already added with an
unchanged `ForwardInfo`; compute the egress id (drop/to-CPU sentinels, or
a reference on the ECMP host for the next-hop set); with the `SCOPE_FAIL`
guard armed (deref the new next hops on failure), either program through
the host table — for an already-added host route first deref the Host
keyed by the route's own prefix (`CHECK` it exists) — or program the LPM
route; on success release the old next hops (when previously added) and
commit `fwd_` and `added_`. -/
def bcmRouteProgram (E : Env) (s : HwState) (r : BcmRouteObj)
    (f : RouteForwardInfo) : Outcome BcmRouteObj :=
  if r.added ∧ f = r.fwd then .ok r s
  else
    let acquire : Outcome EgressId :=
      match f.action with
      | .drop => .ok E.dropEgressId s
      | .toCpu => .ok E.toCpuEgressId s
      | .nexthops =>
        if f.nhops = [] then .fatal s
        else
          match incRefOrCreateBcmEcmpHost E s r.vrf f.nhops with
          | .ok h s1 => .ok h.egressId s1
          | .err s1 => .err s1
          | .fatal s1 => .fatal s1
    match acquire with
    | .ok egressId s1 =>
      let step : Outcome Unit :=
        if canUseHostTable E r then
          if r.added then
            match lookupA s1.hosts (r.vrf, r.pfx) with
            | none => .fatal s1
            | some _ =>
              match derefBcmHost E s1 r.vrf r.pfx with
              | .ok _ s2 => programHostRoute E s2 r egressId f
              | .err s2 => .err s2
              | .fatal s2 => .fatal s2
          else programHostRoute E s1 r egressId f
        else programLpmRoute E s1 r egressId f
      match step with
      | .ok _ s2 =>
        match (if r.added then cleanupHost E s2 r.vrf r.fwd.nhops
               else .ok () s2) with
        | .ok _ s3 => .ok { r with fwd := f, added := true } s3
        | .err s3 => .err s3
        | .fatal s3 => .fatal s3
      | .err s2 =>
        match cleanupHost E s2 r.vrf f.nhops with
        | .ok _ s3 => .err s3
        | .err s3 => .err s3
        | .fatal s3 => .fatal s3
      | .fatal s2 => .fatal s2
    | .err s1 => .err s1
    | .fatal s1 => .fatal s1

/-- An all-success hardware oracle. -/
def oracleAllOk : Event → Bool := fun _ => true

/-- A plain environment: LPM-only platform, drop id 100, to-CPU id 101,
two software interfaces. -/
def envPlain : Env := ⟨oracleAllOk, false, 100, 101, [(1, 11), (2, 12)]⟩

/-- The empty starting state with fresh egress ids from 60. -/
def statePlain : HwState := ⟨[], [], [], [], [], [], [], 60, []⟩

/-- Concrete next hop on interface 1 toward 10.0.0.7. -/
def nhopA : Nexthop := ⟨1, .v4 7⟩

/-- Concrete next hop on interface 1 toward 10.0.0.8. -/
def nhopB : Nexthop := ⟨1, .v4 8⟩

/-- Forwarding info via `nhopA`. -/
def fwdA : RouteForwardInfo := ⟨.nexthops, [nhopA]⟩

/-- Forwarding info via `nhopB`. -/
def fwdB : RouteForwardInfo := ⟨.nexthops, [nhopB]⟩

/-- An already-added LPM route used to witness C5. -/
def routeAdded : BcmRouteObj := ⟨0, .v4 9, 24, fwdA, true⟩

/-- Warm-boot-cache fixture whose record matches the host below. -/
def wState4 : HwState := ⟨[], [], [], [], [], [((0, .v4 5), ⟨0, 0, 7⟩)], [], 60, []⟩

/-- Warm-boot-cache fixture whose record differs (cached `intf` 8 vs 7). -/
def wState4b : HwState := ⟨[], [], [], [], [], [((0, .v4 5), ⟨0, 0, 8⟩)], [], 60, []⟩

/-- An un-added host pointing at egress 7 used to witness C4. -/
def wHost4 : BcmHostObj := ⟨0, .v4 5, 7, 0, false⟩

/-- Egress-table fixture with two unicast egress objects. -/
def wState8 : HwState :=
  ⟨[], [], [(50, (⟨.unicast, []⟩, 2)), (51, (⟨.unicast, []⟩, 1))],
   [], [], [], [], 60, []⟩

/-- Whether a trace event is an `egressResolutionChanged` invocation. -/
def isResolutionEv : Event → Bool
  | .resolutionChanged _ _ _ => true
  | _ => false

/-- Number of `egressResolutionChanged` invocations recorded so far. -/
def countResolution (s : HwState) : Nat := s.trace.countP isResolutionEv


/-- The state carried by any outcome (C++ side effects persist whether the
operation returned, threw, or aborted). -/
def Outcome.stateOf : Outcome α → HwState
  | .ok _ s => s
  | .err s => s
  | .fatal s => s

/-- How many entries of a next-hop list name the host key `k` under VRF
`v` (two next hops can share an address on different interfaces). -/
def multNh (v : Vrf) (l : List Nexthop) (k : Vrf × IP) : Nat :=
  l.countP (fun n => decide ((v, n.nexthop) = k))

/-- The state produced by the witness run of `updatePortEgressMapping`. -/
def wState9r : HwState :=
  ⟨[], [], [], [(50, 5)], [(5, [50])], [], [],
   60, [.resolutionChanged [50] true true, .portEgressUpdate 50 0 5]⟩

/-- A host that was never added (`added_ = false`) but holds a reference
on egress 7 — the C1 counterexample state. -/
def stateC1 : HwState :=
  ⟨[((0, .v4 3), (⟨0, .v4 3, 7, 0, false⟩, 1))], [],
   [(7, (⟨.unicast, []⟩, 1))], [], [], [], [], 60, []⟩

/-- An added host holding one of the two references on egress 7 — the C1
witness state. -/
def stateC1b : HwState :=
  ⟨[((0, .v4 3), (⟨0, .v4 3, 7, 0, true⟩, 1))], [],
   [(7, (⟨.unicast, []⟩, 2))], [], [], [], [], 60, []⟩


/-- Net effect of a (partial) run of the `BcmEcmpHost` member loop: the
acquired set grew by `news`, each acquisition bumped exactly the named
host's refcount, and the loop touched neither the ECMP-host table nor the
warm-boot route cache; key uniqueness of the host table is preserved. -/
def LoopDelta (vrf : Vrf) (s s_f : HwState)
    (prog prog' : List Nexthop) : Prop :=
  (∃ news, prog' = prog ++ news ∧
    ∀ k, hostRc s_f k = hostRc s k + multNh vrf news k) ∧
  s_f.ecmpHosts = s.ecmpHosts ∧ s_f.vrfPfx2Route = s.vrfPfx2Route ∧
  ((s.hosts.map Prod.fst).Nodup → (s_f.hosts.map Prod.fst).Nodup)


/-- The hardware state carried by an `ELoop` result. -/
def ELoop.stateOf : ELoop → HwState
  | .ok _ _ s => s
  | .err _ s => s
  | .fatal s => s

/-- Hardware oracle that rejects exactly the host-table add of 10.0.0.8,
failing the ECMP member loop after the first member was acquired. -/
def failHostAdd8 : Event → Bool
  | .hostAdd _ (.v4 8) _ _ => false
  | _ => true

/-- LPM-only environment driven by `failHostAdd8`. -/
def envFail8 : Env := ⟨failHostAdd8, false, 100, 101, [(1, 11), (2, 12)]⟩

/-- Hardware oracle that rejects exactly the host-table add of 10.0.0.5,
failing the re-add of a host-route prefix host. -/
def failHostAdd5 : Event → Bool
  | .hostAdd _ (.v4 5) _ _ => false
  | _ => true

/-- Host-table-capable environment driven by `failHostAdd5`. -/
def envHostFail : Env := ⟨failHostAdd5, true, 100, 101, [(1, 11), (2, 12)]⟩

/-- A state holding an added host route for 10.0.0.5/32: its prefix host
and the 10.0.0.7 next-hop host (both referencing egress 50), the ECMP
host for `[nhopA]`, and egress 50 with two references. -/
def s2c : HwState :=
  ⟨[((0, .v4 7), (⟨0, .v4 7, 50, 0, true⟩, 1)),
    ((0, .v4 5), (⟨0, .v4 5, 50, 0, true⟩, 1))],
   [((0, [nhopA]), (⟨0, [nhopA], 50, INVALID⟩, 1))],
   [(50, (⟨.unicast, []⟩, 2))], [], [], [], [], 60, []⟩

/-- The already-added 10.0.0.5/32 host route programmed in `s2c`. -/
def r2c : BcmRouteObj := ⟨0, .v4 5, 32, fwdA, true⟩

/-- Hardware oracle that rejects exactly route adds for prefix 10.0.0.9. -/
def failRouteAdd9 : Event → Bool
  | .routeAdd _ (.v4 9) _ _ _ => false
  | _ => true

/-- LPM-only environment driven by `failRouteAdd9`. -/
def envFailRoute : Env := ⟨failRouteAdd9, false, 100, 101, [(1, 11), (2, 12)]⟩

/-- A never-added 10.0.0.9/24 route (the initial `fwd_` is never read). -/
def rFresh : BcmRouteObj := ⟨0, .v4 9, 24, ⟨.drop, []⟩, false⟩

/-- Recognizer for `opennsl_l3_route_add` trace events. -/
def isRouteAddEv : Event → Bool
  | .routeAdd _ _ _ _ _ => true
  | _ => false

/-- Number of hardware route-programming calls recorded in the trace. -/
def countRouteAdds (s : HwState) : Nat :=
  s.trace.countP (fun e => isRouteAddEv e)

/-- The host table's (key, refcount) pairs, for comparing refcounts across
two states wholesale. -/
def hostRcList (s : HwState) : List ((Vrf × IP) × Nat) :=
  s.hosts.map (fun kv => (kv.1, kv.2.2))

/-- The ECMP-host table's (key, refcount) pairs. -/
def ecmpRcList (s : HwState) : List ((Vrf × List Nexthop) × Nat) :=
  s.ecmpHosts.map (fun kv => (kv.1, kv.2.2))

/-- Sequential `BcmRoute::program` calls on one route object — the call
pattern of the spec's round-trip laws. -/
def programChain (E : Env) (s : HwState) (r : BcmRouteObj) :
    List RouteForwardInfo → Outcome BcmRouteObj
  | [] => .ok r s
  | f :: t =>
    match bcmRouteProgram E s r f with
    | .ok r2 s2 => programChain E s2 r2 t
    | .err s2 => .err s2
    | .fatal s2 => .fatal s2

/-- The state after the single-member ECMP loop over `[nhopA]`. -/
def sC6 : HwState := (ecmpLoop envPlain 0 [nhopA] statePlain [] []).stateOf

/-- The EcmpHost the constructor builds for the single member `nhopA`:
it adopts egress 60 directly and leaves `ecmpEgressId_` INVALID. -/
def hC6 : BcmEcmpHostObj := ⟨0, [nhopA], 60, INVALID⟩

/-- Outcome of the egress-id acquisition phase of a successful
`BcmRoute::program` call: the sentinel actions leave the state alone, the
`NEXTHOPS` action takes a reference on the ECMP host. -/
def AcqSpec (E : Env) (vrf : Vrf) (s : HwState) (f : RouteForwardInfo)
    (sA : HwState) : Prop :=
  (f.nhops = [] ∧ sA = s) ∨
  (f.action = .nexthops ∧ f.nhops ≠ [] ∧
    ∃ h, incRefOrCreateBcmEcmpHost E s vrf f.nhops = .ok h sA)

/-- Outcome of the old-next-hop cleanup phase of a successful
`BcmRoute::program` call on an already-added route. -/
def ClnSpec (E : Env) (vrf : Vrf) (sP : HwState) (old : List Nexthop)
    (s' : HwState) : Prop :=
  (old = [] ∧ s' = sP) ∨
  (old ≠ [] ∧ derefBcmEcmpHost E sP vrf old = .ok () s')

section AListLemmas

variable {κ ν : Type} [DecidableEq κ]

theorem lookupA_setA_self (m : List (κ × ν)) (k : κ) (v : ν)
    (h : (lookupA m k).isSome) : lookupA (setA m k v) k = some v := by
  induction m with
  | nil => simp [lookupA] at h
  | cons p t ih =>
    obtain ⟨k', v'⟩ := p
    by_cases hk : k' = k
    · subst hk; simp [lookupA, setA]
    · simp [lookupA, setA, hk] at h ⊢
      exact ih h

theorem lookupA_setA_ne (m : List (κ × ν)) (k j : κ) (v : ν)
    (h : j ≠ k) : lookupA (setA m k v) j = lookupA m j := by
  induction m with
  | nil => simp [setA]
  | cons p t ih =>
    obtain ⟨k', v'⟩ := p
    by_cases hk : k' = k
    · subst hk
      have hj : ¬ (k' = j) := fun hh => h hh.symm
      simp [setA, lookupA, hj]
    · simp [setA, lookupA, hk]
      by_cases hj : k' = j
      · simp [hj]
      · simp [hj, ih]

theorem lookupA_none_of_not_mem {m : List (κ × ν)} {k : κ}
    (h : k ∉ m.map Prod.fst) : lookupA m k = none := by
  induction m with
  | nil => rfl
  | cons p t ih =>
    obtain ⟨k', v'⟩ := p
    simp only [List.map_cons, List.mem_cons] at h
    push_neg at h
    have hne : ¬ (k' = k) := fun hh => h.1 hh.symm
    simp only [lookupA, if_neg hne]
    exact ih h.2

theorem lookupA_eraseA_self (m : List (κ × ν)) (k : κ)
    (hnd : (m.map Prod.fst).Nodup) : lookupA (eraseA m k) k = none := by
  induction m with
  | nil => simp [eraseA, lookupA]
  | cons p t ih =>
    obtain ⟨k', v'⟩ := p
    simp at hnd
    by_cases hk : k' = k
    · subst hk
      simp [eraseA]
      exact lookupA_none_of_not_mem (by simpa using hnd.1)
    · simp [eraseA, hk, lookupA]
      exact ih hnd.2

theorem lookupA_eraseA_ne (m : List (κ × ν)) (k j : κ)
    (h : j ≠ k) : lookupA (eraseA m k) j = lookupA m j := by
  induction m with
  | nil => simp [eraseA]
  | cons p t ih =>
    obtain ⟨k', v'⟩ := p
    by_cases hk : k' = k
    · subst hk
      have hj : ¬ (k' = j) := fun hh => h hh.symm
      simp [eraseA, lookupA, hj]
    · simp [eraseA, hk, lookupA]
      by_cases hj : k' = j
      · simp [hj]
      · simp [hj, ih]

theorem map_fst_setA (m : List (κ × ν)) (k : κ) (v : ν)
    (h : (lookupA m k).isSome) :
    (setA m k v).map Prod.fst = m.map Prod.fst := by
  induction m with
  | nil => simp [setA]
  | cons p t ih =>
    obtain ⟨k', v'⟩ := p
    by_cases hk : k' = k
    · subst hk; simp [setA]
    · simp [lookupA, hk] at h
      simp [setA, hk, ih h]

theorem lookupA_isSome_of_eq {m : List (κ × ν)} {k : κ} {v : ν}
    (h : lookupA m k = some v) : (lookupA m k).isSome := by
  simp [h]

theorem lookupA_none_not_mem {m : List (κ × ν)} {k : κ}
    (h : lookupA m k = none) : k ∉ m.map Prod.fst := by
  induction m with
  | nil => simp
  | cons p t ih =>
    obtain ⟨k', v'⟩ := p
    by_cases hk : k' = k
    · simp [lookupA, hk] at h
    · simp only [lookupA, if_neg hk] at h
      simp only [List.map_cons, List.mem_cons]
      push_neg
      exact ⟨fun hh => hk hh.symm, ih h⟩

theorem eraseA_sublist (m : List (κ × ν)) (k : κ) : (eraseA m k).Sublist m := by
  induction m with
  | nil => simp [eraseA]
  | cons p t ih =>
    obtain ⟨k', v'⟩ := p
    by_cases hk : k' = k
    · simp [eraseA, hk]
    · simp [eraseA, hk]
      exact ih

theorem nodup_eraseA (m : List (κ × ν)) (k : κ)
    (h : (m.map Prod.fst).Nodup) : ((eraseA m k).map Prod.fst).Nodup :=
  ((eraseA_sublist m k).map Prod.fst).nodup h

end AListLemmas

/-- C5: for every route already programmed (`added = true`), calling
`program` again with a `ForwardInfo` equal to the stored one returns
immediately with the route and the state untouched — no hardware call is
issued and no reference count changes. -/
theorem c5_idempotent_program (E : Env) (s : HwState) (r : BcmRouteObj)
    (f : RouteForwardInfo) (hadded : r.added = true) (heq : f = r.fwd) :
    bcmRouteProgram E s r f = .ok r s := by
  unfold bcmRouteProgram
  simp [hadded, heq]

theorem c5_witness :
    routeAdded.added = true ∧ fwdA = routeAdded.fwd ∧
      bcmRouteProgram envPlain statePlain routeAdded fwdA =
        .ok routeAdded statePlain :=
  ⟨rfl, rfl, c5_idempotent_program envPlain statePlain routeAdded fwdA rfl rfl⟩

/-- C4: on the first hardware add of a host whose `(vrf, ip)` key is in
the warm-boot cache, the new `opennsl_l3_host_t` is compared with the
cached record exactly on the `IP6` and `MULTIPATH` flag bits plus the
`vrf` and `intf` fields: if all four match, no `opennsl_l3_host_add` is
issued (the returned state's trace is untouched) and the cache entry is
claimed (erased); if any differs the outcome is fatal
(`LOG(FATAL) << "Host entries should never change"`). -/
theorem c4_warm_boot_host_match (E : Env) (s : HwState) (h : BcmHostObj)
    (isMultipath : Bool) (cached : L3HostRec)
    (hadded : h.added = false)
    (hcache : lookupA s.vrfIp2Host (h.vrf, h.addr) = some cached) :
    ((cached.flags &&& L3_IP6 =
        ((if h.addr.isV6 then L3_IP6 else 0) |||
         (if isMultipath then L3_MULTIPATH else 0)) &&& L3_IP6 ∧
      cached.flags &&& L3_MULTIPATH =
        ((if h.addr.isV6 then L3_IP6 else 0) |||
         (if isMultipath then L3_MULTIPATH else 0)) &&& L3_MULTIPATH ∧
      cached.vrf = h.vrf ∧ cached.intf = h.egressId) →
        addBcmHostObj E s h isMultipath =
          .ok { h with added := true }
            { s with vrfIp2Host := eraseA s.vrfIp2Host (h.vrf, h.addr) }) ∧
    (¬(cached.flags &&& L3_IP6 =
        ((if h.addr.isV6 then L3_IP6 else 0) |||
         (if isMultipath then L3_MULTIPATH else 0)) &&& L3_IP6 ∧
       cached.flags &&& L3_MULTIPATH =
        ((if h.addr.isV6 then L3_IP6 else 0) |||
         (if isMultipath then L3_MULTIPATH else 0)) &&& L3_MULTIPATH ∧
       cached.vrf = h.vrf ∧ cached.intf = h.egressId) →
        addBcmHostObj E s h isMultipath = .fatal s) := by
  unfold addBcmHostObj initHostCommon
  cases isMultipath with
  | false => simp [hadded, hcache]
  | true => simp [hadded, hcache]

theorem c4_witness :
    (addBcmHostObj envPlain wState4 wHost4 false =
      .ok { wHost4 with added := true }
        { wState4 with vrfIp2Host := eraseA wState4.vrfIp2Host (0, .v4 5) }) ∧
    (addBcmHostObj envPlain wState4b wHost4 false = .fatal wState4b) :=
  ⟨(c4_warm_boot_host_match envPlain wState4 wHost4 false ⟨0, 0, 7⟩ rfl
      (by decide)).1 (by decide),
   (c4_warm_boot_host_match envPlain wState4b wHost4 false ⟨0, 0, 8⟩ rfl
      (by decide)).2 (by decide)⟩

/-- C8: `incEgressReference` and `derefEgress` are no-ops for the
`INVALID` sentinel and the process-wide drop id; for any other id an
absent entry is a fatal assertion failure, and a present entry has its
refcount incremented resp. decremented, `derefEgress` destroying the
object (hardware release recorded) and removing it from the map when the
count reaches zero. -/
theorem c8_egress_refcounting (E : Env) (s : HwState) (eid : EgressId)
    (hnd : (s.egressMap.map Prod.fst).Nodup) :
    ((eid = INVALID ∨ eid = E.dropEgressId) →
        incEgressReference E s eid = .ok () s ∧
        derefEgress E s eid = .ok () s) ∧
    (¬(eid = INVALID ∨ eid = E.dropEgressId) →
      (lookupA s.egressMap eid = none →
          incEgressReference E s eid = .fatal s ∧
          derefEgress E s eid = .fatal s) ∧
      (∀ obj n, lookupA s.egressMap eid = some (obj, n) →
        ((incEgressReference E s eid).isOk = true ∧
         ∀ s', incEgressReference E s eid = .ok () s' →
            egressRc s' eid = n + 1 ∧
            (∀ j, j ≠ eid → egressRc s' j = egressRc s j) ∧
            s'.hosts = s.hosts ∧ s'.ecmpHosts = s.ecmpHosts ∧
            s'.trace = s.trace) ∧
        (n = 0 → derefEgress E s eid = .fatal s) ∧
        (n = 1 → (derefEgress E s eid).isOk = true ∧
         ∀ s', derefEgress E s eid = .ok () s' →
            lookupA s'.egressMap eid = none ∧
            (∀ j, j ≠ eid → egressRc s' j = egressRc s j) ∧
            s'.hosts = s.hosts ∧ s'.ecmpHosts = s.ecmpHosts ∧
            s'.trace = Event.egressDestroyHw eid :: s.trace) ∧
        (2 ≤ n → (derefEgress E s eid).isOk = true ∧
         ∀ s', derefEgress E s eid = .ok () s' →
            egressRc s' eid = n - 1 ∧
            (∀ j, j ≠ eid → egressRc s' j = egressRc s j) ∧
            s'.hosts = s.hosts ∧ s'.ecmpHosts = s.ecmpHosts ∧
            s'.trace = s.trace))) := by
  constructor
  · intro hs
    unfold incEgressReference derefEgress
    simp [hs]
  · intro hs
    constructor
    · intro hnone
      unfold incEgressReference derefEgress
      simp [hs, hnone]
    · intro obj n hsome
      refine ⟨⟨?_, ?_⟩, ?_, ?_, ?_⟩
      · unfold incEgressReference
        simp [hs, hsome, Outcome.isOk]
      · intro s' heq
        unfold incEgressReference at heq
        simp [hs, hsome] at heq
        subst heq
        refine ⟨?_, ?_, rfl, rfl, rfl⟩
        · simp [egressRc,
            lookupA_setA_self s.egressMap eid (obj, n + 1)
              (lookupA_isSome_of_eq hsome)]
        · intro j hj
          simp [egressRc, lookupA_setA_ne s.egressMap eid j (obj, n + 1) hj]
      · intro h0
        unfold derefEgress
        simp [hs, hsome, h0]
      · intro h1
        constructor
        · unfold derefEgress
          simp [hs, hsome, h1, Outcome.isOk]
        · intro s' heq
          unfold derefEgress at heq
          simp [hs, hsome, h1] at heq
          subst heq
          refine ⟨?_, ?_, rfl, rfl, rfl⟩
          · simpa using lookupA_eraseA_self s.egressMap eid hnd
          · intro j hj
            simp [egressRc, lookupA_eraseA_ne s.egressMap eid j hj]
      · intro h2
        have hn0 : ¬ (n = 0) := by omega
        have hn1 : ¬ (n = 1) := by omega
        constructor
        · unfold derefEgress
          simp [hs, hsome, hn0, hn1, Outcome.isOk]
        · intro s' heq
          unfold derefEgress at heq
          simp [hs, hsome, hn0, hn1] at heq
          subst heq
          refine ⟨?_, ?_, rfl, rfl, rfl⟩
          · simp [egressRc,
              lookupA_setA_self s.egressMap eid (obj, n - 1)
                (lookupA_isSome_of_eq hsome)]
          · intro j hj
            simp [egressRc, lookupA_setA_ne s.egressMap eid j (obj, n - 1) hj]

theorem c8_witness :
    (incEgressReference envPlain wState8 INVALID = .ok () wState8 ∧
     derefEgress envPlain wState8 INVALID = .ok () wState8) ∧
    (incEgressReference envPlain wState8 77 = .fatal wState8 ∧
     derefEgress envPlain wState8 77 = .fatal wState8) ∧
    (incEgressReference envPlain wState8 50).isOk = true :=
  ⟨(c8_egress_refcounting envPlain wState8 INVALID (by decide)).1 (Or.inl rfl),
   ((c8_egress_refcounting envPlain wState8 77 (by decide)).2 (by decide)).1
     (by decide),
   ((((c8_egress_refcounting envPlain wState8 50 (by decide)).2
     (by decide)).2 ⟨.unicast, []⟩ 2 (by decide)).1).1⟩

/-- C9: a successful `updatePortEgressMapping(egress_id, old_port,
new_port)` invokes `egressResolutionChanged` with the singleton path set,
`up = (new_port ≠ 0)` and `hw_locked = true` exactly when the transition
is a resolution edge — `(old_port = 0 ∧ new_port ≠ 0)` or
`(old_port ≠ 0 ∧ new_port = 0)`; otherwise no invocation happens. -/
theorem c9_resolution_edge (s : HwState) (e : EgressId) (po pn : PortT)
    (s' : HwState) (h : updatePortEgressMapping s e po pn = .ok () s') :
    (((po = 0 ∧ pn ≠ 0) ∨ (po ≠ 0 ∧ pn = 0)) →
        s'.trace.head? =
          some (.resolutionChanged [e] (decide (pn ≠ 0)) true) ∧
        countResolution s' = countResolution s + 1) ∧
    (¬((po = 0 ∧ pn ≠ 0) ∨ (po ≠ 0 ∧ pn = 0)) →
        countResolution s' = countResolution s) := by
  unfold updatePortEgressMapping egressResolutionChangedMaybeLocked at h
  by_cases ho : po = 0
  · simp [ho] at h
    by_cases hn : pn = 0
    · simp [hn] at h
      subst h
      constructor
      · intro hedge
        rcases hedge with ⟨_, hc⟩ | ⟨hc, _⟩
        · exact absurd hn hc
        · exact absurd ho hc
      · intro _
        simp [countResolution, List.countP_cons, isResolutionEv]
    · simp [hn] at h
      subst h
      constructor
      · intro _
        refine ⟨by simp [hn], ?_⟩
        simp [countResolution, List.countP_cons, isResolutionEv]
      · intro hne
        exact absurd (Or.inl ⟨ho, hn⟩) hne
  · rcases hl : lookupA s.port2EgressIds po with _ | ids
    · simp [ho, hl] at h
    · simp [ho, hl] at h
      by_cases hn : pn = 0
      · simp [hn] at h
        subst h
        constructor
        · intro _
          refine ⟨by simp [hn], ?_⟩
          simp [countResolution, List.countP_cons, isResolutionEv]
        · intro hne
          exact absurd (Or.inr ⟨ho, hn⟩) hne
      · simp [hn] at h
        subst h
        constructor
        · intro hedge
          rcases hedge with ⟨hc, _⟩ | ⟨_, hc⟩
          · exact absurd hc ho
          · exact absurd hc hn
        · intro _
          simp [countResolution, List.countP_cons, isResolutionEv]

theorem c9_witness :
    updatePortEgressMapping statePlain 50 0 5 = .ok () wState9r ∧
    wState9r.trace.head? =
      some (.resolutionChanged [50] (decide ((5 : PortT) ≠ 0)) true) ∧
    countResolution wState9r = countResolution statePlain + 1 :=
  have h : updatePortEgressMapping statePlain 50 0 5 = .ok () wState9r := by
    decide
  ⟨h, (c9_resolution_edge statePlain 50 0 5 wState9r h).1
    (Or.inl ⟨rfl, by decide⟩)⟩

theorem updatePort_frame (s : HwState) (e : EgressId) (po pn : PortT) :
    (updatePortEgressMapping s e po pn).stateOf.hosts = s.hosts ∧
    (updatePortEgressMapping s e po pn).stateOf.ecmpHosts = s.ecmpHosts ∧
    (updatePortEgressMapping s e po pn).stateOf.egressMap = s.egressMap ∧
    (updatePortEgressMapping s e po pn).stateOf.vrfIp2Host = s.vrfIp2Host ∧
    (updatePortEgressMapping s e po pn).stateOf.vrfPfx2Route = s.vrfPfx2Route ∧
    (updatePortEgressMapping s e po pn).stateOf.nextEgressId = s.nextEgressId ∧
    (∀ x ∈ s.trace, x ∈ (updatePortEgressMapping s e po pn).stateOf.trace) := by
  unfold updatePortEgressMapping egressResolutionChangedMaybeLocked
  by_cases ho : po = 0
  · by_cases hn : pn = 0 <;>
    · simp [ho, hn, Outcome.stateOf]
      intro x hx
      simp [List.mem_cons, hx]
  · rcases hl : lookupA s.port2EgressIds po with _ | ids
    · simp [ho, hl, Outcome.stateOf]
      intro x hx
      simp [List.mem_cons, hx]
    · by_cases hn : pn = 0 <;>
      · simp [ho, hl, hn, Outcome.stateOf]
        intro x hx
        simp [List.mem_cons, hx]

theorem updatePort_ok_mem (s : HwState) (e : EgressId) (po pn : PortT)
    (s' : HwState) (h : updatePortEgressMapping s e po pn = .ok () s') :
    Event.portEgressUpdate e po pn ∈ s'.trace := by
  unfold updatePortEgressMapping egressResolutionChangedMaybeLocked at h
  by_cases ho : po = 0
  · by_cases hn : pn = 0 <;>
    · simp [ho, hn] at h
      subst h
      simp [List.mem_cons, ho, hn]
  · rcases hl : lookupA s.port2EgressIds po with _ | ids
    · simp [ho, hl] at h
    · by_cases hn : pn = 0 <;>
      · simp [ho, hl, hn] at h
        subst h
        simp [List.mem_cons, ho, hn]

theorem derefEgress_frame (E : Env) (s : HwState) (e : EgressId) :
    (derefEgress E s e).stateOf.hosts = s.hosts ∧
    (derefEgress E s e).stateOf.ecmpHosts = s.ecmpHosts ∧
    (derefEgress E s e).stateOf.egressId2Port = s.egressId2Port ∧
    (derefEgress E s e).stateOf.port2EgressIds = s.port2EgressIds ∧
    (derefEgress E s e).stateOf.vrfIp2Host = s.vrfIp2Host ∧
    (derefEgress E s e).stateOf.vrfPfx2Route = s.vrfPfx2Route ∧
    (derefEgress E s e).stateOf.nextEgressId = s.nextEgressId ∧
    (∀ x ∈ s.trace, x ∈ (derefEgress E s e).stateOf.trace) := by
  unfold derefEgress
  by_cases hs : e = INVALID ∨ e = E.dropEgressId
  · simp [hs, Outcome.stateOf]
  · rcases hl : lookupA s.egressMap e with _ | ⟨obj, n⟩
    · simp [hs, hl, Outcome.stateOf]
    · by_cases h0 : n = 0
      · simp [hs, hl, h0, Outcome.stateOf]
      · by_cases h1 : n = 1
        · simp [hs, hl, h0, h1, Outcome.stateOf]
          intro x hx
          simp [List.mem_cons, hx]
        · simp [hs, hl, h0, h1, Outcome.stateOf]

theorem derefEgress_ok_rc (E : Env) (s : HwState) (e : EgressId)
    (s' : HwState) (hnd : (s.egressMap.map Prod.fst).Nodup)
    (hns : ¬(e = INVALID ∨ e = E.dropEgressId))
    (h : derefEgress E s e = .ok () s') :
    1 ≤ egressRc s e ∧ egressRc s' e = egressRc s e - 1 := by
  unfold derefEgress at h
  rcases hl : lookupA s.egressMap e with _ | ⟨obj, n⟩
  · simp [hns, hl] at h
  · by_cases h0 : n = 0
    · simp [hns, hl, h0] at h
    · by_cases h1 : n = 1
      · simp [hns, hl, h0, h1] at h
        subst h
        refine ⟨by simp [egressRc, hl]; omega, ?_⟩
        simp [egressRc, hl, h1, lookupA_eraseA_self s.egressMap e hnd]
      · simp [hns, hl, h0, h1] at h
        subst h
        refine ⟨by simp [egressRc, hl]; omega, ?_⟩
        simp [egressRc, hl,
          lookupA_setA_self s.egressMap e (obj, n - 1)
            (lookupA_isSome_of_eq hl)]

/-- C1 (amended): when a host-table entry's refcount reaches zero via
`derefBcmHost`, the `BcmHost` is destroyed (erased from the table), but
the destructor performs the two releases only when the host had been
added to hardware: for `added_ = true` the destruction invokes
`updatePortEgressMapping(egress_id, port_, 0)` and `derefEgress`
(decrementing the egress refcount); for `added_ = false` the destructor
returns immediately — the state is unchanged except for the erased entry,
so a constructor-acquired egress reference is not released. -/
theorem c1_deref_to_zero_destroys (E : Env) (s : HwState) (vrf : Vrf)
    (addr : IP) (h : BcmHostObj)
    (hnd : (s.egressMap.map Prod.fst).Nodup)
    (hlook : lookupA s.hosts (vrf, addr) = some (h, 1)) :
    (h.added = false →
      derefBcmHost E s vrf addr =
        .ok () { s with hosts := eraseA s.hosts (vrf, addr) }) ∧
    (h.added = true → ∀ s', derefBcmHost E s vrf addr = .ok () s' →
      s'.hosts = eraseA s.hosts (vrf, addr) ∧
      Event.portEgressUpdate h.egressId h.port 0 ∈ s'.trace ∧
      (¬(h.egressId = INVALID ∨ h.egressId = E.dropEgressId) →
        1 ≤ egressRc s h.egressId ∧
        egressRc s' h.egressId = egressRc s h.egressId - 1)) := by
  constructor
  · intro hadd
    unfold derefBcmHost bcmHostDtor
    simp [hlook, hadd]
  · intro hadd s' hrun
    unfold derefBcmHost bcmHostDtor at hrun
    simp [hlook, hadd] at hrun
    by_cases hok : E.hwOk (.hostDelete h.vrf h.addr)
    · simp [hok] at hrun
      split at hrun
      · next a s3 heq =>
        have hf := updatePort_frame
          { s with hosts := eraseA s.hosts (vrf, addr),
                   trace := Event.hostDelete h.vrf h.addr :: s.trace }
          h.egressId h.port 0
        rw [heq] at hf
        simp only [Outcome.stateOf] at hf
        have hmem : Event.portEgressUpdate h.egressId h.port 0 ∈ s3.trace :=
          updatePort_ok_mem _ h.egressId h.port 0 s3 heq
        have hg := derefEgress_frame E s3 h.egressId
        rw [hrun] at hg
        simp only [Outcome.stateOf] at hg
        refine ⟨?_, ?_, ?_⟩
        · rw [hg.1, hf.1]
        · exact hg.2.2.2.2.2.2.2 _ hmem
        · intro hns
          have hrc3 : ∀ j, egressRc s3 j = egressRc s j := by
            intro j
            simp [egressRc, hf.2.2.1]
          have hnd3 : (s3.egressMap.map Prod.fst).Nodup := by
            rw [hf.2.2.1]
            exact hnd
          have := derefEgress_ok_rc E s3 h.egressId s' hnd3 hns hrun
          rw [hrc3] at this
          exact this
      all_goals
        rename_i hno
        exact absurd hrun (hno () s')
    · simp [hok] at hrun

theorem c1_counterexample :
    (derefBcmHost envPlain stateC1 0 (.v4 3)).okState =
      some { stateC1 with hosts := [] } ∧
    hostRc stateC1 (0, .v4 3) = 1 ∧
    egressRc stateC1 7 = 1 ∧
    egressRc { stateC1 with hosts := [] } 7 = 1 ∧
    ({ stateC1 with hosts := [] } : HwState).trace = [] := by
  decide

theorem c1_witness :
    (⟨0, .v4 3, 7, 0, true⟩ : BcmHostObj).added = true ∧
    ∀ s', derefBcmHost envPlain stateC1b 0 (.v4 3) = .ok () s' →
      s'.hosts = eraseA stateC1b.hosts (0, .v4 3) ∧
      Event.portEgressUpdate 7 0 0 ∈ s'.trace ∧
      (¬((7 : EgressId) = INVALID ∨ (7 : EgressId) = envPlain.dropEgressId) →
        1 ≤ egressRc stateC1b 7 ∧
        egressRc s' 7 = egressRc stateC1b 7 - 1) :=
  ⟨rfl, fun s' h =>
    (c1_deref_to_zero_destroys envPlain stateC1b 0 (.v4 3)
      ⟨0, .v4 3, 7, 0, true⟩ (by decide) (by decide)).2 rfl s' h⟩

theorem incEgressReference_frame (E : Env) (s : HwState) (e : EgressId) :
    (incEgressReference E s e).stateOf.hosts = s.hosts ∧
    (incEgressReference E s e).stateOf.ecmpHosts = s.ecmpHosts ∧
    (incEgressReference E s e).stateOf.egressId2Port = s.egressId2Port ∧
    (incEgressReference E s e).stateOf.port2EgressIds = s.port2EgressIds ∧
    (incEgressReference E s e).stateOf.vrfIp2Host = s.vrfIp2Host ∧
    (incEgressReference E s e).stateOf.vrfPfx2Route = s.vrfPfx2Route ∧
    (incEgressReference E s e).stateOf.nextEgressId = s.nextEgressId ∧
    (incEgressReference E s e).stateOf.trace = s.trace := by
  unfold incEgressReference
  by_cases hs : e = INVALID ∨ e = E.dropEgressId
  · simp [hs, Outcome.stateOf]
  · rcases hl : lookupA s.egressMap e with _ | ⟨obj, n⟩ <;>
      simp [hs, hl, Outcome.stateOf]

theorem bcmHostCtor_frame (E : Env) (s : HwState) (vrf : Vrf) (addr : IP)
    (e : EgressId) :
    (bcmHostCtor E s vrf addr e).stateOf.hosts = s.hosts ∧
    (bcmHostCtor E s vrf addr e).stateOf.ecmpHosts = s.ecmpHosts ∧
    (bcmHostCtor E s vrf addr e).stateOf.egressId2Port = s.egressId2Port ∧
    (bcmHostCtor E s vrf addr e).stateOf.port2EgressIds = s.port2EgressIds ∧
    (bcmHostCtor E s vrf addr e).stateOf.vrfIp2Host = s.vrfIp2Host ∧
    (bcmHostCtor E s vrf addr e).stateOf.vrfPfx2Route = s.vrfPfx2Route ∧
    (bcmHostCtor E s vrf addr e).stateOf.nextEgressId = s.nextEgressId ∧
    (bcmHostCtor E s vrf addr e).stateOf.trace = s.trace := by
  have hf := incEgressReference_frame E s e
  unfold bcmHostCtor
  rcases hi : incEgressReference E s e with ⟨a, s1⟩ | s1 | s1 <;>
    rw [hi] at hf <;> simpa [Outcome.stateOf] using hf

theorem bcmHostCtor_ok_shape (E : Env) (s : HwState) (vrf : Vrf)
    (addr : IP) (e : EgressId) (h : BcmHostObj) (s' : HwState)
    (hok : bcmHostCtor E s vrf addr e = .ok h s') :
    h = ⟨vrf, addr, e, 0, false⟩ := by
  unfold bcmHostCtor at hok
  rcases hi : incEgressReference E s e with ⟨a, s1⟩ | s1 | s1 <;>
    rw [hi] at hok <;> simp at hok
  exact hok.1.symm

theorem stateOf_ite (c : Prop) [Decidable c] (o1 o2 : Outcome α) :
    (if c then o1 else o2).stateOf = if c then o1.stateOf else o2.stateOf := by
  split <;> rfl

theorem addBcmHostObj_frame (E : Env) (s : HwState) (h : BcmHostObj)
    (mp : Bool) :
    (addBcmHostObj E s h mp).stateOf.hosts = s.hosts ∧
    (addBcmHostObj E s h mp).stateOf.ecmpHosts = s.ecmpHosts ∧
    (addBcmHostObj E s h mp).stateOf.egressMap = s.egressMap ∧
    (addBcmHostObj E s h mp).stateOf.egressId2Port = s.egressId2Port ∧
    (addBcmHostObj E s h mp).stateOf.port2EgressIds = s.port2EgressIds ∧
    (addBcmHostObj E s h mp).stateOf.vrfPfx2Route = s.vrfPfx2Route ∧
    (addBcmHostObj E s h mp).stateOf.nextEgressId = s.nextEgressId := by
  unfold addBcmHostObj
  by_cases ha : h.added
  · simp [ha, Outcome.stateOf]
  · rw [if_neg ha]
    rcases hl : lookupA s.vrfIp2Host (h.vrf, h.addr) with _ | cached <;>
      simp only [hl] <;> split_ifs <;> simp [Outcome.stateOf]

theorem setHostObj_frame (s : HwState) (k : Vrf × IP) (h : BcmHostObj) :
    (setHostObj s k h).ecmpHosts = s.ecmpHosts ∧
    (setHostObj s k h).egressMap = s.egressMap ∧
    (setHostObj s k h).egressId2Port = s.egressId2Port ∧
    (setHostObj s k h).port2EgressIds = s.port2EgressIds ∧
    (setHostObj s k h).vrfIp2Host = s.vrfIp2Host ∧
    (setHostObj s k h).vrfPfx2Route = s.vrfPfx2Route ∧
    (setHostObj s k h).nextEgressId = s.nextEgressId ∧
    (setHostObj s k h).trace = s.trace := by
  unfold setHostObj
  rcases hl : lookupA s.hosts k with _ | ⟨h0, n⟩ <;> simp [hl]

theorem setHostObj_hostRc (s : HwState) (k : Vrf × IP) (h : BcmHostObj)
    (j : Vrf × IP) : hostRc (setHostObj s k h) j = hostRc s j := by
  unfold setHostObj
  rcases hl : lookupA s.hosts k with _ | ⟨h0, n⟩
  · simp [hl]
  · by_cases hj : j = k
    · subst hj
      simp [hostRc, hl,
        lookupA_setA_self s.hosts j (h, n) (lookupA_isSome_of_eq hl)]
    · simp [hostRc, lookupA_setA_ne s.hosts k j (h, n) hj]

theorem setHostObj_keys (s : HwState) (k : Vrf × IP) (h : BcmHostObj) :
    (setHostObj s k h).hosts.map Prod.fst = s.hosts.map Prod.fst := by
  unfold setHostObj
  rcases hl : lookupA s.hosts k with _ | ⟨h0, n⟩
  · simp [hl]
  · simp [hl, map_fst_setA s.hosts k (h, n) (lookupA_isSome_of_eq hl)]

theorem hostRc_eq_of_hosts_eq {s1 s2 : HwState} (h : s1.hosts = s2.hosts) :
    ∀ j, hostRc s1 j = hostRc s2 j := by
  intro j
  simp [hostRc, h]

theorem ecmpRc_eq_of_ecmp_eq {s1 s2 : HwState}
    (h : s1.ecmpHosts = s2.ecmpHosts) : ∀ j, ecmpRc s1 j = ecmpRc s2 j := by
  intro j
  simp [ecmpRc, h]

theorem bcmHostProgramFinish_frame (E : Env) (s : HwState) (vrf : Vrf)
    (addr : IP) (h1 : BcmHostObj) (port : PortT) :
    (∀ j, hostRc (bcmHostProgramFinish E s vrf addr h1 port).stateOf j =
      hostRc s j) ∧
    (bcmHostProgramFinish E s vrf addr h1 port).stateOf.hosts.map Prod.fst =
      s.hosts.map Prod.fst ∧
    (bcmHostProgramFinish E s vrf addr h1 port).stateOf.ecmpHosts =
      s.ecmpHosts ∧
    (bcmHostProgramFinish E s vrf addr h1 port).stateOf.vrfPfx2Route =
      s.vrfPfx2Route := by
  unfold bcmHostProgramFinish
  rcases ha : addBcmHostObj E (setHostObj s (vrf, addr) h1) h1 false
    with ⟨h2, s4⟩ | s4 | s4
  · have hfa := addBcmHostObj_frame E (setHostObj s (vrf, addr) h1) h1 false
    rw [ha] at hfa
    simp only [Outcome.stateOf] at hfa
    have hfu := updatePort_frame (setHostObj s4 (vrf, addr) { h2 with port := port })
      h1.egressId h2.port port
    simp only [ha]
    refine ⟨?_, ?_, ?_, ?_⟩
    · intro j
      rw [hostRc_eq_of_hosts_eq hfu.1 j, setHostObj_hostRc,
        hostRc_eq_of_hosts_eq hfa.1 j, setHostObj_hostRc]
    · rw [hfu.1, setHostObj_keys, hfa.1, setHostObj_keys]
    · rw [hfu.2.1, (setHostObj_frame s4 (vrf, addr) _).1, hfa.2.1,
        (setHostObj_frame s (vrf, addr) h1).1]
    · rw [hfu.2.2.2.2.1, (setHostObj_frame s4 (vrf, addr) _).2.2.2.2.2.1,
        hfa.2.2.2.2.2.1, (setHostObj_frame s (vrf, addr) h1).2.2.2.2.2.1]
  · have hfa := addBcmHostObj_frame E (setHostObj s (vrf, addr) h1) h1 false
    rw [ha] at hfa
    simp only [Outcome.stateOf] at hfa
    simp only [ha, Outcome.stateOf]
    refine ⟨?_, ?_, ?_, ?_⟩
    · intro j
      rw [hostRc_eq_of_hosts_eq hfa.1 j, setHostObj_hostRc]
    · rw [hfa.1, setHostObj_keys]
    · rw [hfa.2.1, (setHostObj_frame s (vrf, addr) h1).1]
    · rw [hfa.2.2.2.2.2.1, (setHostObj_frame s (vrf, addr) h1).2.2.2.2.2.1]
  · have hfa := addBcmHostObj_frame E (setHostObj s (vrf, addr) h1) h1 false
    rw [ha] at hfa
    simp only [Outcome.stateOf] at hfa
    simp only [ha, Outcome.stateOf]
    refine ⟨?_, ?_, ?_, ?_⟩
    · intro j
      rw [hostRc_eq_of_hosts_eq hfa.1 j, setHostObj_hostRc]
    · rw [hfa.1, setHostObj_keys]
    · rw [hfa.2.1, (setHostObj_frame s (vrf, addr) h1).1]
    · rw [hfa.2.2.2.2.2.1, (setHostObj_frame s (vrf, addr) h1).2.2.2.2.2.1]

theorem bcmHostProgramFinish_frame_trans (E : Env) (s2 s : HwState)
    (vrf : Vrf) (addr : IP) (h1 : BcmHostObj) (port : PortT)
    (hh : s2.hosts = s.hosts) (he : s2.ecmpHosts = s.ecmpHosts)
    (hr : s2.vrfPfx2Route = s.vrfPfx2Route) :
    (∀ j, hostRc (bcmHostProgramFinish E s2 vrf addr h1 port).stateOf j =
      hostRc s j) ∧
    (bcmHostProgramFinish E s2 vrf addr h1 port).stateOf.hosts.map Prod.fst =
      s.hosts.map Prod.fst ∧
    (bcmHostProgramFinish E s2 vrf addr h1 port).stateOf.ecmpHosts =
      s.ecmpHosts ∧
    (bcmHostProgramFinish E s2 vrf addr h1 port).stateOf.vrfPfx2Route =
      s.vrfPfx2Route := by
  have hf := bcmHostProgramFinish_frame E s2 vrf addr h1 port
  refine ⟨?_, ?_, ?_, ?_⟩
  · intro j
    rw [hf.1 j, hostRc_eq_of_hosts_eq hh j]
  · rw [hf.2.1, hh]
  · rw [hf.2.2.1, he]
  · rw [hf.2.2.2, hr]

theorem bcmHostProgram_frame (E : Env) (s : HwState) (vrf : Vrf)
    (addr : IP) (intf : Nat) (mac : Option Nat) (port : PortT)
    (action : RouteForwardAction) :
    (∀ j, hostRc (bcmHostProgram E s vrf addr intf mac port action).stateOf j =
      hostRc s j) ∧
    (bcmHostProgram E s vrf addr intf mac port action).stateOf.hosts.map
      Prod.fst = s.hosts.map Prod.fst ∧
    (bcmHostProgram E s vrf addr intf mac port action).stateOf.ecmpHosts =
      s.ecmpHosts ∧
    (bcmHostProgram E s vrf addr intf mac port action).stateOf.vrfPfx2Route =
      s.vrfPfx2Route := by
  unfold bcmHostProgram
  rcases hl : lookupA s.hosts (vrf, addr) with _ | ⟨h, n⟩
  · simp [hl, Outcome.stateOf, -Prod.forall]
  · simp only [hl]
    by_cases hinv : h.egressId = INVALID
    · simp [hinv, -Prod.forall]
      by_cases hok : E.hwOk (.egressProgramHw s.nextEgressId intf mac action)
      · simp [hok, -Prod.forall]
        by_cases hdup : (lookupA s.egressMap s.nextEgressId).isSome
        · simp [hdup, Outcome.stateOf, hostRc, -Prod.forall]
        · simp [hdup, -Prod.forall]
          refine bcmHostProgramFinish_frame_trans E _ s vrf addr _ port
            ?_ ?_ ?_ <;> rfl
      · simp [hok, Outcome.stateOf, hostRc, -Prod.forall]
    · simp [hinv, -Prod.forall]
      rcases he : lookupA s.egressMap h.egressId with _ | ⟨obj, m⟩
      · simp [he, Outcome.stateOf, hostRc, -Prod.forall]
      · simp only [he]
        by_cases hk : obj.kind = .ecmp
        · simp [hk, Outcome.stateOf, hostRc, -Prod.forall]
        · simp [hk, -Prod.forall]
          by_cases hok : E.hwOk (.egressProgramHw h.egressId intf mac action)
          · simp [hok, -Prod.forall]
            refine bcmHostProgramFinish_frame_trans E _ s vrf addr _ port
              ?_ ?_ ?_ <;> rfl
          · simp [hok, Outcome.stateOf, hostRc, -Prod.forall]

theorem eraseA_cons_self {κ ν : Type} [DecidableEq κ] (m : List (κ × ν))
    (k : κ) (v : ν) : eraseA ((k, v) :: m) k = m := by
  simp [eraseA]

theorem bcmHostDtor_frame (E : Env) (s : HwState) (h : BcmHostObj) :
    (bcmHostDtor E s h).stateOf.hosts = s.hosts ∧
    (bcmHostDtor E s h).stateOf.ecmpHosts = s.ecmpHosts ∧
    (bcmHostDtor E s h).stateOf.vrfIp2Host = s.vrfIp2Host ∧
    (bcmHostDtor E s h).stateOf.vrfPfx2Route = s.vrfPfx2Route ∧
    (bcmHostDtor E s h).stateOf.nextEgressId = s.nextEgressId := by
  unfold bcmHostDtor
  cases hadd : h.added with
  | false => simp [hadd, Outcome.stateOf]
  | true =>
    simp only [hadd]
    by_cases hok : E.hwOk (.hostDelete h.vrf h.addr)
    · simp [hok]
      rcases hu : updatePortEgressMapping
          { s with trace := Event.hostDelete h.vrf h.addr :: s.trace }
          h.egressId h.port 0 with ⟨a, s2⟩ | s2 | s2 <;>
        have hfu := updatePort_frame
          { s with trace := Event.hostDelete h.vrf h.addr :: s.trace }
          h.egressId h.port 0 <;>
        rw [hu] at hfu <;> simp only [Outcome.stateOf] at hfu
      · have hfd := derefEgress_frame E s2 h.egressId
        exact ⟨by rw [hfd.1, hfu.1], by rw [hfd.2.1, hfu.2.1],
          by rw [hfd.2.2.2.2.1, hfu.2.2.2.1],
          by rw [hfd.2.2.2.2.2.1, hfu.2.2.2.2.1],
          by rw [hfd.2.2.2.2.2.2.1, hfu.2.2.2.2.2.1]⟩
      · simp only [Outcome.stateOf]
        exact ⟨hfu.1, hfu.2.1, hfu.2.2.2.1, hfu.2.2.2.2.1, hfu.2.2.2.2.2.1⟩
      · simp only [Outcome.stateOf]
        exact ⟨hfu.1, hfu.2.1, hfu.2.2.2.1, hfu.2.2.2.2.1, hfu.2.2.2.2.2.1⟩
    · simp [hok, Outcome.stateOf]

theorem derefBcmHost_frame (E : Env) (s : HwState) (vrf : Vrf) (addr : IP) :
    (derefBcmHost E s vrf addr).stateOf.ecmpHosts = s.ecmpHosts ∧
    (derefBcmHost E s vrf addr).stateOf.vrfIp2Host = s.vrfIp2Host ∧
    (derefBcmHost E s vrf addr).stateOf.vrfPfx2Route = s.vrfPfx2Route ∧
    (derefBcmHost E s vrf addr).stateOf.nextEgressId = s.nextEgressId := by
  unfold derefBcmHost
  rcases hl : lookupA s.hosts (vrf, addr) with _ | ⟨h0, n⟩
  · simp [hl, Outcome.stateOf]
  · simp only [hl]
    by_cases h0n : n = 0
    · simp [h0n, Outcome.stateOf]
    · by_cases h1n : n = 1
      · simp [h0n, h1n]
        have hfd := bcmHostDtor_frame E
          { s with hosts := eraseA s.hosts (vrf, addr) } h0
        exact ⟨hfd.2.1, hfd.2.2.1, hfd.2.2.2.1, hfd.2.2.2.2⟩
      · simp [h0n, h1n, Outcome.stateOf]

theorem derefBcmHost_ok_rc (E : Env) (s : HwState) (vrf : Vrf) (addr : IP)
    (s' : HwState) (hnd : (s.hosts.map Prod.fst).Nodup)
    (h : derefBcmHost E s vrf addr = .ok () s') :
    (∀ k, hostRc s' k =
      if k = (vrf, addr) then hostRc s k - 1 else hostRc s k) ∧
    (s'.hosts.map Prod.fst).Nodup := by
  unfold derefBcmHost at h
  rcases hl : lookupA s.hosts (vrf, addr) with _ | ⟨h0, n⟩
  · rw [hl] at h
    simp at h
    subst h
    refine ⟨?_, hnd⟩
    intro k
    by_cases hk : k = (vrf, addr)
    · subst hk
      simp [hostRc, hl]
    · simp [hk]
  · rw [hl] at h
    by_cases h0n : n = 0
    · simp [h0n] at h
    · by_cases h1n : n = 1
      · simp [h0n, h1n] at h
        have hfd := bcmHostDtor_frame E
          { s with hosts := eraseA s.hosts (vrf, addr) } h0
        rw [h] at hfd
        simp only [Outcome.stateOf] at hfd
        have hh : s'.hosts = eraseA s.hosts (vrf, addr) := hfd.1
        refine ⟨?_, by rw [hh]; exact nodup_eraseA s.hosts (vrf, addr) hnd⟩
        intro k
        by_cases hk : k = (vrf, addr)
        · subst hk
          simp [hostRc, hh, hl, h1n,
            lookupA_eraseA_self s.hosts (vrf, addr) hnd]
        · simp [hk, hostRc, hh, lookupA_eraseA_ne s.hosts (vrf, addr) k hk]
      · simp [h0n, h1n] at h
        subst h
        refine ⟨?_, ?_⟩
        · intro k
          by_cases hk : k = (vrf, addr)
          · subst hk
            simp [hostRc, hl,
              lookupA_setA_self s.hosts (vrf, addr) (h0, n - 1)
                (lookupA_isSome_of_eq hl)]
          · simp [hk, hostRc,
              lookupA_setA_ne s.hosts (vrf, addr) k (h0, n - 1) hk]
        · simpa [map_fst_setA s.hosts (vrf, addr) (h0, n - 1)
            (lookupA_isSome_of_eq hl)] using hnd

theorem incRefOrCreateBcmHostE_frame (E : Env) (s : HwState) (vrf : Vrf)
    (addr : IP) (e : EgressId) :
    (incRefOrCreateBcmHostE E s vrf addr e).stateOf.ecmpHosts = s.ecmpHosts ∧
    (incRefOrCreateBcmHostE E s vrf addr e).stateOf.vrfIp2Host = s.vrfIp2Host ∧
    (incRefOrCreateBcmHostE E s vrf addr e).stateOf.vrfPfx2Route =
      s.vrfPfx2Route ∧
    (incRefOrCreateBcmHostE E s vrf addr e).stateOf.nextEgressId =
      s.nextEgressId ∧
    (incRefOrCreateBcmHostE E s vrf addr e).stateOf.trace = s.trace := by
  unfold incRefOrCreateBcmHostE
  rcases hl : lookupA s.hosts (vrf, addr) with _ | ⟨h0, n⟩
  · simp only [hl]
    rcases hc : bcmHostCtor E
        { s with hosts := ((vrf, addr), (hostPlaceholder, 1)) :: s.hosts }
        vrf addr e with ⟨h2, s2⟩ | s2 | s2 <;>
      have hfc := bcmHostCtor_frame E
        { s with hosts := ((vrf, addr), (hostPlaceholder, 1)) :: s.hosts }
        vrf addr e <;>
      rw [hc] at hfc <;> simp only [Outcome.stateOf] at hfc <;>
      simp only [hc, Outcome.stateOf]
    · have hsf := setHostObj_frame s2 (vrf, addr) h2
      exact ⟨by rw [hsf.1, hfc.2.1], by rw [hsf.2.2.2.2.1, hfc.2.2.2.2.1],
        by rw [hsf.2.2.2.2.2.1, hfc.2.2.2.2.2.1],
        by rw [hsf.2.2.2.2.2.2.1, hfc.2.2.2.2.2.2.1],
        by rw [hsf.2.2.2.2.2.2.2, hfc.2.2.2.2.2.2.2]⟩
    · exact ⟨hfc.2.1, hfc.2.2.2.2.1, hfc.2.2.2.2.2.1, hfc.2.2.2.2.2.2.1,
        hfc.2.2.2.2.2.2.2⟩
    · exact ⟨hfc.2.1, hfc.2.2.2.2.1, hfc.2.2.2.2.2.1, hfc.2.2.2.2.2.2.1,
        hfc.2.2.2.2.2.2.2⟩
  · simp [hl, Outcome.stateOf]

theorem incRefOrCreateBcmHostE_ok (E : Env) (s : HwState) (vrf : Vrf)
    (addr : IP) (e : EgressId) (h : BcmHostObj) (s' : HwState)
    (hok : incRefOrCreateBcmHostE E s vrf addr e = .ok h s') :
    (∀ k, hostRc s' k =
      if k = (vrf, addr) then hostRc s k + 1 else hostRc s k) ∧
    ((s.hosts.map Prod.fst).Nodup → (s'.hosts.map Prod.fst).Nodup) := by
  unfold incRefOrCreateBcmHostE at hok
  rcases hl : lookupA s.hosts (vrf, addr) with _ | ⟨h0, n⟩
  · simp only [hl] at hok
    rcases hc : bcmHostCtor E
        { s with hosts := ((vrf, addr), (hostPlaceholder, 1)) :: s.hosts }
        vrf addr e with ⟨h2, s2⟩ | s2 | s2 <;>
      simp only [hc] at hok <;> simp at hok
    obtain ⟨hh2, hs'⟩ := hok
    subst hh2
    have hfc := bcmHostCtor_frame E
      { s with hosts := ((vrf, addr), (hostPlaceholder, 1)) :: s.hosts }
      vrf addr e
    rw [hc] at hfc
    simp only [Outcome.stateOf] at hfc
    have hhosts2 : s2.hosts = ((vrf, addr), (hostPlaceholder, 1)) :: s.hosts :=
      hfc.1
    refine ⟨?_, ?_⟩
    · intro k
      rw [← hs', setHostObj_hostRc]
      by_cases hk : k = (vrf, addr)
      · subst hk
        simp [hostRc, hhosts2, lookupA, hl]
      · have hne : (vrf, addr) ≠ k := fun hc2 => hk hc2.symm
        simp [hk, hostRc, hhosts2, lookupA, hne]
    · intro hnd
      rw [← hs', setHostObj_keys, hhosts2]
      simp only [List.map_cons, List.nodup_cons]
      exact ⟨lookupA_none_not_mem hl, hnd⟩
  · simp only [hl] at hok
    simp at hok
    obtain ⟨hh0, hs'⟩ := hok
    subst hh0
    refine ⟨?_, ?_⟩
    · intro k
      by_cases hk : k = (vrf, addr)
      · subst hk
        simp [← hs', hostRc, hl,
          lookupA_setA_self s.hosts (vrf, addr) (h0, n + 1)
            (lookupA_isSome_of_eq hl)]
      · simp [← hs', hk, hostRc,
          lookupA_setA_ne s.hosts (vrf, addr) k (h0, n + 1) hk]
    · intro hnd
      rw [← hs']
      simpa [map_fst_setA s.hosts (vrf, addr) (h0, n + 1)
        (lookupA_isSome_of_eq hl)] using hnd

theorem incRefOrCreateBcmHostE_err_hosts (E : Env) (s : HwState) (vrf : Vrf)
    (addr : IP) (e : EgressId) (s' : HwState)
    (herr : incRefOrCreateBcmHostE E s vrf addr e = .err s') :
    s'.hosts = s.hosts := by
  unfold incRefOrCreateBcmHostE at herr
  rcases hl : lookupA s.hosts (vrf, addr) with _ | ⟨h0, n⟩
  · simp only [hl] at herr
    rcases hc : bcmHostCtor E
        { s with hosts := ((vrf, addr), (hostPlaceholder, 1)) :: s.hosts }
        vrf addr e with ⟨h2, s2⟩ | s2 | s2 <;>
      simp only [hc] at herr <;> simp at herr
    have hfc := bcmHostCtor_frame E
      { s with hosts := ((vrf, addr), (hostPlaceholder, 1)) :: s.hosts }
      vrf addr e
    rw [hc] at hfc
    simp only [Outcome.stateOf] at hfc
    rw [← herr]
    simp only [hfc.1]
    exact eraseA_cons_self s.hosts (vrf, addr) (hostPlaceholder, 1)
  · simp only [hl] at herr
    simp at herr

theorem multNh_nil (v : Vrf) (k : Vrf × IP) : multNh v [] k = 0 := rfl

theorem multNh_cons (v : Vrf) (n : Nexthop) (t : List Nexthop)
    (k : Vrf × IP) :
    multNh v (n :: t) k =
      (if (v, n.nexthop) = k then 1 else 0) + multNh v t k := by
  simp [multNh, List.countP_cons]
  by_cases hk : (v, n.nexthop) = k <;> simp [hk] <;> omega

theorem multNh_append (v : Vrf) (l1 l2 : List Nexthop) (k : Vrf × IP) :
    multNh v (l1 ++ l2) k = multNh v l1 k + multNh v l2 k := by
  simp [multNh, List.countP_append]

theorem derefNexthops_frame (E : Env) (vrf : Vrf) (l : List Nexthop) :
    ∀ s : HwState,
    (derefNexthops E vrf l s).stateOf.ecmpHosts = s.ecmpHosts ∧
    (derefNexthops E vrf l s).stateOf.vrfIp2Host = s.vrfIp2Host ∧
    (derefNexthops E vrf l s).stateOf.vrfPfx2Route = s.vrfPfx2Route ∧
    (derefNexthops E vrf l s).stateOf.nextEgressId = s.nextEgressId := by
  induction l with
  | nil => intro s; simp [derefNexthops, Outcome.stateOf]
  | cons n t ih =>
    intro s
    unfold derefNexthops
    rcases hd : derefBcmHost E s vrf n.nexthop with ⟨a, s1⟩ | s1 | s1 <;>
      have hfd := derefBcmHost_frame E s vrf n.nexthop <;>
      rw [hd] at hfd <;> simp only [Outcome.stateOf] at hfd
    · simp only [hd]
      have := ih s1
      exact ⟨by rw [this.1, hfd.1], by rw [this.2.1, hfd.2.1],
        by rw [this.2.2.1, hfd.2.2.1], by rw [this.2.2.2, hfd.2.2.2]⟩
    · simp only [hd, Outcome.stateOf]
      exact hfd
    · simp only [hd, Outcome.stateOf]
      exact hfd

theorem derefNexthops_ok_rc (E : Env) (vrf : Vrf) (l : List Nexthop) :
    ∀ (s s' : HwState), (s.hosts.map Prod.fst).Nodup →
    derefNexthops E vrf l s = .ok () s' →
    (∀ k, multNh vrf l k ≤ hostRc s k) →
    (∀ k, hostRc s' k = hostRc s k - multNh vrf l k) ∧
    (s'.hosts.map Prod.fst).Nodup := by
  induction l with
  | nil =>
    intro s s' hnd h hle
    simp [derefNexthops] at h
    subst h
    exact ⟨fun k => by simp [multNh_nil], hnd⟩
  | cons n t ih =>
    intro s s' hnd h hle
    unfold derefNexthops at h
    rcases hd : derefBcmHost E s vrf n.nexthop with ⟨a, s1⟩ | s1 | s1 <;>
      rw [hd] at h <;> simp at h
    have hrc := derefBcmHost_ok_rc E s vrf n.nexthop s1 hnd hd
    have hle1 : ∀ k, multNh vrf t k ≤ hostRc s1 k := by
      intro k
      have := hle k
      rw [multNh_cons] at this
      rw [hrc.1 k]
      by_cases hk : k = (vrf, n.nexthop)
      · subst hk
        simp at this ⊢
        omega
      · have hne : ¬ ((vrf, n.nexthop) = k) := fun hc => hk hc.symm
        simp [hne] at this
        simp [hk]
        omega
    have := ih s1 s' hrc.2 h hle1
    refine ⟨?_, this.2⟩
    intro k
    rw [this.1 k, hrc.1 k, multNh_cons]
    have := hle k
    rw [multNh_cons] at this
    by_cases hk : k = (vrf, n.nexthop)
    · subst hk
      simp at this ⊢
      omega
    · have hne : ¬ ((vrf, n.nexthop) = k) := fun hc => hk hc.symm
      simp [hne, hk] at this ⊢

theorem loopDelta_same (vrf : Vrf) {s s1 s_f : HwState}
    {prog prog' : List Nexthop}
    (hrc : ∀ k, hostRc s1 k = hostRc s k) (he : s1.ecmpHosts = s.ecmpHosts)
    (hr : s1.vrfPfx2Route = s.vrfPfx2Route)
    (hn : (s.hosts.map Prod.fst).Nodup → (s1.hosts.map Prod.fst).Nodup)
    (hD : LoopDelta vrf s1 s_f prog prog') :
    LoopDelta vrf s s_f prog prog' := by
  obtain ⟨⟨news, hpr, hrcf⟩, he2, hr2, hn2⟩ := hD
  exact ⟨⟨news, hpr, fun k => by rw [hrcf k, hrc k]⟩, he2.trans he,
    hr2.trans hr, fun h => hn2 (hn h)⟩

theorem loopDelta_acquire (vrf : Vrf) {s s1 s_f : HwState}
    {prog prog' : List Nexthop} (nhop : Nexthop)
    (hrc : ∀ k, hostRc s1 k =
      if k = (vrf, nhop.nexthop) then hostRc s k + 1 else hostRc s k)
    (he : s1.ecmpHosts = s.ecmpHosts) (hr : s1.vrfPfx2Route = s.vrfPfx2Route)
    (hn : (s.hosts.map Prod.fst).Nodup → (s1.hosts.map Prod.fst).Nodup)
    (hD : LoopDelta vrf s1 s_f (prog ++ [nhop]) prog') :
    LoopDelta vrf s s_f prog prog' := by
  obtain ⟨⟨news, hpr, hrcf⟩, he2, hr2, hn2⟩ := hD
  refine ⟨⟨nhop :: news, by simp [hpr], ?_⟩, he2.trans he, hr2.trans hr,
    fun h => hn2 (hn h)⟩
  intro k
  rw [hrcf k, hrc k, multNh_cons]
  by_cases hk : k = (vrf, nhop.nexthop)
  · subst hk
    simp
    omega
  · have hne : ¬ ((vrf, nhop.nexthop) = k) := fun hc => hk hc.symm
    simp [hk, hne]

theorem loopDelta_refl (vrf : Vrf) (s : HwState) (prog : List Nexthop) :
    LoopDelta vrf s s prog prog :=
  ⟨⟨[], by simp, fun k => by simp [multNh_nil]⟩, rfl, rfl, fun h => h⟩

theorem ecmpLoop_spec (E : Env) (vrf : Vrf) :
    ∀ (rest : List Nexthop) (s : HwState) (prog : List Nexthop)
      (paths : List EgressId),
    (∀ prog' s_f, ecmpLoop E vrf rest s prog paths = .err prog' s_f →
      LoopDelta vrf s s_f prog prog') ∧
    (∀ paths' prog' s_f,
      ecmpLoop E vrf rest s prog paths = .ok paths' prog' s_f →
      LoopDelta vrf s s_f prog prog') := by
  intro rest
  induction rest with
  | nil =>
    intro s prog paths
    constructor
    · intro prog' s_f h
      simp [ecmpLoop] at h
    · intro paths' prog' s_f h
      simp [ecmpLoop] at h
      obtain ⟨h1, h2, h3⟩ := h
      subst h2
      subst h3
      exact loopDelta_refl vrf s prog
  | cons nhop rest ih =>
    intro s prog paths
    have step : ∀ (s1 : HwState) (host : BcmHostObj),
        incRefOrCreateBcmHost E s vrf nhop.nexthop = .ok host s1 →
        ∀ s_f prog', LoopDelta vrf s1 s_f (prog ++ [nhop]) prog' →
        LoopDelta vrf s s_f prog prog' := by
      intro s1 host hi s_f prog' hD
      have hok := incRefOrCreateBcmHostE_ok E s vrf nhop.nexthop INVALID
        host s1 hi
      have hfr := incRefOrCreateBcmHostE_frame E s vrf nhop.nexthop INVALID
      rw [show incRefOrCreateBcmHostE E s vrf nhop.nexthop INVALID =
        .ok host s1 from hi] at hfr
      simp only [Outcome.stateOf] at hfr
      exact loopDelta_acquire vrf nhop hok.1 hfr.1 hfr.2.2.1 hok.2 hD
    have stepSame : ∀ (s1 s2 : HwState) (bcmIf : Nat),
        bcmHostProgramToCPU E s1 vrf nhop.nexthop bcmIf = .ok () s2 ∨
        bcmHostProgramToCPU E s1 vrf nhop.nexthop bcmIf = .err s2 →
        ∀ s_f prog', LoopDelta vrf s2 s_f (prog ++ [nhop]) prog' →
        LoopDelta vrf s1 s_f (prog ++ [nhop]) prog' := by
      intro s1 s2 bcmIf hp s_f prog' hD
      have hfp := bcmHostProgram_frame E s1 vrf nhop.nexthop bcmIf none 0
        .toCpu
      rcases hp with hp | hp <;>
        rw [show bcmHostProgram E s1 vrf nhop.nexthop bcmIf none 0 .toCpu =
          _ from hp] at hfp <;>
        simp only [Outcome.stateOf] at hfp <;>
        exact loopDelta_same vrf hfp.1 hfp.2.2.1 hfp.2.2.2
          (fun h => by rw [hfp.2.1]; exact h) hD
    constructor
    · intro prog' s_f h
      simp only [ecmpLoop] at h
      rcases hi : incRefOrCreateBcmHost E s vrf nhop.nexthop
        with ⟨host, s1⟩ | s1 | s1 <;> rw [hi] at h <;> simp at h
      · -- acquired a reference; analyse the rest of the iteration
        by_cases hmem : nhop ∈ prog
        · simp [hmem] at h
        · simp only [hmem, if_neg, if_false, ite_false] at h
          by_cases hpr : host.isProgrammed
          · simp only [hpr, if_pos, if_true] at h
            exact step s1 host hi s_f prog'
              ((ih s1 (prog ++ [nhop]) (insertPath paths host.egressId)).1
                prog' s_f h)
          · simp only [hpr, Bool.false_eq_true, if_false] at h
            rcases hin : lookupA E.intfs nhop.intf with _ | bcmIf <;>
              rw [hin] at h <;> simp at h
            · obtain ⟨hp', hs'⟩ := h
              subst hp'
              subst hs'
              exact step s1 host hi s1 (prog ++ [nhop])
                (loopDelta_refl vrf s1 (prog ++ [nhop]))
            · rcases hp : bcmHostProgramToCPU E s1 vrf nhop.nexthop bcmIf
                with ⟨u, s2⟩ | s2 | s2 <;> rw [hp] at h <;> simp at h
              · rcases hre : lookupA s2.hosts (vrf, nhop.nexthop)
                  with _ | ⟨h2, m⟩ <;> rw [hre] at h <;> simp at h
                obtain ⟨⟩ := u
                exact step s1 host hi s_f prog'
                  (stepSame s1 s2 bcmIf (Or.inl hp) s_f prog'
                    ((ih s2 (prog ++ [nhop])
                      (insertPath paths h2.egressId)).1 prog' s_f h))
              · obtain ⟨hp', hs'⟩ := h
                subst hp'
                subst hs'
                exact step s1 host hi s2 (prog ++ [nhop])
                  (stepSame s1 s2 bcmIf (Or.inr hp) s2 (prog ++ [nhop])
                    (loopDelta_refl vrf s2 (prog ++ [nhop])))
      · -- the acquisition itself threw
        obtain ⟨hp', hs'⟩ := h
        subst hp'
        subst hs'
        have hh := incRefOrCreateBcmHostE_err_hosts E s vrf nhop.nexthop
          INVALID s1 hi
        have hfr := incRefOrCreateBcmHostE_frame E s vrf nhop.nexthop INVALID
        rw [show incRefOrCreateBcmHostE E s vrf nhop.nexthop INVALID =
          .err s1 from hi] at hfr
        simp only [Outcome.stateOf] at hfr
        exact ⟨⟨[], by simp, fun k => by
          simp [multNh_nil, hostRc_eq_of_hosts_eq hh k]⟩, hfr.1, hfr.2.2.1,
          fun hnd => by rw [hh]; exact hnd⟩
    · intro paths' prog' s_f h
      simp only [ecmpLoop] at h
      rcases hi : incRefOrCreateBcmHost E s vrf nhop.nexthop
        with ⟨host, s1⟩ | s1 | s1 <;> rw [hi] at h <;> simp at h
      by_cases hmem : nhop ∈ prog
      · simp [hmem] at h
      · simp only [hmem, if_neg, if_false, ite_false] at h
        by_cases hpr : host.isProgrammed
        · simp only [hpr, if_pos, if_true] at h
          exact step s1 host hi s_f prog'
            ((ih s1 (prog ++ [nhop]) (insertPath paths host.egressId)).2
              paths' prog' s_f h)
        · simp only [hpr, Bool.false_eq_true, if_false] at h
          rcases hin : lookupA E.intfs nhop.intf with _ | bcmIf <;>
            rw [hin] at h <;> simp at h
          rcases hp : bcmHostProgramToCPU E s1 vrf nhop.nexthop bcmIf
            with ⟨u, s2⟩ | s2 | s2 <;> rw [hp] at h <;> simp at h
          rcases hre : lookupA s2.hosts (vrf, nhop.nexthop)
            with _ | ⟨h2, m⟩ <;> rw [hre] at h <;> simp at h
          obtain ⟨⟩ := u
          exact step s1 host hi s_f prog'
            (stepSame s1 s2 bcmIf (Or.inl hp) s_f prog'
              ((ih s2 (prog ++ [nhop])
                (insertPath paths h2.egressId)).2 paths' prog' s_f h))

theorem updatePort_no_err (s : HwState) (e : EgressId) (po pn : PortT) :
    (updatePortEgressMapping s e po pn).isErr = false := by
  unfold updatePortEgressMapping egressResolutionChangedMaybeLocked
  by_cases ho : po = 0
  · by_cases hn : pn = 0 <;> simp [ho, hn, Outcome.isErr]
  · rcases hl : lookupA s.port2EgressIds po with _ | ids <;>
      by_cases hn : pn = 0 <;> simp [ho, hl, hn, Outcome.isErr]

theorem derefEgress_no_err (E : Env) (s : HwState) (e : EgressId) :
    (derefEgress E s e).isErr = false := by
  unfold derefEgress
  by_cases hs : e = INVALID ∨ e = E.dropEgressId
  · simp [hs, Outcome.isErr]
  · rcases hl : lookupA s.egressMap e with _ | ⟨obj, n⟩
    · simp [hs, hl, Outcome.isErr]
    · by_cases h0 : n = 0 <;> by_cases h1 : n = 1 <;>
        simp [hs, hl, h0, h1, Outcome.isErr]

theorem bcmHostDtor_no_err (E : Env) (s : HwState) (h : BcmHostObj) :
    (bcmHostDtor E s h).isErr = false := by
  unfold bcmHostDtor
  cases hadd : h.added with
  | false => simp [Outcome.isErr]
  | true =>
    simp only [hadd]
    by_cases hok : E.hwOk (.hostDelete h.vrf h.addr)
    · simp [hok]
      rcases hu : updatePortEgressMapping
          { s with trace := Event.hostDelete h.vrf h.addr :: s.trace }
          h.egressId h.port 0 with ⟨a, s2⟩ | s2 | s2
      · exact derefEgress_no_err E s2 h.egressId
      · have := updatePort_no_err
          { s with trace := Event.hostDelete h.vrf h.addr :: s.trace }
          h.egressId h.port 0
        rw [hu] at this
        simp [Outcome.isErr] at this
      · simp [Outcome.isErr]
    · simp [hok, Outcome.isErr]

theorem derefBcmHost_no_err (E : Env) (s : HwState) (vrf : Vrf) (addr : IP) :
    (derefBcmHost E s vrf addr).isErr = false := by
  unfold derefBcmHost
  rcases hl : lookupA s.hosts (vrf, addr) with _ | ⟨h0, n⟩
  · simp [hl, Outcome.isErr]
  · simp only [hl]
    by_cases h0n : n = 0
    · simp [h0n, Outcome.isErr]
    · by_cases h1n : n = 1
      · simp [h0n, h1n]
        exact bcmHostDtor_no_err E
          { s with hosts := eraseA s.hosts (vrf, addr) } h0
      · simp [h0n, h1n, Outcome.isErr]

theorem derefNexthops_no_err (E : Env) (vrf : Vrf) (l : List Nexthop) :
    ∀ s : HwState, (derefNexthops E vrf l s).isErr = false := by
  induction l with
  | nil => intro s; simp [derefNexthops, Outcome.isErr]
  | cons n t ih =>
    intro s
    unfold derefNexthops
    rcases hd : derefBcmHost E s vrf n.nexthop with ⟨a, s1⟩ | s1 | s1
    · exact ih s1
    · have := derefBcmHost_no_err E s vrf n.nexthop
      rw [hd] at this
      simp [Outcome.isErr] at this
    · simp [Outcome.isErr]

theorem ctorRollback_err (E : Env) (s sf : HwState) (vrf : Vrf)
    (prog : List Nexthop) (s' : HwState)
    (hnd : (sf.hosts.map Prod.fst).Nodup)
    (hrc : ∀ k, hostRc sf k = hostRc s k + multNh vrf prog k)
    (hec : sf.ecmpHosts = s.ecmpHosts) (hrt : sf.vrfPfx2Route = s.vrfPfx2Route)
    (hdn : derefNexthops E vrf prog sf = .ok () s') :
    (∀ k, hostRc s' k = hostRc s k) ∧ s'.ecmpHosts = s.ecmpHosts ∧
    s'.vrfPfx2Route = s.vrfPfx2Route ∧
    (s'.hosts.map Prod.fst).Nodup := by
  have hle : ∀ k, multNh vrf prog k ≤ hostRc sf k := by
    intro k
    rw [hrc k]
    omega
  have hok := derefNexthops_ok_rc E vrf prog sf s' hnd hdn hle
  have hfr := derefNexthops_frame E vrf prog sf
  rw [hdn] at hfr
  simp only [Outcome.stateOf] at hfr
  refine ⟨?_, hfr.1.trans hec, hfr.2.2.1.trans hrt, hok.2⟩
  intro k
  rw [hok.1 k, hrc k]
  omega

theorem bcmEcmpHostCtor_err (E : Env) (s : HwState) (vrf : Vrf)
    (fwd : List Nexthop) (s' : HwState)
    (hnd : (s.hosts.map Prod.fst).Nodup)
    (herr : bcmEcmpHostCtor E s vrf fwd = .err s') :
    (∀ k, hostRc s' k = hostRc s k) ∧ s'.ecmpHosts = s.ecmpHosts ∧
    s'.vrfPfx2Route = s.vrfPfx2Route ∧
    (s'.hosts.map Prod.fst).Nodup := by
  unfold bcmEcmpHostCtor at herr
  by_cases hf : fwd = []
  · simp [hf] at herr
  · simp only [hf, if_neg, if_false, ite_false] at herr
    rcases hL : ecmpLoop E vrf fwd s [] [] with ⟨paths, prog, sf⟩ |
        ⟨prog, sf⟩ | sf <;> simp only [hL] at herr
    · obtain ⟨⟨news, hpr, hrc⟩, hec, hrt, hndf⟩ :=
        (ecmpLoop_spec E vrf fwd s [] []).2 paths prog sf hL
      simp at hpr
      subst hpr
      rcases paths with _ | ⟨e, _ | ⟨e2, ps⟩⟩
      · simp only [] at herr
        by_cases hok2 : E.hwOk (Event.ecmpCreateHw sf.nextEgressId [])
        · simp [hok2] at herr
          by_cases hdup : (lookupA sf.egressMap sf.nextEgressId).isSome <;>
            simp [hdup] at herr
        · simp only [hok2, Bool.false_eq_true, if_false] at herr
          split at herr
          · next a s2 heq =>
            simp at herr
            subst herr
            refine ctorRollback_err E s _ vrf prog s2 ?_ ?_ ?_ ?_ heq
            · exact hndf hnd
            · exact hrc
            · exact hec
            · exact hrt
          · next s2 heq =>
            simp at herr
            subst herr
            have hne := congrArg Outcome.isErr heq
            rw [derefNexthops_no_err] at hne
            simp [Outcome.isErr] at hne
          · next s2 heq =>
            simp at herr
      · simp at herr
      · simp only [] at herr
        by_cases hok2 : E.hwOk
            (Event.ecmpCreateHw sf.nextEgressId (e :: e2 :: ps))
        · simp [hok2] at herr
          by_cases hdup : (lookupA sf.egressMap sf.nextEgressId).isSome <;>
            simp [hdup] at herr
        · simp only [hok2, Bool.false_eq_true, if_false] at herr
          split at herr
          · next a s2 heq =>
            simp at herr
            subst herr
            refine ctorRollback_err E s _ vrf prog s2 ?_ ?_ ?_ ?_ heq
            · exact hndf hnd
            · exact hrc
            · exact hec
            · exact hrt
          · next s2 heq =>
            simp at herr
            subst herr
            have hne := congrArg Outcome.isErr heq
            rw [derefNexthops_no_err] at hne
            simp [Outcome.isErr] at hne
          · next s2 heq =>
            simp at herr
    · obtain ⟨⟨news, hpr, hrc⟩, hec, hrt, hndf⟩ :=
        (ecmpLoop_spec E vrf fwd s [] []).1 prog sf hL
      simp at hpr
      subst hpr
      split at herr
      · next a s2 heq =>
        simp at herr
        subst herr
        refine ctorRollback_err E s _ vrf prog s2 ?_ ?_ ?_ ?_ heq
        · exact hndf hnd
        · exact hrc
        · exact hec
        · exact hrt
      · next s2 heq =>
        simp at herr
        subst herr
        have hne := congrArg Outcome.isErr heq
        rw [derefNexthops_no_err] at hne
        simp [Outcome.isErr] at hne
      · next s2 heq =>
        simp at herr
    · simp at herr

theorem lookupA_mem {κ ν : Type} [DecidableEq κ] {m : List (κ × ν)} {k : κ}
    {v : ν} (h : lookupA m k = some v) : (k, v) ∈ m := by
  induction m with
  | nil => simp [lookupA] at h
  | cons kv t ih =>
    obtain ⟨k', v'⟩ := kv
    by_cases hk : k' = k
    · subst hk
      simp [lookupA] at h
      simp [h]
    · simp [lookupA, hk] at h
      simp [List.mem_cons, ih h]

theorem derefEgress_ok_fields {E : Env} {s : HwState} {e : EgressId}
    {u : Unit} {s1 : HwState} (h : derefEgress E s e = .ok u s1) :
    s1.hosts = s.hosts ∧ s1.ecmpHosts = s.ecmpHosts := by
  have hf := derefEgress_frame E s e
  rw [h] at hf
  exact ⟨hf.1, hf.2.1⟩

theorem programLpmRoute_frame (E : Env) (s : HwState) (r : BcmRouteObj)
    (eg : EgressId) (f : RouteForwardInfo) :
    (programLpmRoute E s r eg f).stateOf.hosts = s.hosts ∧
    (programLpmRoute E s r eg f).stateOf.ecmpHosts = s.ecmpHosts := by
  unfold programLpmRoute
  rcases hc : lookupA s.vrfPfx2Route (r.vrf, r.pfx, r.len) with _ | ex <;>
    simp only [hc] <;> split_ifs <;> simp [Outcome.stateOf]

theorem bcmEcmpHostDtor_no_err (E : Env) (s : HwState) (h : BcmEcmpHostObj) :
    (bcmEcmpHostDtor E s h).isErr = false := by
  unfold bcmEcmpHostDtor
  rcases hd : derefEgress E s h.ecmpEgressId with ⟨u, s1⟩ | s1 | s1
  · exact derefNexthops_no_err E h.vrf h.fwd s1
  · have hne := derefEgress_no_err E s h.ecmpEgressId
    rw [hd] at hne
    simp [Outcome.isErr] at hne
  · simp [Outcome.isErr]

theorem derefBcmEcmpHost_no_err (E : Env) (s : HwState) (vrf : Vrf)
    (nhops : List Nexthop) :
    (derefBcmEcmpHost E s vrf nhops).isErr = false := by
  unfold derefBcmEcmpHost
  rcases hl : lookupA s.ecmpHosts (vrf, nhops) with _ | ⟨h0, n⟩
  · simp [Outcome.isErr]
  · by_cases h0n : n = 0
    · simp [h0n, Outcome.isErr]
    · by_cases h1n : n = 1
      · simp [h0n, h1n]
        exact bcmEcmpHostDtor_no_err E _ h0
      · simp [h0n, h1n, Outcome.isErr]

theorem cleanupHost_no_err (E : Env) (s : HwState) (vrf : Vrf)
    (l : List Nexthop) : (cleanupHost E s vrf l).isErr = false := by
  unfold cleanupHost
  split_ifs
  · simp [Outcome.isErr]
  · exact derefBcmEcmpHost_no_err E s vrf l

theorem bcmEcmpHostCtor_ok (E : Env) (s : HwState) (vrf : Vrf)
    (fwd : List Nexthop) (h : BcmEcmpHostObj) (s' : HwState)
    (hok : bcmEcmpHostCtor E s vrf fwd = .ok h s') :
    h.vrf = vrf ∧
    (∀ k, hostRc s' k = hostRc s k + multNh vrf h.fwd k) ∧
    s'.ecmpHosts = s.ecmpHosts ∧ s'.vrfPfx2Route = s.vrfPfx2Route ∧
    ((s.hosts.map Prod.fst).Nodup → (s'.hosts.map Prod.fst).Nodup) := by
  unfold bcmEcmpHostCtor at hok
  by_cases hf : fwd = []
  · simp [hf] at hok
  · simp only [hf, if_neg, if_false, ite_false] at hok
    rcases hL : ecmpLoop E vrf fwd s [] [] with ⟨paths, prog, sf⟩ |
        ⟨prog, sf⟩ | sf <;> simp only [hL] at hok
    · obtain ⟨⟨news, hpr, hrc⟩, hec, hrt, hndf⟩ :=
        (ecmpLoop_spec E vrf fwd s [] []).2 paths prog sf hL
      simp at hpr
      subst hpr
      rcases paths with _ | ⟨e, _ | ⟨e2, ps⟩⟩
      · simp only [] at hok
        by_cases hok2 : E.hwOk (Event.ecmpCreateHw sf.nextEgressId [])
        · simp only [hok2, if_true] at hok
          by_cases hdup : (lookupA sf.egressMap sf.nextEgressId).isSome
          · simp [hdup] at hok
          · simp [hdup] at hok
            obtain ⟨hh, hs⟩ := hok
            subst hh
            subst hs
            exact ⟨rfl, fun k => hrc k, hec, hrt, hndf⟩
        · simp only [hok2, Bool.false_eq_true, if_false] at hok
          split at hok <;> simp at hok
      · simp at hok
        obtain ⟨hh, hs⟩ := hok
        subst hh
        subst hs
        exact ⟨rfl, fun k => hrc k, hec, hrt, hndf⟩
      · simp only [] at hok
        by_cases hok2 : E.hwOk
            (Event.ecmpCreateHw sf.nextEgressId (e :: e2 :: ps))
        · simp only [hok2, if_true] at hok
          by_cases hdup : (lookupA sf.egressMap sf.nextEgressId).isSome
          · simp [hdup] at hok
          · simp [hdup] at hok
            obtain ⟨hh, hs⟩ := hok
            subst hh
            subst hs
            exact ⟨rfl, fun k => hrc k, hec, hrt, hndf⟩
        · simp only [hok2, Bool.false_eq_true, if_false] at hok
          split at hok <;> simp at hok
    · split at hok <;> simp at hok
    · simp at hok

theorem incRefOrCreateBcmEcmpHost_err (E : Env) (s : HwState) (vrf : Vrf)
    (fwd : List Nexthop) (s' : HwState)
    (hnd : (s.hosts.map Prod.fst).Nodup)
    (herr : incRefOrCreateBcmEcmpHost E s vrf fwd = .err s') :
    (∀ k, hostRc s' k = hostRc s k) ∧ s'.ecmpHosts = s.ecmpHosts := by
  unfold incRefOrCreateBcmEcmpHost at herr
  rcases hl : lookupA s.ecmpHosts (vrf, fwd) with _ | ⟨h0, n⟩
  · simp only [hl] at herr
    rcases hc : bcmEcmpHostCtor E
        { s with ecmpHosts :=
          ((vrf, fwd), (ecmpPlaceholder, 1)) :: s.ecmpHosts }
        vrf fwd with ⟨h2, s2⟩ | s2 | s2 <;>
      simp only [hc] at herr <;> simp at herr
    subst herr
    have hce := bcmEcmpHostCtor_err E
      { s with ecmpHosts := ((vrf, fwd), (ecmpPlaceholder, 1)) :: s.ecmpHosts }
      vrf fwd s2 hnd hc
    refine ⟨fun k => hce.1 k, ?_⟩
    show eraseA s2.ecmpHosts (vrf, fwd) = s.ecmpHosts
    rw [show s2.ecmpHosts =
      ((vrf, fwd), (ecmpPlaceholder, 1)) :: s.ecmpHosts from hce.2.1]
    exact eraseA_cons_self s.ecmpHosts (vrf, fwd) (ecmpPlaceholder, 1)
  · simp only [hl] at herr
    simp at herr

theorem incThenDeref_ecmp_restores (E : Env) (s sA sB s2 : HwState)
    (vrf : Vrf) (fwd : List Nexthop) (h : BcmEcmpHostObj)
    (hnd : (s.hosts.map Prod.fst).Nodup)
    (hpos : ∀ kv ∈ s.ecmpHosts, 1 ≤ kv.2.2)
    (hok : incRefOrCreateBcmEcmpHost E s vrf fwd = .ok h sA)
    (hBh : sB.hosts = sA.hosts) (hBe : sB.ecmpHosts = sA.ecmpHosts)
    (hcl : derefBcmEcmpHost E sB vrf fwd = .ok () s2) :
    (∀ k, hostRc s2 k = hostRc s k) ∧
    (∀ k2, ecmpRc s2 k2 = ecmpRc s k2) := by
  unfold incRefOrCreateBcmEcmpHost at hok
  rcases hl : lookupA s.ecmpHosts (vrf, fwd) with _ | ⟨h0, n⟩
  · -- fresh entry: the constructor acquired the member hosts, the deref
    -- tears the entry down again through the destructor
    simp only [hl] at hok
    rcases hc : bcmEcmpHostCtor E
        { s with ecmpHosts :=
          ((vrf, fwd), (ecmpPlaceholder, 1)) :: s.ecmpHosts }
        vrf fwd with ⟨h2, s2c⟩ | s2c | s2c <;>
      simp only [hc] at hok <;> simp at hok
    obtain ⟨hh2, hsA⟩ := hok
    subst hh2
    obtain ⟨hv, hrc2, hecm, hrt2, hnd2⟩ := bcmEcmpHostCtor_ok E
      { s with ecmpHosts := ((vrf, fwd), (ecmpPlaceholder, 1)) :: s.ecmpHosts }
      vrf fwd h2 s2c hc
    have hsa2 : sA = { s2c with ecmpHosts := ((vrf, fwd), (h2, 1)) :: s.ecmpHosts } := by
      rw [← hsA]
      unfold setEcmpObj
      rw [show s2c.ecmpHosts =
        ((vrf, fwd), (ecmpPlaceholder, 1)) :: s.ecmpHosts from hecm]
      simp [lookupA, setA]
    subst hsa2
    have hBe2 : sB.ecmpHosts = ((vrf, fwd), (h2, 1)) :: s.ecmpHosts := hBe
    have hBh2 : sB.hosts = s2c.hosts := hBh
    unfold derefBcmEcmpHost at hcl
    rw [show lookupA sB.ecmpHosts (vrf, fwd) = some (h2, 1) from by
      rw [hBe2]; simp [lookupA]] at hcl
    simp only [Nat.one_ne_zero, if_false, if_true] at hcl
    unfold bcmEcmpHostDtor at hcl
    split at hcl
    · next u s1 heq =>
      obtain ⟨⟩ := u
      obtain ⟨hfe1, hfe2⟩ := derefEgress_ok_fields heq
      rw [hv] at hcl
      have hs1h : s1.hosts = s2c.hosts := by
        rw [hfe1]; exact hBh2
      have hs1e : s1.ecmpHosts = s.ecmpHosts := by
        rw [hfe2]
        show eraseA sB.ecmpHosts (vrf, fwd) = s.ecmpHosts
        rw [hBe2]
        exact eraseA_cons_self s.ecmpHosts (vrf, fwd) (h2, 1)
      have hrcs1 : ∀ k, hostRc s1 k = hostRc s k + multNh vrf h2.fwd k := by
        intro k
        rw [hostRc_eq_of_hosts_eq hs1h k]
        exact hrc2 k
      have hnds1 : (s1.hosts.map Prod.fst).Nodup := by
        rw [hs1h]
        exact hnd2 hnd
      obtain ⟨hsub, hnd3⟩ := derefNexthops_ok_rc E vrf h2.fwd s1 s2 hnds1 hcl
        (fun k => by rw [hrcs1 k]; omega)
      have hfn := derefNexthops_frame E vrf h2.fwd s1
      rw [hcl] at hfn
      refine ⟨fun k => ?_, fun k2 => ?_⟩
      · rw [hsub k, hrcs1 k]
        omega
      · refine ecmpRc_eq_of_ecmp_eq ?_ k2
        rw [show s2.ecmpHosts = s1.ecmpHosts from hfn.1]
        exact hs1e
    · next s1 heq =>
      simp at hcl
    · next s1 heq =>
      simp at hcl
  · -- existing entry: refcount bumped then decremented in place
    simp only [hl] at hok
    simp at hok
    obtain ⟨hh0, hsA⟩ := hok
    subst hh0
    have hn1 : 1 ≤ n := hpos _ (lookupA_mem hl)
    have hBe2 : sB.ecmpHosts = setA s.ecmpHosts (vrf, fwd) (h0, n + 1) := by
      rw [hBe, ← hsA]
    have hBh2 : sB.hosts = s.hosts := by
      rw [hBh, ← hsA]
    unfold derefBcmEcmpHost at hcl
    rw [show lookupA sB.ecmpHosts (vrf, fwd) = some (h0, n + 1) from by
      rw [hBe2]
      exact lookupA_setA_self s.ecmpHosts (vrf, fwd) (h0, n + 1)
        (lookupA_isSome_of_eq hl)] at hcl
    have hne0 : ¬(n + 1 = 0) := by omega
    have hne1 : ¬(n + 1 = 1) := by omega
    simp only [hne0, hne1, if_false] at hcl
    simp at hcl
    refine ⟨fun k => ?_, fun k2 => ?_⟩
    · exact hostRc_eq_of_hosts_eq
        (show s2.hosts = s.hosts from by rw [← hcl]; exact hBh2) k
    · have hs2e : s2.ecmpHosts = setA sB.ecmpHosts (vrf, fwd) (h0, n) := by
        rw [← hcl]
      rw [hBe2] at hs2e
      by_cases hk : k2 = (vrf, fwd)
      · subst hk
        have hso : (lookupA (setA s.ecmpHosts (vrf, fwd) (h0, n + 1)) (vrf, fwd)).isSome := by
          rw [lookupA_setA_self s.ecmpHosts (vrf, fwd) (h0, n + 1)
            (lookupA_isSome_of_eq hl)]
          rfl
        simp [ecmpRc, hs2e, hl,
          lookupA_setA_self (setA s.ecmpHosts (vrf, fwd) (h0, n + 1))
            (vrf, fwd) (h0, n) hso]
      · simp [ecmpRc, hs2e,
          lookupA_setA_ne (setA s.ecmpHosts (vrf, fwd) (h0, n + 1))
            (vrf, fwd) k2 (h0, n) hk,
          lookupA_setA_ne s.ecmpHosts (vrf, fwd) k2 (h0, n + 1) hk]

/-- C7: if `BcmEcmpHost::BcmEcmpHost` fails at any point after acquiring
references to some subset of the member hosts, every host reference
acquired so far is released before the failure propagates, leaving the
host table's refcounts exactly as before the construction began (and the
ECMP-host and route tables untouched). -/
theorem c7_ctor_failure_atomic (E : Env) (s : HwState) (vrf : Vrf)
    (fwd : List Nexthop) (s' : HwState)
    (hnd : (s.hosts.map Prod.fst).Nodup)
    (herr : bcmEcmpHostCtor E s vrf fwd = .err s') :
    (∀ k, hostRc s' k = hostRc s k) ∧ s'.ecmpHosts = s.ecmpHosts ∧
    s'.vrfPfx2Route = s.vrfPfx2Route :=
  ⟨(bcmEcmpHostCtor_err E s vrf fwd s' hnd herr).1,
   (bcmEcmpHostCtor_err E s vrf fwd s' hnd herr).2.1,
   (bcmEcmpHostCtor_err E s vrf fwd s' hnd herr).2.2.1⟩

/-- Witness for C7: with an oracle that rejects the host add for
10.0.0.8, the two-member constructor fails after having acquired the
10.0.0.7 member, and the error state restores every host refcount. -/
theorem c7_witness :
    (List.map Prod.fst statePlain.hosts).Nodup ∧
    (bcmEcmpHostCtor envFail8 statePlain 0 [nhopA, nhopB]).isErr = true ∧
    hostRc (bcmEcmpHostCtor envFail8 statePlain 0 [nhopA, nhopB]).stateOf
      (0, IP.v4 7) = hostRc statePlain (0, IP.v4 7) ∧
    hostRc (bcmEcmpHostCtor envFail8 statePlain 0 [nhopA, nhopB]).stateOf
      (0, IP.v4 8) = hostRc statePlain (0, IP.v4 8) := by
  have hE : (bcmEcmpHostCtor envFail8 statePlain 0 [nhopA, nhopB]).isErr
      = true := by decide
  refine ⟨by decide, hE, ?_, ?_⟩ <;>
    (rcases hsh : bcmEcmpHostCtor envFail8 statePlain 0 [nhopA, nhopB]
        with ⟨h, s1⟩ | s1 | s1 <;>
      rw [hsh] at hE <;> simp [Outcome.isErr] at hE) <;>
    exact (c7_ctor_failure_atomic envFail8 statePlain 0 [nhopA, nhopB] s1
      (by decide) hsh).1 _

/-- C10: `incRefOrCreateBcmHost`/`incRefOrCreateBcmEcmpHost` with a key
already in the table only bump that entry's refcount (no construction);
with an absent key whose construction throws, the emplaced placeholder is
erased before the exception propagates, leaving the table exactly as it
was before the call. -/
theorem c10_inc_ref_or_create (E : Env) (s : HwState) (vrf : Vrf)
    (addr : IP) (eg : EgressId) (fwd : List Nexthop)
    (hnd : (s.hosts.map Prod.fst).Nodup) :
    (∀ h n, lookupA s.hosts (vrf, addr) = some (h, n) →
      incRefOrCreateBcmHostE E s vrf addr eg =
        .ok h { s with hosts := setA s.hosts (vrf, addr) (h, n + 1) }) ∧
    (∀ s', lookupA s.hosts (vrf, addr) = none →
      incRefOrCreateBcmHostE E s vrf addr eg = .err s' →
      s'.hosts = s.hosts) ∧
    (∀ h n, lookupA s.ecmpHosts (vrf, fwd) = some (h, n) →
      incRefOrCreateBcmEcmpHost E s vrf fwd =
        .ok h { s with ecmpHosts := setA s.ecmpHosts (vrf, fwd) (h, n + 1) }) ∧
    (∀ s', lookupA s.ecmpHosts (vrf, fwd) = none →
      incRefOrCreateBcmEcmpHost E s vrf fwd = .err s' →
      s'.ecmpHosts = s.ecmpHosts) := by
  refine ⟨?_, ?_, ?_, ?_⟩
  · intro h n hl
    unfold incRefOrCreateBcmHostE
    rw [hl]
  · intro s' _ herr
    exact incRefOrCreateBcmHostE_err_hosts E s vrf addr eg s' herr
  · intro h n hl
    unfold incRefOrCreateBcmEcmpHost
    rw [hl]
  · intro s' _ herr
    exact (incRefOrCreateBcmEcmpHost_err E s vrf fwd s' hnd herr).2

/-- Witness for C10: the failing two-member ECMP-host creation erases its
placeholder, restoring the ECMP-host table exactly. -/
theorem c10_witness :
    (List.map Prod.fst statePlain.hosts).Nodup ∧
    (incRefOrCreateBcmEcmpHost envFail8 statePlain 0 [nhopA, nhopB]).isErr
      = true ∧
    (incRefOrCreateBcmEcmpHost envFail8 statePlain 0
      [nhopA, nhopB]).stateOf.ecmpHosts = statePlain.ecmpHosts := by
  have hE : (incRefOrCreateBcmEcmpHost envFail8 statePlain 0
      [nhopA, nhopB]).isErr = true := by decide
  refine ⟨by decide, hE, ?_⟩
  rcases hsh : incRefOrCreateBcmEcmpHost envFail8 statePlain 0
      [nhopA, nhopB] with ⟨h, s1⟩ | s1 | s1 <;>
    rw [hsh] at hE <;> simp [Outcome.isErr] at hE
  exact (c10_inc_ref_or_create envFail8 statePlain 0 (IP.v4 7) INVALID
    [nhopA, nhopB] (by decide)).2.2.2 s1 (by decide) hsh

/-- C6: when the member loop of `BcmEcmpHost::BcmEcmpHost` yields a
single candidate egress id, the EcmpHost adopts it as its `egress_id`,
its `ecmp_egress_id` stays `INVALID`, and the constructor finishes in the
loop's exact final state — no ECMP egress object is created or inserted
into the egress table. -/
theorem c6_single_path_collapse (E : Env) (s : HwState) (vrf : Vrf)
    (fwd prog : List Nexthop) (e : EgressId) (sL : HwState)
    (h : BcmEcmpHostObj) (s' : HwState)
    (hL : ecmpLoop E vrf fwd s [] [] = .ok [e] prog sL)
    (hok : bcmEcmpHostCtor E s vrf fwd = .ok h s') :
    h = ⟨vrf, prog, e, INVALID⟩ ∧ s' = sL := by
  unfold bcmEcmpHostCtor at hok
  by_cases hf : fwd = []
  · rw [hf] at hL
    simp [ecmpLoop] at hL
  · simp only [hf, if_neg, if_false, ite_false] at hok
    rw [hL] at hok
    simp at hok
    exact ⟨hok.1.symm, hok.2.symm⟩

/-- Witness for C6: the single-member loop over `nhopA` yields the lone
candidate egress 60, and the constructor adopts it with an `INVALID`
`ecmp_egress_id`, returning the loop state unchanged. -/
theorem c6_witness :
    bcmEcmpHostCtor envPlain statePlain 0 [nhopA] = .ok hC6 sC6 ∧
    hC6.egressId = 60 ∧ hC6.ecmpEgressId = INVALID := by
  have h1 : ecmpLoop envPlain 0 [nhopA] statePlain [] [] =
      .ok [60] [nhopA] sC6 := by rfl
  have h2 : bcmEcmpHostCtor envPlain statePlain 0 [nhopA] =
      .ok hC6 sC6 := by rfl
  obtain ⟨hh, hs⟩ := c6_single_path_collapse envPlain statePlain 0 [nhopA]
    [nhopA] 60 sC6 hC6 sC6 h1 h2
  exact ⟨h2, by rw [hh], by rw [hh]⟩

/-- C2 (amended): in the LPM branch (`canUseHostTable` false), any
failure of `BcmRoute::program` releases exactly the newly acquired
next-hop references, leaving every host and ECMP-host refcount as it was
before the call; the host-table branch additionally derefs the old
prefix host *before* the programming step, so the original claim does not
hold there. -/
theorem c2_lpm_failure_atomic (E : Env) (s : HwState) (r : BcmRouteObj)
    (f : RouteForwardInfo) (s' : HwState)
    (hnd : (s.hosts.map Prod.fst).Nodup)
    (hpos : ∀ kv ∈ s.ecmpHosts, 1 ≤ kv.2.2)
    (hct : canUseHostTable E r = false)
    (hcoh : f.action = .nexthops ∨ f.nhops = [])
    (herr : bcmRouteProgram E s r f = .err s') :
    (∀ k, hostRc s' k = hostRc s k) ∧
    (∀ k2, ecmpRc s' k2 = ecmpRc s k2) := by
  unfold bcmRouteProgram at herr
  by_cases hif : r.added ∧ f = r.fwd
  · rw [if_pos hif] at herr
    simp at herr
  · rw [if_neg hif] at herr
    rcases hact : f.action with _ | _ | _
    · -- drop
      have hnil : f.nhops = [] := by
        rcases hcoh with hc1 | hc1
        · rw [hact] at hc1
          simp at hc1
        · exact hc1
      simp only [hact] at herr
      simp only [hct, Bool.false_eq_true, if_false] at herr
      split at herr
      · next u s2 heq =>
        by_cases hadd : r.added
        · simp only [hadd, if_true] at herr
          split at herr
          · next u2 s3 heq2 => simp at herr
          · next s3 heq2 =>
            have hne := cleanupHost_no_err E s2 r.vrf r.fwd.nhops
            rw [heq2] at hne
            simp [Outcome.isErr] at hne
          · next s3 heq2 => simp at herr
        · simp only [hadd, Bool.false_eq_true, if_false] at herr
          simp at herr
      · next s2 heq =>
        have hcu : cleanupHost E s2 r.vrf f.nhops = .ok () s2 := by
          rw [hnil]
          simp [cleanupHost]
        rw [hcu] at herr
        simp at herr
        subst herr
        have hplf := programLpmRoute_frame E s r E.dropEgressId f
        rw [heq] at hplf
        simp only [Outcome.stateOf] at hplf
        exact ⟨hostRc_eq_of_hosts_eq hplf.1, ecmpRc_eq_of_ecmp_eq hplf.2⟩
      · simp at herr
    · -- to CPU
      have hnil : f.nhops = [] := by
        rcases hcoh with hc1 | hc1
        · rw [hact] at hc1
          simp at hc1
        · exact hc1
      simp only [hact] at herr
      simp only [hct, Bool.false_eq_true, if_false] at herr
      split at herr
      · next u s2 heq =>
        by_cases hadd : r.added
        · simp only [hadd, if_true] at herr
          split at herr
          · next u2 s3 heq2 => simp at herr
          · next s3 heq2 =>
            have hne := cleanupHost_no_err E s2 r.vrf r.fwd.nhops
            rw [heq2] at hne
            simp [Outcome.isErr] at hne
          · next s3 heq2 => simp at herr
        · simp only [hadd, Bool.false_eq_true, if_false] at herr
          simp at herr
      · next s2 heq =>
        have hcu : cleanupHost E s2 r.vrf f.nhops = .ok () s2 := by
          rw [hnil]
          simp [cleanupHost]
        rw [hcu] at herr
        simp at herr
        subst herr
        have hplf := programLpmRoute_frame E s r E.toCpuEgressId f
        rw [heq] at hplf
        simp only [Outcome.stateOf] at hplf
        exact ⟨hostRc_eq_of_hosts_eq hplf.1, ecmpRc_eq_of_ecmp_eq hplf.2⟩
      · simp at herr
    · -- next hops
      simp only [hact] at herr
      by_cases hnil : f.nhops = []
      · simp [hnil] at herr
      · simp only [hnil, if_neg, if_false, ite_false] at herr
        rcases hi : incRefOrCreateBcmEcmpHost E s r.vrf f.nhops
            with ⟨h, sA⟩ | sA | sA <;> simp only [hi] at herr
        · simp only [hct, Bool.false_eq_true, if_false] at herr
          split at herr
          · next u s2 heq =>
            by_cases hadd : r.added
            · simp only [hadd, if_true] at herr
              split at herr
              · next u2 s3 heq2 => simp at herr
              · next s3 heq2 =>
                have hne := cleanupHost_no_err E s2 r.vrf r.fwd.nhops
                rw [heq2] at hne
                simp [Outcome.isErr] at hne
              · next s3 heq2 => simp at herr
            · simp only [hadd, Bool.false_eq_true, if_false] at herr
              simp at herr
          · next s2 heq =>
            split at herr
            · next u2 s3 heq2 =>
              simp at herr
              subst herr
              have hplf := programLpmRoute_frame E sA r h.egressId f
              rw [heq] at hplf
              simp only [Outcome.stateOf] at hplf
              unfold cleanupHost at heq2
              rw [if_neg hnil] at heq2
              exact incThenDeref_ecmp_restores E s sA s2 s3 r.vrf f.nhops h
                hnd hpos hi hplf.1 hplf.2 heq2
            · next s3 heq2 =>
              have hne := cleanupHost_no_err E s2 r.vrf f.nhops
              rw [heq2] at hne
              simp [Outcome.isErr] at hne
            · next s3 heq2 => simp at herr
          · simp at herr
        · simp at herr
          subst herr
          obtain ⟨hrc, hec⟩ := incRefOrCreateBcmEcmpHost_err E s r.vrf
            f.nhops sA hnd hi
          exact ⟨hrc, ecmpRc_eq_of_ecmp_eq hec⟩
        · simp at herr

/-- Counterexample to C2 as stated: in the host-table branch the old
prefix host is dereferenced *before* the programming step; when the
re-add of the prefix host then fails, the route ends in an error state
whose prefix-host refcount dropped from 1 to 0 — the previously-held
reference was released although the programming step never succeeded. -/
theorem c2_counterexample :
    (bcmRouteProgram envHostFail s2c r2c fwdB).isErr = true ∧
    hostRc s2c (0, IP.v4 5) = 1 ∧
    hostRc (bcmRouteProgram envHostFail s2c r2c fwdB).stateOf
      (0, IP.v4 5) = 0 := by decide

/-- Witness for the amended C2: an LPM route whose hardware add is
rejected ends in an error state with every sampled refcount equal to its
starting value. -/
theorem c2_witness :
    (List.map Prod.fst statePlain.hosts).Nodup ∧
    (∀ kv ∈ statePlain.ecmpHosts, 1 ≤ kv.2.2) ∧
    canUseHostTable envFailRoute rFresh = false ∧
    (bcmRouteProgram envFailRoute statePlain rFresh fwdA).isErr = true ∧
    hostRc (bcmRouteProgram envFailRoute statePlain rFresh fwdA).stateOf
      (0, IP.v4 7) = hostRc statePlain (0, IP.v4 7) ∧
    ecmpRc (bcmRouteProgram envFailRoute statePlain rFresh fwdA).stateOf
      (0, [nhopA]) = ecmpRc statePlain (0, [nhopA]) := by
  have hE : (bcmRouteProgram envFailRoute statePlain rFresh fwdA).isErr
      = true := by decide
  refine ⟨by decide, by decide, by decide, hE, ?_, ?_⟩ <;>
    (rcases hsh : bcmRouteProgram envFailRoute statePlain rFresh fwdA
        with ⟨r1, s1⟩ | s1 | s1 <;>
      rw [hsh] at hE <;> simp [Outcome.isErr] at hE)
  · exact (c2_lpm_failure_atomic envFailRoute statePlain rFresh fwdA s1
      (by decide) (by decide) (by decide) (Or.inl rfl) hsh).1 _
  · exact (c2_lpm_failure_atomic envFailRoute statePlain rFresh fwdA s1
      (by decide) (by decide) (by decide) (Or.inl rfl) hsh).2 _

/-- Counterexample to C3 as stated: programming the same route with
fwd_A, fwd_B, fwd_A issues exactly three hardware route-programming
calls (each change reprograms the route), not the claimed two. -/
theorem c3_counterexample :
    (programChain envPlain statePlain rFresh [fwdA, fwdB, fwdA]).isOk
      = true ∧
    countRouteAdds
      (programChain envPlain statePlain rFresh [fwdA, fwdB, fwdA]).stateOf
      = 3 ∧
    ¬ countRouteAdds
      (programChain envPlain statePlain rFresh [fwdA, fwdB, fwdA]).stateOf
      = 2 := by decide

theorem countRA_eq_of_trace_eq {s1 s2 : HwState} (h : s1.trace = s2.trace) :
    countRouteAdds s1 = countRouteAdds s2 := by
  simp [countRouteAdds, h]

theorem incEgressReference_countRA (E : Env) (s : HwState) (e : EgressId) :
    countRouteAdds (incEgressReference E s e).stateOf = countRouteAdds s := by
  unfold incEgressReference
  by_cases hs : e = INVALID ∨ e = E.dropEgressId
  · simp [hs, Outcome.stateOf]
  · rcases hl : lookupA s.egressMap e with _ | ⟨obj, n⟩ <;>
      simp [hs, hl, Outcome.stateOf, countRouteAdds]

theorem derefEgress_countRA (E : Env) (s : HwState) (e : EgressId) :
    countRouteAdds (derefEgress E s e).stateOf = countRouteAdds s := by
  unfold derefEgress
  by_cases hs : e = INVALID ∨ e = E.dropEgressId
  · simp [hs, Outcome.stateOf]
  · rcases hl : lookupA s.egressMap e with _ | ⟨obj, n⟩
    · simp [hs, hl, Outcome.stateOf, countRouteAdds]
    · by_cases h0 : n = 0
      · simp [hs, hl, h0, Outcome.stateOf, countRouteAdds]
      · by_cases h1 : n = 1 <;>
          simp [hs, hl, h0, h1, Outcome.stateOf, countRouteAdds,
            List.countP_cons, isRouteAddEv]

theorem updatePort_countRA (s : HwState) (e : EgressId) (po pn : PortT) :
    countRouteAdds (updatePortEgressMapping s e po pn).stateOf
      = countRouteAdds s := by
  unfold updatePortEgressMapping egressResolutionChangedMaybeLocked
  by_cases ho : po = 0
  · by_cases hn : pn = 0 <;>
      simp [ho, hn, Outcome.stateOf, countRouteAdds, List.countP_cons,
        isRouteAddEv]
  · rcases hl : lookupA s.port2EgressIds po with _ | ids
    · simp [ho, hl, Outcome.stateOf, countRouteAdds, List.countP_cons,
        isRouteAddEv]
    · by_cases hn : pn = 0 <;>
        simp [ho, hl, hn, Outcome.stateOf, countRouteAdds, List.countP_cons,
          isRouteAddEv]

theorem bcmHostCtor_countRA (E : Env) (s : HwState) (vrf : Vrf) (addr : IP)
    (e : EgressId) :
    countRouteAdds (bcmHostCtor E s vrf addr e).stateOf = countRouteAdds s := by
  unfold bcmHostCtor
  rcases hi : incEgressReference E s e with ⟨u, s1⟩ | s1 | s1 <;>
    have hc := incEgressReference_countRA E s e <;>
    rw [hi] at hc <;> simp only [Outcome.stateOf] at hc <;>
    simp [hi, Outcome.stateOf, hc]

theorem addBcmHostObj_countRA (E : Env) (s : HwState) (h : BcmHostObj)
    (isMultipath : Bool) :
    countRouteAdds (addBcmHostObj E s h isMultipath).stateOf
      = countRouteAdds s := by
  unfold addBcmHostObj
  by_cases ha : h.added
  · simp [ha, Outcome.stateOf]
  · rw [if_neg ha]
    rcases hl : lookupA s.vrfIp2Host (h.vrf, h.addr) with _ | cached
    · simp only [hl]
      split_ifs <;>
        simp [Outcome.stateOf, countRouteAdds, List.countP_cons, isRouteAddEv]
    · simp only [hl]
      split_ifs <;> simp [Outcome.stateOf, countRouteAdds]

theorem setHostObj_trace (s : HwState) (k : Vrf × IP) (h : BcmHostObj) :
    (setHostObj s k h).trace = s.trace := by
  unfold setHostObj
  rcases hl : lookupA s.hosts k with _ | ⟨h0, n⟩ <;> simp [hl]

theorem setEcmpObj_trace (s : HwState) (k : Vrf × List Nexthop)
    (h : BcmEcmpHostObj) : (setEcmpObj s k h).trace = s.trace := by
  unfold setEcmpObj
  rcases hl : lookupA s.ecmpHosts k with _ | ⟨h0, n⟩ <;> simp [hl]

theorem bcmHostProgramFinish_countRA (E : Env) (s : HwState) (vrf : Vrf)
    (addr : IP) (h1 : BcmHostObj) (port : PortT) :
    countRouteAdds (bcmHostProgramFinish E s vrf addr h1 port).stateOf
      = countRouteAdds s := by
  unfold bcmHostProgramFinish
  rcases ha : addBcmHostObj E (setHostObj s (vrf, addr) h1) h1 false
      with ⟨h2, s4⟩ | s4 | s4 <;>
    have hc := addBcmHostObj_countRA E (setHostObj s (vrf, addr) h1) h1
      false <;>
    rw [ha] at hc <;> simp only [Outcome.stateOf] at hc <;>
    rw [countRA_eq_of_trace_eq (setHostObj_trace s (vrf, addr) h1)] at hc <;>
    simp only [ha]
  · rw [updatePort_countRA,
      countRA_eq_of_trace_eq (setHostObj_trace s4 (vrf, addr) _)]
    exact hc
  · simp only [Outcome.stateOf]
    exact hc
  · simp only [Outcome.stateOf]
    exact hc

theorem bcmHostProgram_countRA (E : Env) (s : HwState) (vrf : Vrf)
    (addr : IP) (intf : Nat) (mac : Option Nat) (port : PortT)
    (action : RouteForwardAction) :
    countRouteAdds (bcmHostProgram E s vrf addr intf mac port action).stateOf
      = countRouteAdds s := by
  unfold bcmHostProgram
  rcases hl : lookupA s.hosts (vrf, addr) with _ | ⟨h, n⟩
  · simp [hl, Outcome.stateOf]
  · simp only [hl]
    by_cases hinv : h.egressId = INVALID
    · simp only [hinv, if_pos, if_true]
      by_cases hok : E.hwOk (.egressProgramHw s.nextEgressId intf mac action)
      · simp only [hok, if_true]
        by_cases hdup : (lookupA s.egressMap s.nextEgressId).isSome
        · simp [hdup, Outcome.stateOf, countRouteAdds, List.countP_cons,
            isRouteAddEv]
        · simp only [hdup, Bool.false_eq_true, if_false, ite_false]
          rw [bcmHostProgramFinish_countRA]
          simp [countRouteAdds, List.countP_cons, isRouteAddEv]
      · simp [hok, Outcome.stateOf, countRouteAdds, List.countP_cons,
          isRouteAddEv]
    · simp only [hinv, Bool.false_eq_true, if_false, ite_false]
      rcases he : lookupA s.egressMap h.egressId with _ | ⟨obj, m⟩
      · simp [he, Outcome.stateOf]
      · simp only [he]
        by_cases hk : obj.kind = .ecmp
        · simp [hk, Outcome.stateOf]
        · simp only [hk, if_false, ite_false]
          by_cases hok : E.hwOk (.egressProgramHw h.egressId intf mac action)
          · simp only [hok, if_true]
            rw [bcmHostProgramFinish_countRA]
            simp [countRouteAdds, List.countP_cons, isRouteAddEv]
          · simp [hok, Outcome.stateOf, countRouteAdds, List.countP_cons,
              isRouteAddEv]

theorem bcmHostDtor_countRA (E : Env) (s : HwState) (h : BcmHostObj) :
    countRouteAdds (bcmHostDtor E s h).stateOf = countRouteAdds s := by
  unfold bcmHostDtor
  cases hadd : h.added with
  | false => simp [hadd, Outcome.stateOf]
  | true =>
    simp only [hadd]
    by_cases hok : E.hwOk (.hostDelete h.vrf h.addr)
    · simp only [hok, if_true, Bool.true_eq_false, if_false, ite_false]
      rcases hu : updatePortEgressMapping
          { s with trace := Event.hostDelete h.vrf h.addr :: s.trace }
          h.egressId h.port 0 with ⟨a, s2⟩ | s2 | s2 <;>
        have hc := updatePort_countRA
          { s with trace := Event.hostDelete h.vrf h.addr :: s.trace }
          h.egressId h.port 0 <;>
        rw [hu] at hc <;> simp only [Outcome.stateOf] at hc <;>
        simp only [hu]
      · rw [derefEgress_countRA, hc]
        simp [countRouteAdds, List.countP_cons, isRouteAddEv]
      · simp only [Outcome.stateOf]
        rw [hc]
        simp [countRouteAdds, List.countP_cons, isRouteAddEv]
      · simp only [Outcome.stateOf]
        rw [hc]
        simp [countRouteAdds, List.countP_cons, isRouteAddEv]
    · simp [hok, Outcome.stateOf, countRouteAdds, List.countP_cons,
        isRouteAddEv]

theorem derefBcmHost_countRA (E : Env) (s : HwState) (vrf : Vrf)
    (addr : IP) :
    countRouteAdds (derefBcmHost E s vrf addr).stateOf = countRouteAdds s := by
  unfold derefBcmHost
  rcases hl : lookupA s.hosts (vrf, addr) with _ | ⟨h0, n⟩
  · simp [hl, Outcome.stateOf]
  · simp only [hl]
    by_cases h0n : n = 0
    · simp [h0n, Outcome.stateOf]
    · by_cases h1n : n = 1
      · rw [if_neg h0n, if_pos h1n, bcmHostDtor_countRA]
        exact countRA_eq_of_trace_eq rfl
      · simp [h0n, h1n, Outcome.stateOf, countRouteAdds]

theorem incRefOrCreateBcmHostE_countRA (E : Env) (s : HwState) (vrf : Vrf)
    (addr : IP) (e : EgressId) :
    countRouteAdds (incRefOrCreateBcmHostE E s vrf addr e).stateOf
      = countRouteAdds s := by
  unfold incRefOrCreateBcmHostE
  rcases hl : lookupA s.hosts (vrf, addr) with _ | ⟨h0, n⟩
  · simp only [hl]
    rcases hc : bcmHostCtor E
        { s with hosts := ((vrf, addr), (hostPlaceholder, 1)) :: s.hosts }
        vrf addr e with ⟨h2, s2⟩ | s2 | s2 <;>
      have hcc := bcmHostCtor_countRA E
        { s with hosts := ((vrf, addr), (hostPlaceholder, 1)) :: s.hosts }
        vrf addr e <;>
      rw [hc] at hcc <;> simp only [Outcome.stateOf] at hcc <;>
      simp only [hc, Outcome.stateOf] <;>
      rw [show countRouteAdds { s with
        hosts := ((vrf, addr), (hostPlaceholder, 1)) :: s.hosts }
        = countRouteAdds s from rfl] at hcc
    · rw [countRA_eq_of_trace_eq (setHostObj_trace s2 (vrf, addr) h2)]
      exact hcc
    · exact hcc
    · exact hcc
  · simp [hl, Outcome.stateOf, countRouteAdds]

theorem derefNexthops_countRA (E : Env) (vrf : Vrf) (l : List Nexthop) :
    ∀ s : HwState,
    countRouteAdds (derefNexthops E vrf l s).stateOf = countRouteAdds s := by
  induction l with
  | nil => intro s; simp [derefNexthops, Outcome.stateOf]
  | cons n t ih =>
    intro s
    unfold derefNexthops
    rcases hd : derefBcmHost E s vrf n.nexthop with ⟨a, s1⟩ | s1 | s1 <;>
      have hc := derefBcmHost_countRA E s vrf n.nexthop <;>
      rw [hd] at hc <;> simp only [Outcome.stateOf] at hc <;>
      simp only [hd]
    · rw [ih s1, hc]
    · simp only [Outcome.stateOf]
      exact hc
    · simp only [Outcome.stateOf]
      exact hc

theorem ecmpLoop_countRA (E : Env) (vrf : Vrf) :
    ∀ (rest : List Nexthop) (s : HwState) (prog : List Nexthop)
      (paths : List EgressId),
    countRouteAdds (ecmpLoop E vrf rest s prog paths).stateOf
      = countRouteAdds s := by
  intro rest
  induction rest with
  | nil => intro s prog paths; simp [ecmpLoop, ELoop.stateOf]
  | cons nhop rest ih =>
    intro s prog paths
    unfold ecmpLoop
    rcases hi : incRefOrCreateBcmHost E s vrf nhop.nexthop
        with ⟨host, s1⟩ | s1 | s1 <;>
      have hc := incRefOrCreateBcmHostE_countRA E s vrf nhop.nexthop
        INVALID <;>
      rw [show incRefOrCreateBcmHostE E s vrf nhop.nexthop INVALID =
        _ from hi] at hc <;>
      simp only [Outcome.stateOf] at hc <;> simp only [hi]
    · by_cases hmem : nhop ∈ prog
      · simp [hmem, ELoop.stateOf, hc]
      · simp only [hmem, if_neg, if_false, ite_false]
        by_cases hpr : host.isProgrammed
        · simp only [hpr, if_pos, if_true]
          rw [ih s1 (prog ++ [nhop]) (insertPath paths host.egressId), hc]
        · simp only [hpr, Bool.false_eq_true, if_false]
          rcases hin : lookupA E.intfs nhop.intf with _ | bcmIf <;>
            simp only [hin]
          · simp [ELoop.stateOf, hc]
          · rcases hp : bcmHostProgramToCPU E s1 vrf nhop.nexthop bcmIf
                with ⟨u, s2⟩ | s2 | s2 <;>
              have hc2 := bcmHostProgram_countRA E s1 vrf nhop.nexthop
                bcmIf none 0 .toCpu <;>
              rw [show bcmHostProgram E s1 vrf nhop.nexthop bcmIf none 0
                .toCpu = _ from hp] at hc2 <;>
              simp only [Outcome.stateOf] at hc2 <;> simp only [hp]
            · rcases hre : lookupA s2.hosts (vrf, nhop.nexthop)
                  with _ | ⟨h2, m⟩ <;> simp only [hre]
              · simp [ELoop.stateOf, hc2, hc]
              · rw [ih s2 (prog ++ [nhop]) (insertPath paths h2.egressId),
                  hc2, hc]
            · simp [ELoop.stateOf, hc2, hc]
            · simp [ELoop.stateOf, hc2, hc]
    · simp [ELoop.stateOf, hc]
    · simp [ELoop.stateOf, hc]

theorem ecmpLoop_ok_prog (E : Env) (vrf : Vrf) :
    ∀ (rest : List Nexthop) (s : HwState) (prog : List Nexthop)
      (paths paths' : List EgressId) (prog' : List Nexthop) (s_f : HwState),
    ecmpLoop E vrf rest s prog paths = .ok paths' prog' s_f →
    prog' = prog ++ rest := by
  intro rest
  induction rest with
  | nil =>
    intro s prog paths paths' prog' s_f h
    simp [ecmpLoop] at h
    simp [← h.2.1]
  | cons nhop rest ih =>
    intro s prog paths paths' prog' s_f h
    simp only [ecmpLoop] at h
    rcases hi : incRefOrCreateBcmHost E s vrf nhop.nexthop
        with ⟨host, s1⟩ | s1 | s1 <;> rw [hi] at h <;> simp at h
    by_cases hmem : nhop ∈ prog
    · simp [hmem] at h
    · simp only [hmem, if_neg, if_false, ite_false] at h
      by_cases hpr : host.isProgrammed
      · simp only [hpr, if_pos, if_true] at h
        rw [ih s1 (prog ++ [nhop]) _ _ _ _ h]
        simp
      · simp only [hpr, Bool.false_eq_true, if_false] at h
        rcases hin : lookupA E.intfs nhop.intf with _ | bcmIf <;>
          rw [hin] at h <;> simp at h
        rcases hp : bcmHostProgramToCPU E s1 vrf nhop.nexthop bcmIf
            with ⟨u, s2⟩ | s2 | s2 <;> rw [hp] at h <;> simp at h
        rcases hre : lookupA s2.hosts (vrf, nhop.nexthop)
            with _ | ⟨h2, m⟩ <;> rw [hre] at h <;> simp at h
        rw [ih s2 (prog ++ [nhop]) _ _ _ _ h]
        simp

theorem bcmEcmpHostCtor_ok_fwd (E : Env) (s : HwState) (vrf : Vrf)
    (fwd : List Nexthop) (h : BcmEcmpHostObj) (s' : HwState)
    (hok : bcmEcmpHostCtor E s vrf fwd = .ok h s') :
    h.fwd = fwd := by
  unfold bcmEcmpHostCtor at hok
  by_cases hf : fwd = []
  · simp [hf] at hok
  · simp only [hf, if_neg, if_false, ite_false] at hok
    rcases hL : ecmpLoop E vrf fwd s [] [] with ⟨paths, prog, sf⟩ |
        ⟨prog, sf⟩ | sf <;> simp only [hL] at hok
    · have hpr := ecmpLoop_ok_prog E vrf fwd s [] [] paths prog sf hL
      simp at hpr
      subst hpr
      rcases paths with _ | ⟨e, _ | ⟨e2, ps⟩⟩
      · simp only [] at hok
        by_cases hok2 : E.hwOk (Event.ecmpCreateHw sf.nextEgressId [])
        · simp only [hok2, if_true] at hok
          by_cases hdup : (lookupA sf.egressMap sf.nextEgressId).isSome <;>
            simp [hdup] at hok
          rw [← hok.1]
        · simp only [hok2, Bool.false_eq_true, if_false] at hok
          split at hok <;> simp at hok
      · simp at hok
        rw [← hok.1]
      · simp only [] at hok
        by_cases hok2 : E.hwOk
            (Event.ecmpCreateHw sf.nextEgressId (e :: e2 :: ps))
        · simp only [hok2, if_true] at hok
          by_cases hdup : (lookupA sf.egressMap sf.nextEgressId).isSome <;>
            simp [hdup] at hok
          rw [← hok.1]
        · simp only [hok2, Bool.false_eq_true, if_false] at hok
          split at hok <;> simp at hok
    · split at hok <;> simp at hok
    · simp at hok

theorem bcmEcmpHostCtor_countRA (E : Env) (s : HwState) (vrf : Vrf)
    (fwd : List Nexthop) :
    countRouteAdds (bcmEcmpHostCtor E s vrf fwd).stateOf
      = countRouteAdds s := by
  unfold bcmEcmpHostCtor
  by_cases hf : fwd = []
  · simp [hf, Outcome.stateOf]
  · simp only [hf, if_neg, if_false, ite_false]
    rcases hL : ecmpLoop E vrf fwd s [] [] with ⟨paths, prog, sf⟩ |
        ⟨prog, sf⟩ | sf <;>
      have hc := ecmpLoop_countRA E vrf fwd s [] [] <;>
      rw [hL] at hc <;> simp only [ELoop.stateOf] at hc <;> simp only [hL]
    · rcases paths with _ | ⟨e, _ | ⟨e2, ps⟩⟩
      · simp only []
        by_cases hok2 : E.hwOk (Event.ecmpCreateHw sf.nextEgressId [])
        · simp only [hok2, if_true]
          by_cases hdup : (lookupA sf.egressMap sf.nextEgressId).isSome <;>
            simp [hdup, Outcome.stateOf, countRouteAdds, List.countP_cons,
              isRouteAddEv] <;>
            simpa [countRouteAdds] using hc
        · simp only [hok2, Bool.false_eq_true, if_false]
          split
          · next u s2 heq =>
            have hdn := derefNexthops_countRA E vrf prog
              { sf with trace :=
                Event.ecmpCreateHw sf.nextEgressId [] :: sf.trace }
            rw [heq] at hdn
            simp only [Outcome.stateOf] at hdn
            have hdn2 : countRouteAdds s2 = countRouteAdds sf := by
              rw [hdn]
              simp [countRouteAdds, List.countP_cons, isRouteAddEv]
            simp only [Outcome.stateOf]
            rw [hdn2, hc]
          · next s2 heq =>
            have hdn := derefNexthops_countRA E vrf prog
              { sf with trace :=
                Event.ecmpCreateHw sf.nextEgressId [] :: sf.trace }
            rw [heq] at hdn
            simp only [Outcome.stateOf] at hdn
            have hdn2 : countRouteAdds s2 = countRouteAdds sf := by
              rw [hdn]
              simp [countRouteAdds, List.countP_cons, isRouteAddEv]
            simp only [Outcome.stateOf]
            rw [hdn2, hc]
          · next s2 heq =>
            have hdn := derefNexthops_countRA E vrf prog
              { sf with trace :=
                Event.ecmpCreateHw sf.nextEgressId [] :: sf.trace }
            rw [heq] at hdn
            simp only [Outcome.stateOf] at hdn
            have hdn2 : countRouteAdds s2 = countRouteAdds sf := by
              rw [hdn]
              simp [countRouteAdds, List.countP_cons, isRouteAddEv]
            simp only [Outcome.stateOf]
            rw [hdn2, hc]
      · simp [Outcome.stateOf, hc]
      · simp only []
        by_cases hok2 : E.hwOk
            (Event.ecmpCreateHw sf.nextEgressId (e :: e2 :: ps))
        · simp only [hok2, if_true]
          by_cases hdup : (lookupA sf.egressMap sf.nextEgressId).isSome <;>
            simp [hdup, Outcome.stateOf, countRouteAdds, List.countP_cons,
              isRouteAddEv] <;>
            simpa [countRouteAdds] using hc
        · simp only [hok2, Bool.false_eq_true, if_false]
          split
          · next u s2 heq =>
            have hdn := derefNexthops_countRA E vrf prog
              { sf with trace :=
                Event.ecmpCreateHw sf.nextEgressId (e :: e2 :: ps) :: sf.trace }
            rw [heq] at hdn
            simp only [Outcome.stateOf] at hdn
            have hdn2 : countRouteAdds s2 = countRouteAdds sf := by
              rw [hdn]
              simp [countRouteAdds, List.countP_cons, isRouteAddEv]
            simp only [Outcome.stateOf]
            rw [hdn2, hc]
          · next s2 heq =>
            have hdn := derefNexthops_countRA E vrf prog
              { sf with trace :=
                Event.ecmpCreateHw sf.nextEgressId (e :: e2 :: ps) :: sf.trace }
            rw [heq] at hdn
            simp only [Outcome.stateOf] at hdn
            have hdn2 : countRouteAdds s2 = countRouteAdds sf := by
              rw [hdn]
              simp [countRouteAdds, List.countP_cons, isRouteAddEv]
            simp only [Outcome.stateOf]
            rw [hdn2, hc]
          · next s2 heq =>
            have hdn := derefNexthops_countRA E vrf prog
              { sf with trace :=
                Event.ecmpCreateHw sf.nextEgressId (e :: e2 :: ps) :: sf.trace }
            rw [heq] at hdn
            simp only [Outcome.stateOf] at hdn
            have hdn2 : countRouteAdds s2 = countRouteAdds sf := by
              rw [hdn]
              simp [countRouteAdds, List.countP_cons, isRouteAddEv]
            simp only [Outcome.stateOf]
            rw [hdn2, hc]
    · split
      · next u s2 heq =>
        have hdn := derefNexthops_countRA E vrf prog sf
        rw [heq] at hdn
        simp only [Outcome.stateOf] at hdn
        simp [Outcome.stateOf, hdn, hc]
      · next s2 heq =>
        have hdn := derefNexthops_countRA E vrf prog sf
        rw [heq] at hdn
        simp only [Outcome.stateOf] at hdn
        simp [Outcome.stateOf, hdn, hc]
      · next s2 heq =>
        have hdn := derefNexthops_countRA E vrf prog sf
        rw [heq] at hdn
        simp only [Outcome.stateOf] at hdn
        simp [Outcome.stateOf, hdn, hc]
    · simp [Outcome.stateOf, hc]

theorem bcmEcmpHostDtor_countRA (E : Env) (s : HwState)
    (h : BcmEcmpHostObj) :
    countRouteAdds (bcmEcmpHostDtor E s h).stateOf = countRouteAdds s := by
  unfold bcmEcmpHostDtor
  rcases hd : derefEgress E s h.ecmpEgressId with ⟨u, s1⟩ | s1 | s1 <;>
    have hc := derefEgress_countRA E s h.ecmpEgressId <;>
    rw [hd] at hc <;> simp only [Outcome.stateOf] at hc <;> simp only [hd]
  · rw [derefNexthops_countRA, hc]
  · simp only [Outcome.stateOf]
    exact hc
  · simp only [Outcome.stateOf]
    exact hc

theorem derefBcmEcmpHost_countRA (E : Env) (s : HwState) (vrf : Vrf)
    (nhops : List Nexthop) :
    countRouteAdds (derefBcmEcmpHost E s vrf nhops).stateOf
      = countRouteAdds s := by
  unfold derefBcmEcmpHost
  rcases hl : lookupA s.ecmpHosts (vrf, nhops) with _ | ⟨h0, n⟩
  · simp [hl, Outcome.stateOf]
  · simp only [hl]
    by_cases h0n : n = 0
    · simp [h0n, Outcome.stateOf]
    · by_cases h1n : n = 1
      · rw [if_neg h0n, if_pos h1n, bcmEcmpHostDtor_countRA]
        exact countRA_eq_of_trace_eq rfl
      · simp [h0n, h1n, Outcome.stateOf, countRouteAdds]

theorem incRefOrCreateBcmEcmpHost_countRA (E : Env) (s : HwState)
    (vrf : Vrf) (fwd : List Nexthop) :
    countRouteAdds (incRefOrCreateBcmEcmpHost E s vrf fwd).stateOf
      = countRouteAdds s := by
  unfold incRefOrCreateBcmEcmpHost
  rcases hl : lookupA s.ecmpHosts (vrf, fwd) with _ | ⟨h0, n⟩
  · simp only [hl]
    rcases hc : bcmEcmpHostCtor E
        { s with ecmpHosts :=
          ((vrf, fwd), (ecmpPlaceholder, 1)) :: s.ecmpHosts }
        vrf fwd with ⟨h2, s2⟩ | s2 | s2 <;>
      have hcc := bcmEcmpHostCtor_countRA E
        { s with ecmpHosts :=
          ((vrf, fwd), (ecmpPlaceholder, 1)) :: s.ecmpHosts }
        vrf fwd <;>
      rw [hc] at hcc <;> simp only [Outcome.stateOf] at hcc <;>
      simp only [hc] <;>
      rw [show countRouteAdds { s with
        ecmpHosts := ((vrf, fwd), (ecmpPlaceholder, 1)) :: s.ecmpHosts }
        = countRouteAdds s from rfl] at hcc
    · simp only [Outcome.stateOf]
      rw [countRA_eq_of_trace_eq (setEcmpObj_trace s2 (vrf, fwd) h2)]
      exact hcc
    · simp only [Outcome.stateOf]
      exact hcc
    · simp only [Outcome.stateOf]
      exact hcc
  · simp [hl, Outcome.stateOf, countRouteAdds]

theorem mem_setA {κ ν : Type} [DecidableEq κ] {m : List (κ × ν)} {k : κ}
    {v : ν} {kv : κ × ν} (h : kv ∈ setA m k v) : kv = (k, v) ∨ kv ∈ m := by
  induction m with
  | nil => simp [setA] at h
  | cons kv0 t ih =>
    obtain ⟨k0, v0⟩ := kv0
    by_cases hk : k0 = k
    · subst hk
      simp [setA] at h
      rcases h with h | h
      · exact Or.inl (by simp [h])
      · exact Or.inr (by simp [h])
    · simp [setA, hk] at h
      rcases h with h | h
      · exact Or.inr (by simp [h])
      · rcases ih h with h2 | h2
        · exact Or.inl h2
        · exact Or.inr (by simp [h2])

theorem ecmpRc_eq_setA {s s' : HwState} {key : Vrf × List Nexthop}
    {h : BcmEcmpHostObj} {n : Nat}
    (hso : (lookupA s.ecmpHosts key).isSome = true)
    (hs : s'.ecmpHosts = setA s.ecmpHosts key (h, n)) :
    ∀ j, ecmpRc s' j = if j = key then n else ecmpRc s j := by
  intro j
  by_cases hk : j = key
  · subst hk
    simp [ecmpRc, hs, lookupA_setA_self s.ecmpHosts j (h, n) hso]
  · simp [ecmpRc, hs, hk, lookupA_setA_ne s.ecmpHosts key j (h, n) hk]

theorem ecmpRc_eq_cons {s s' : HwState} {key : Vrf × List Nexthop}
    {h : BcmEcmpHostObj} {n : Nat}
    (hs : s'.ecmpHosts = (key, (h, n)) :: s.ecmpHosts) :
    ∀ j, ecmpRc s' j = if j = key then n else ecmpRc s j := by
  intro j
  by_cases hk : j = key
  · subst hk
    simp [ecmpRc, hs, lookupA]
  · have hne : ¬(key = j) := fun hcc => hk hcc.symm
    simp [ecmpRc, hs, hk, lookupA, hne]

theorem ecmpRc_eq_erase {s s' : HwState} {key : Vrf × List Nexthop}
    (hnd : (s.ecmpHosts.map Prod.fst).Nodup)
    (hs : s'.ecmpHosts = eraseA s.ecmpHosts key) :
    ∀ j, ecmpRc s' j = if j = key then 0 else ecmpRc s j := by
  intro j
  by_cases hk : j = key
  · subst hk
    simp [ecmpRc, hs, lookupA_eraseA_self s.ecmpHosts j hnd]
  · simp [ecmpRc, hs, hk, lookupA_eraseA_ne s.ecmpHosts key j hk]

theorem derefNexthops_ok_rc_trunc (E : Env) (vrf : Vrf) (l : List Nexthop) :
    ∀ (s s' : HwState), (s.hosts.map Prod.fst).Nodup →
    derefNexthops E vrf l s = .ok () s' →
    (∀ k, hostRc s' k = hostRc s k - multNh vrf l k) ∧
    (s'.hosts.map Prod.fst).Nodup := by
  induction l with
  | nil =>
    intro s s' hnd h
    simp [derefNexthops] at h
    subst h
    exact ⟨fun k => by simp [multNh_nil], hnd⟩
  | cons n t ih =>
    intro s s' hnd h
    unfold derefNexthops at h
    rcases hd : derefBcmHost E s vrf n.nexthop with ⟨a, s1⟩ | s1 | s1 <;>
      rw [hd] at h <;> simp at h
    have hrc := derefBcmHost_ok_rc E s vrf n.nexthop s1 hnd hd
    have hih := ih s1 s' hrc.2 h
    refine ⟨?_, hih.2⟩
    intro k
    rw [hih.1 k, hrc.1 k, multNh_cons]
    by_cases hk : k = (vrf, n.nexthop)
    · subst hk
      simp
      omega
    · have hne : ¬((vrf, n.nexthop) = k) := fun hcc => hk hcc.symm
      simp [hne, hk]

theorem derefBcmEcmpHost_vrfPfx (E : Env) (s : HwState) (vrf : Vrf)
    (nhops : List Nexthop) :
    (derefBcmEcmpHost E s vrf nhops).stateOf.vrfPfx2Route
      = s.vrfPfx2Route := by
  unfold derefBcmEcmpHost
  rcases hl : lookupA s.ecmpHosts (vrf, nhops) with _ | ⟨h0, n⟩
  · simp [hl, Outcome.stateOf]
  · simp only [hl]
    by_cases h0n : n = 0
    · simp [h0n, Outcome.stateOf]
    · by_cases h1n : n = 1
      · rw [if_neg h0n, if_pos h1n]
        unfold bcmEcmpHostDtor
        rcases hd : derefEgress E
            { s with ecmpHosts := eraseA s.ecmpHosts (vrf, nhops) }
            h0.ecmpEgressId with ⟨u, s1⟩ | s1 | s1 <;>
          have hfd := derefEgress_frame E
            { s with ecmpHosts := eraseA s.ecmpHosts (vrf, nhops) }
            h0.ecmpEgressId <;>
          rw [hd] at hfd <;> simp only [Outcome.stateOf] at hfd <;>
          simp only [hd]
        · rw [(derefNexthops_frame E h0.vrf h0.fwd s1).2.2.1]
          exact hfd.2.2.2.2.2.1
        · simp only [Outcome.stateOf]
          exact hfd.2.2.2.2.2.1
        · simp only [Outcome.stateOf]
          exact hfd.2.2.2.2.2.1
      · simp [h0n, h1n, Outcome.stateOf]

theorem derefBcmEcmpHost_ok_spec (E : Env) (sB : HwState) (vrf : Vrf)
    (nhops : List Nexthop) (s2 : HwState) (h : BcmEcmpHostObj) (m : Nat)
    (hnd : (sB.hosts.map Prod.fst).Nodup)
    (hlk : lookupA sB.ecmpHosts (vrf, nhops) = some (h, m))
    (hcl : derefBcmEcmpHost E sB vrf nhops = .ok () s2) :
    (s2.hosts.map Prod.fst).Nodup ∧
    ((2 ≤ m ∧ s2.hosts = sB.hosts ∧
        s2.ecmpHosts = setA sB.ecmpHosts (vrf, nhops) (h, m - 1)) ∨
     (m = 1 ∧ s2.ecmpHosts = eraseA sB.ecmpHosts (vrf, nhops) ∧
        (∀ k, hostRc s2 k = hostRc sB k - multNh h.vrf h.fwd k))) := by
  unfold derefBcmEcmpHost at hcl
  simp only [hlk] at hcl
  by_cases h0n : m = 0
  · simp [h0n] at hcl
  · by_cases h1n : m = 1
    · rw [if_neg h0n, if_pos h1n] at hcl
      unfold bcmEcmpHostDtor at hcl
      split at hcl
      · next u s1 heq =>
        obtain ⟨hfe1, hfe2⟩ := derefEgress_ok_fields heq
        obtain ⟨hsub, hnd2⟩ := derefNexthops_ok_rc_trunc E h.vrf h.fwd s1 s2
          (by rw [hfe1]; exact hnd) hcl
        refine ⟨hnd2, Or.inr ⟨h1n, ?_, ?_⟩⟩
        · have hfn := derefNexthops_frame E h.vrf h.fwd s1
          rw [hcl] at hfn
          simp only [Outcome.stateOf] at hfn
          rw [hfn.1, show s1.ecmpHosts = eraseA sB.ecmpHosts (vrf, nhops)
            from hfe2]
        · intro k
          rw [hsub k, show hostRc s1 k = hostRc sB k from
            hostRc_eq_of_hosts_eq hfe1 k]
      · next s1 heq =>
        simp at hcl
      · next s1 heq =>
        simp at hcl
    · rw [if_neg h0n, if_neg h1n] at hcl
      simp at hcl
      subst hcl
      refine ⟨hnd, Or.inl ⟨by omega, rfl, rfl⟩⟩

theorem incRefOrCreateBcmEcmpHost_ok_spec (E : Env) (s : HwState)
    (vrf : Vrf) (fwd : List Nexthop) (h : BcmEcmpHostObj) (sA : HwState)
    (hok : incRefOrCreateBcmEcmpHost E s vrf fwd = .ok h sA) :
    sA.vrfPfx2Route = s.vrfPfx2Route ∧
    ((s.hosts.map Prod.fst).Nodup → (sA.hosts.map Prod.fst).Nodup) ∧
    ((∃ h0 n, lookupA s.ecmpHosts (vrf, fwd) = some (h0, n) ∧ h = h0 ∧
        sA.hosts = s.hosts ∧
        sA.ecmpHosts = setA s.ecmpHosts (vrf, fwd) (h0, n + 1)) ∨
     (lookupA s.ecmpHosts (vrf, fwd) = none ∧ h.vrf = vrf ∧ h.fwd = fwd ∧
        sA.ecmpHosts = ((vrf, fwd), (h, 1)) :: s.ecmpHosts ∧
        (∀ k, hostRc sA k = hostRc s k + multNh vrf fwd k))) := by
  unfold incRefOrCreateBcmEcmpHost at hok
  rcases hl : lookupA s.ecmpHosts (vrf, fwd) with _ | ⟨h0, n⟩
  · simp only [hl] at hok
    rcases hc : bcmEcmpHostCtor E
        { s with ecmpHosts :=
          ((vrf, fwd), (ecmpPlaceholder, 1)) :: s.ecmpHosts }
        vrf fwd with ⟨h2, s2c⟩ | s2c | s2c <;>
      simp only [hc] at hok <;> simp at hok
    obtain ⟨hh2, hsA⟩ := hok
    subst hh2
    obtain ⟨hv, hrc2, hecm, hrt2, hnd2⟩ := bcmEcmpHostCtor_ok E
      { s with ecmpHosts := ((vrf, fwd), (ecmpPlaceholder, 1)) :: s.ecmpHosts }
      vrf fwd h2 s2c hc
    have hfw : h2.fwd = fwd := bcmEcmpHostCtor_ok_fwd E
      { s with ecmpHosts := ((vrf, fwd), (ecmpPlaceholder, 1)) :: s.ecmpHosts }
      vrf fwd h2 s2c hc
    have hsa2 : sA =
        { s2c with ecmpHosts := ((vrf, fwd), (h2, 1)) :: s.ecmpHosts } := by
      rw [← hsA]
      unfold setEcmpObj
      rw [show s2c.ecmpHosts =
        ((vrf, fwd), (ecmpPlaceholder, 1)) :: s.ecmpHosts from hecm]
      simp [lookupA, setA]
    subst hsa2
    refine ⟨hrt2, fun hn => hnd2 hn, Or.inr ⟨rfl, hv, hfw, rfl, ?_⟩⟩
    intro k
    rw [show multNh vrf fwd k = multNh vrf h2.fwd k by rw [hfw]]
    exact hrc2 k
  · simp only [hl] at hok
    simp at hok
    obtain ⟨hh0, hsA⟩ := hok
    subst hh0
    subst hsA
    exact ⟨rfl, fun hn => hn, Or.inl ⟨h0, n, rfl, rfl, rfl, rfl⟩⟩

theorem programLpmRoute_ok_cacheMiss (E : Env) (sA : HwState)
    (r : BcmRouteObj) (eg : EgressId) (f : RouteForwardInfo) (sP : HwState)
    (hmiss : lookupA sA.vrfPfx2Route (r.vrf, r.pfx, r.len) = none)
    (hok : programLpmRoute E sA r eg f = .ok () sP) :
    sP.hosts = sA.hosts ∧ sP.ecmpHosts = sA.ecmpHosts ∧
    sP.vrfPfx2Route = sA.vrfPfx2Route ∧
    countRouteAdds sP = countRouteAdds sA + 1 := by
  unfold programLpmRoute at hok
  simp only [hmiss, Option.isSome_none, Bool.false_eq_true, if_false,
    ite_false] at hok
  split at hok
  · next a s1 heq =>
    simp at hok
    split_ifs at heq <;> simp at heq <;>
      rw [← hok, ← heq] <;>
      exact ⟨rfl, rfl, rfl, by
        simp [countRouteAdds, List.countP_cons, isRouteAddEv]⟩
  · next s1 heq =>
    simp at hok
  · next s1 heq =>
    simp at hok

theorem bcmRouteProgram_ok_lpm (E : Env) (s : HwState) (r : BcmRouteObj)
    (f : RouteForwardInfo) (r' : BcmRouteObj) (s' : HwState)
    (hct : canUseHostTable E r = false)
    (hnotearly : ¬(r.added = true ∧ f = r.fwd))
    (hcohf : f.action = .nexthops ∨ f.nhops = [])
    (hok : bcmRouteProgram E s r f = .ok r' s') :
    r' = { r with fwd := f, added := true } ∧
    ∃ sA sP eg,
      AcqSpec E r.vrf s f sA ∧
      programLpmRoute E sA r eg f = .ok () sP ∧
      ((r.added = true ∧ ClnSpec E r.vrf sP r.fwd.nhops s') ∨
       (r.added = false ∧ s' = sP)) := by
  unfold bcmRouteProgram at hok
  rw [if_neg (by
    intro hcc
    exact hnotearly ⟨by simp [hcc.1], hcc.2⟩)] at hok
  rcases hact : f.action with _ | _ | _
  · -- drop
    have hnil : f.nhops = [] := by
      rcases hcohf with hc1 | hc1
      · rw [hact] at hc1
        simp at hc1
      · exact hc1
    simp only [hact] at hok
    simp only [hct, Bool.false_eq_true, if_false, ite_false] at hok
    split at hok
    · next u sP heq =>
      split at hok
      · next u2 s3 heq2 =>
        simp at hok
        obtain ⟨hr', hs'⟩ := hok
        subst hr'
        subst hs'
        refine ⟨rfl, s, sP, E.dropEgressId, Or.inl ⟨hnil, rfl⟩, heq, ?_⟩
        by_cases hadd : r.added
        · rw [if_pos hadd] at heq2
          left
          refine ⟨hadd, ?_⟩
          by_cases hold : r.fwd.nhops = []
          · have : cleanupHost E sP r.vrf r.fwd.nhops = .ok () sP := by
              rw [hold]
              simp [cleanupHost]
            rw [this] at heq2
            simp at heq2
            exact Or.inl ⟨hold, heq2.symm⟩
          · unfold cleanupHost at heq2
            rw [if_neg hold] at heq2
            exact Or.inr ⟨hold, heq2⟩
        · rw [if_neg hadd] at heq2
          simp at heq2
          right
          simp [hadd]
          exact heq2.symm
      · next s3 heq2 => simp at hok
      · next s3 heq2 => simp at hok
    · next sP heq =>
      split at hok <;> simp at hok
    · simp at hok
  · -- to CPU
    have hnil : f.nhops = [] := by
      rcases hcohf with hc1 | hc1
      · rw [hact] at hc1
        simp at hc1
      · exact hc1
    simp only [hact] at hok
    simp only [hct, Bool.false_eq_true, if_false, ite_false] at hok
    split at hok
    · next u sP heq =>
      split at hok
      · next u2 s3 heq2 =>
        simp at hok
        obtain ⟨hr', hs'⟩ := hok
        subst hr'
        subst hs'
        refine ⟨rfl, s, sP, E.toCpuEgressId, Or.inl ⟨hnil, rfl⟩, heq, ?_⟩
        by_cases hadd : r.added
        · rw [if_pos hadd] at heq2
          left
          refine ⟨hadd, ?_⟩
          by_cases hold : r.fwd.nhops = []
          · have : cleanupHost E sP r.vrf r.fwd.nhops = .ok () sP := by
              rw [hold]
              simp [cleanupHost]
            rw [this] at heq2
            simp at heq2
            exact Or.inl ⟨hold, heq2.symm⟩
          · unfold cleanupHost at heq2
            rw [if_neg hold] at heq2
            exact Or.inr ⟨hold, heq2⟩
        · rw [if_neg hadd] at heq2
          simp at heq2
          right
          simp [hadd]
          exact heq2.symm
      · next s3 heq2 => simp at hok
      · next s3 heq2 => simp at hok
    · next sP heq =>
      split at hok <;> simp at hok
    · simp at hok
  · -- next hops
    simp only [hact] at hok
    by_cases hnil : f.nhops = []
    · simp [hnil] at hok
    · simp only [hnil, if_neg, if_false, ite_false] at hok
      rcases hi : incRefOrCreateBcmEcmpHost E s r.vrf f.nhops
          with ⟨h, sA⟩ | sA | sA <;> simp only [hi] at hok
      · simp only [hct, Bool.false_eq_true, if_false, ite_false] at hok
        split at hok
        · next u sP heq =>
          split at hok
          · next u2 s3 heq2 =>
            simp at hok
            obtain ⟨hr', hs'⟩ := hok
            subst hr'
            subst hs'
            refine ⟨rfl, sA, sP, h.egressId,
              Or.inr ⟨hact, hnil, h, hi⟩, heq, ?_⟩
            by_cases hadd : r.added
            · rw [if_pos hadd] at heq2
              left
              refine ⟨hadd, ?_⟩
              by_cases hold : r.fwd.nhops = []
              · have : cleanupHost E sP r.vrf r.fwd.nhops = .ok () sP := by
                  rw [hold]
                  simp [cleanupHost]
                rw [this] at heq2
                simp at heq2
                exact Or.inl ⟨hold, heq2.symm⟩
              · unfold cleanupHost at heq2
                rw [if_neg hold] at heq2
                exact Or.inr ⟨hold, heq2⟩
            · rw [if_neg hadd] at heq2
              simp at heq2
              right
              simp [hadd]
              exact heq2.symm
          · next s3 heq2 => simp at hok
          · next s3 heq2 => simp at hok
        · next sP heq =>
          split at hok <;> simp at hok
        · simp at hok
      · simp at hok
      · simp at hok

theorem WfMap_setA {κ ο : Type} [DecidableEq κ] {m : List (κ × (ο × Nat))}
    {key : κ} {h : ο} {n : Nat} (hwf : WfMap m)
    (hso : (lookupA m key).isSome = true) (hn : 1 ≤ n) :
    WfMap (setA m key (h, n)) := by
  obtain ⟨hnd, hpos⟩ := hwf
  refine ⟨by simpa [map_fst_setA m key (h, n) hso] using hnd, ?_⟩
  intro kv hkv
  rcases mem_setA hkv with h1 | h1
  · rw [h1]
    exact hn
  · exact hpos kv h1

theorem WfMap_cons {κ ο : Type} [DecidableEq κ] {m : List (κ × (ο × Nat))}
    {key : κ} {h : ο} {n : Nat} (hwf : WfMap m)
    (habs : lookupA m key = none) (hn : 1 ≤ n) :
    WfMap ((key, (h, n)) :: m) := by
  obtain ⟨hnd, hpos⟩ := hwf
  refine ⟨?_, ?_⟩
  · simp only [List.map_cons, List.nodup_cons]
    exact ⟨lookupA_none_not_mem habs, hnd⟩
  · intro kv hkv
    rcases List.mem_cons.1 hkv with h1 | h1
    · rw [h1]
      exact hn
    · exact hpos kv h1

theorem WfMap_erase {κ ο : Type} [DecidableEq κ]
    {m : List (κ × (ο × Nat))} (key : κ) (hwf : WfMap m) :
    WfMap (eraseA m key) := by
  obtain ⟨hnd, hpos⟩ := hwf
  exact ⟨nodup_eraseA m key hnd,
    fun kv hkv => hpos kv ((eraseA_sublist m key).subset hkv)⟩

theorem routeCall_invariants (E : Env) (s : HwState) (r : BcmRouteObj)
    (f : RouteForwardInfo) (r' : BcmRouteObj) (s' : HwState)
    (hct : canUseHostTable E r = false)
    (hnotearly : ¬(r.added = true ∧ f = r.fwd))
    (hcohf : f.action = .nexthops ∨ f.nhops = [])
    (hndH : (s.hosts.map Prod.fst).Nodup)
    (hwfE : WfMap s.ecmpHosts)
    (hmiss : lookupA s.vrfPfx2Route (r.vrf, r.pfx, r.len) = none)
    (hok : bcmRouteProgram E s r f = .ok r' s') :
    countRouteAdds s' = countRouteAdds s + 1 ∧
    s'.vrfPfx2Route = s.vrfPfx2Route ∧
    (s'.hosts.map Prod.fst).Nodup ∧
    WfMap s'.ecmpHosts := by
  obtain ⟨hr', sA, sP, eg, hacq, hlpm, hcln⟩ :=
    bcmRouteProgram_ok_lpm E s r f r' s' hct hnotearly hcohf hok
  have hstepA : countRouteAdds sA = countRouteAdds s ∧
      sA.vrfPfx2Route = s.vrfPfx2Route ∧
      (sA.hosts.map Prod.fst).Nodup ∧ WfMap sA.ecmpHosts := by
    rcases hacq with ⟨hnil, hsA⟩ | ⟨hactx, hnex, h, hi⟩
    · subst hsA
      exact ⟨rfl, rfl, hndH, hwfE⟩
    · obtain ⟨hv, hnod, hcase⟩ :=
        incRefOrCreateBcmEcmpHost_ok_spec E s r.vrf f.nhops h sA hi
      have hcnt := incRefOrCreateBcmEcmpHost_countRA E s r.vrf f.nhops
      rw [hi] at hcnt
      simp only [Outcome.stateOf] at hcnt
      refine ⟨hcnt, hv, hnod hndH, ?_⟩
      rcases hcase with ⟨h0, n, hlk, hh, hhosts, hecmp⟩ |
          ⟨hlk, hhv, hhf, hecmp, hrc⟩
      · rw [hecmp]
        exact WfMap_setA hwfE (lookupA_isSome_of_eq hlk) (by omega)
      · rw [hecmp]
        exact WfMap_cons hwfE hlk (by omega)
  obtain ⟨hcA, hvA, hndA, hwfA⟩ := hstepA
  have hmissA : lookupA sA.vrfPfx2Route (r.vrf, r.pfx, r.len) = none := by
    rw [hvA]
    exact hmiss
  obtain ⟨hPh, hPe, hPv, hPc⟩ :=
    programLpmRoute_ok_cacheMiss E sA r eg f sP hmissA hlpm
  have hndP : (sP.hosts.map Prod.fst).Nodup := by
    rw [hPh]
    exact hndA
  have hwfP : WfMap sP.ecmpHosts := by
    rw [hPe]
    exact hwfA
  have hcP : countRouteAdds sP = countRouteAdds s + 1 := by
    rw [hPc, hcA]
  have hvP : sP.vrfPfx2Route = s.vrfPfx2Route := by
    rw [hPv, hvA]
  rcases hcln with ⟨hadd2, hcl⟩ | ⟨hadd2, hs'⟩
  · rcases hcl with ⟨hold, hs'⟩ | ⟨hold, hder⟩
    · subst hs'
      exact ⟨hcP, hvP, hndP, hwfP⟩
    · have hcnt := derefBcmEcmpHost_countRA E sP r.vrf r.fwd.nhops
      rw [hder] at hcnt
      simp only [Outcome.stateOf] at hcnt
      have hvD := derefBcmEcmpHost_vrfPfx E sP r.vrf r.fwd.nhops
      rw [hder] at hvD
      simp only [Outcome.stateOf] at hvD
      have hrest : (s'.hosts.map Prod.fst).Nodup ∧ WfMap s'.ecmpHosts := by
        rcases hlk : lookupA sP.ecmpHosts (r.vrf, r.fwd.nhops)
            with _ | ⟨h0, m⟩
        · unfold derefBcmEcmpHost at hder
          simp only [hlk] at hder
          simp at hder
          subst hder
          exact ⟨hndP, hwfP⟩
        · obtain ⟨hnd2, hshape⟩ := derefBcmEcmpHost_ok_spec E sP r.vrf
            r.fwd.nhops s' h0 m hndP hlk hder
          refine ⟨hnd2, ?_⟩
          rcases hshape with ⟨hm2, hh, he⟩ | ⟨hm1, he, hrc⟩
          · rw [he]
            exact WfMap_setA hwfP (lookupA_isSome_of_eq hlk) (by omega)
          · rw [he]
            exact WfMap_erase _ hwfP
      exact ⟨by rw [hcnt, hcP], by rw [hvD, hvP], hrest.1, hrest.2⟩
  · subst hs'
    exact ⟨hcP, hvP, hndP, hwfP⟩

/-- C3 (amended): for an LPM-platform route that has never been added and
whose prefix misses the warm-boot route cache, the call sequence
`program(route, fwd_A); program(route, fwd_B); program(route, fwd_A)` with
`fwd_A != fwd_B` (both coherent: `NEXTHOPS` action or empty next-hop
list) issues exactly three hardware route-programming calls — one per
call, since every call changes the stored forwarding info — and ends with
every host-table and every ECMP-host-table refcount equal to its value
after the first call. -/
theorem c3_three_programs (E : Env) (s : HwState) (r : BcmRouteObj)
    (fA fB : RouteForwardInfo) (r1 r2 r3 : BcmRouteObj)
    (s1 s2 s3 : HwState)
    (hndH : (s.hosts.map Prod.fst).Nodup)
    (hwfE : WfMap s.ecmpHosts)
    (hct : canUseHostTable E r = false)
    (hadd : r.added = false)
    (hmiss : lookupA s.vrfPfx2Route (r.vrf, r.pfx, r.len) = none)
    (hne : fA ≠ fB)
    (hcohA : fA.action = .nexthops ∨ fA.nhops = [])
    (hcohB : fB.action = .nexthops ∨ fB.nhops = [])
    (h1 : bcmRouteProgram E s r fA = .ok r1 s1)
    (h2 : bcmRouteProgram E s1 r1 fB = .ok r2 s2)
    (h3 : bcmRouteProgram E s2 r2 fA = .ok r3 s3) :
    countRouteAdds s3 = countRouteAdds s + 3 ∧
    (∀ k, hostRc s3 k = hostRc s1 k) ∧
    (∀ j, ecmpRc s3 j = ecmpRc s1 j) := by
  have hne1 : ¬(r.added = true ∧ fA = r.fwd) := by
    rw [hadd]
    simp
  obtain ⟨hc1, hv1, hnd1, hwf1⟩ :=
    routeCall_invariants E s r fA r1 s1 hct hne1 hcohA hndH hwfE hmiss h1
  obtain ⟨hr1, sA1, sP1, eg1, hacq1, hlpm1, hcln1⟩ :=
    bcmRouteProgram_ok_lpm E s r fA r1 s1 hct hne1 hcohA h1
  have rA1 : r1.added = true := by rw [hr1]
  have rf1 : r1.fwd = fA := by rw [hr1]
  have rv1 : r1.vrf = r.vrf := by rw [hr1]
  have hct2 : canUseHostTable E r1 = false := by
    rw [hr1]
    exact hct
  have hne2 : ¬(r1.added = true ∧ fB = r1.fwd) := by
    rw [rf1]
    intro hx
    exact hne hx.2.symm
  have hmiss2 : lookupA s1.vrfPfx2Route (r1.vrf, r1.pfx, r1.len) = none := by
    rw [hr1]
    show lookupA s1.vrfPfx2Route (r.vrf, r.pfx, r.len) = none
    rw [hv1]
    exact hmiss
  obtain ⟨hc2, hv2, hnd2, hwf2⟩ :=
    routeCall_invariants E s1 r1 fB r2 s2 hct2 hne2 hcohB hnd1 hwf1 hmiss2 h2
  obtain ⟨hr2, sA2, sP2, eg2, hacq2, hlpm2, hcln2⟩ :=
    bcmRouteProgram_ok_lpm E s1 r1 fB r2 s2 hct2 hne2 hcohB h2
  have rA2 : r2.added = true := by rw [hr2]
  have rf2 : r2.fwd = fB := by rw [hr2]
  have rv2 : r2.vrf = r.vrf := by
    rw [hr2]
    exact rv1
  have hct3 : canUseHostTable E r2 = false := by
    rw [hr2, hr1]
    exact hct
  have hne3 : ¬(r2.added = true ∧ fA = r2.fwd) := by
    rw [rf2]
    intro hx
    exact hne hx.2
  have hmiss3 : lookupA s2.vrfPfx2Route (r2.vrf, r2.pfx, r2.len) = none := by
    rw [hr2, hr1]
    show lookupA s2.vrfPfx2Route (r.vrf, r.pfx, r.len) = none
    rw [hv2, hv1]
    exact hmiss
  obtain ⟨hc3, hv3, hnd3, hwf3⟩ :=
    routeCall_invariants E s2 r2 fA r3 s3 hct3 hne3 hcohA hnd2 hwf2 hmiss3 h3
  obtain ⟨hr3, sA3, sP3, eg3, hacq3, hlpm3, hcln3⟩ :=
    bcmRouteProgram_ok_lpm E s2 r2 fA r3 s3 hct3 hne3 hcohA h3
  refine ⟨by omega, ?_⟩
  have hs1P : s1 = sP1 := by
    rcases hcln1 with ⟨habs, _⟩ | ⟨_, hx⟩
    · rw [hadd] at habs
      simp at habs
    · exact hx
  have hf1 := programLpmRoute_frame E sA1 r eg1 fA
  rw [hlpm1] at hf1
  simp only [Outcome.stateOf] at hf1
  have hf2 := programLpmRoute_frame E sA2 r1 eg2 fB
  rw [hlpm2] at hf2
  simp only [Outcome.stateOf] at hf2
  have hf3 := programLpmRoute_frame E sA3 r2 eg3 fA
  rw [hlpm3] at hf3
  simp only [Outcome.stateOf] at hf3
  have E1h : s1.hosts = sA1.hosts := by
    rw [hs1P]
    exact hf1.1
  have E1e : s1.ecmpHosts = sA1.ecmpHosts := by
    rw [hs1P]
    exact hf1.2
  have hcl2 : ClnSpec E r.vrf sP2 fA.nhops s2 := by
    rcases hcln2 with ⟨_, hx⟩ | ⟨habs, _⟩
    · rw [rv1, rf1] at hx
      exact hx
    · rw [rA1] at habs
      simp at habs
  have hcl3 : ClnSpec E r.vrf sP3 fB.nhops s3 := by
    rcases hcln3 with ⟨_, hx⟩ | ⟨habs, _⟩
    · rw [rv2, rf2] at hx
      exact hx
    · rw [rA2] at habs
      simp at habs
  rw [rv1] at hacq2
  rw [rv2] at hacq3
  have hKne : fA.action = RouteForwardAction.nexthops →
      fB.action = RouteForwardAction.nexthops → fA.nhops ≠ fB.nhops := by
    intro hx hy hnh
    apply hne
    obtain ⟨a1, l1⟩ := fA
    obtain ⟨a2, l2⟩ := fB
    simp at hx hy hnh
    subst hx
    subst hy
    subst hnh
    rfl
  rcases hacq1 with ⟨hAnil, hsA1s⟩ | ⟨hAact, hAne, hA1, hiA1⟩
  · -- fwd_A has no next hops: no references are acquired or released for it
    subst hsA1s
    have hacq3s : sA3 = s2 := by
      rcases hacq3 with ⟨_, hx⟩ | ⟨_, habs, _⟩
      · exact hx
      · exact absurd hAnil habs
    have hcl2s : s2 = sP2 := by
      rcases hcl2 with ⟨_, hx⟩ | ⟨habs, _⟩
      · exact hx
      · exact absurd hAnil habs
    rcases hacq2 with ⟨hBnil, hsA2s⟩ | ⟨hBact, hBne, hB, hiB⟩
    · -- fwd_B has no next hops either: nothing changes any table
      subst hsA2s
      have hs3P : s3 = sP3 := by
        rcases hcl3 with ⟨_, hx⟩ | ⟨habs, _⟩
        · exact hx
        · exact absurd hBnil habs
      refine ⟨fun k => hostRc_eq_of_hosts_eq ?_ k,
        fun j => ecmpRc_eq_of_ecmp_eq ?_ j⟩
      · rw [hs3P, hf3.1, hacq3s, hcl2s, hf2.1]
      · rw [hs3P, hf3.2, hacq3s, hcl2s, hf2.2]
    · obtain ⟨hvB, hnodB, hcaseB⟩ :=
        incRefOrCreateBcmEcmpHost_ok_spec E s1 r.vrf fB.nhops hB sA2 hiB
      have hcl3d : derefBcmEcmpHost E sP3 r.vrf fB.nhops = .ok () s3 := by
        rcases hcl3 with ⟨habs, _⟩ | ⟨_, hx⟩
        · exact absurd habs hBne
        · exact hx
      rcases hcaseB with ⟨hB0, p, hlkB, hhB, hBhosts, hBecmp⟩ |
          ⟨hlkB, hBv, hBf, hBecmp, hBrc⟩
      · -- fwd_B's ECMP host already existed: bump then decrement in place
        have hlk3 : lookupA sP3.ecmpHosts (r.vrf, fB.nhops)
            = some (hB0, p + 1) := by
          rw [hf3.2, hacq3s, hcl2s, hf2.2, hBecmp]
          exact lookupA_setA_self s1.ecmpHosts (r.vrf, fB.nhops) (hB0, p + 1)
            (lookupA_isSome_of_eq hlkB)
        have hp1 : 1 ≤ p := by
          have := hwf1.2 _ (lookupA_mem hlkB)
          simpa using this
        have hndP3 : (sP3.hosts.map Prod.fst).Nodup := by
          rw [hf3.1, hacq3s, hcl2s, hf2.1, hBhosts]
          exact hnd1
        obtain ⟨hnd3', hshape⟩ := derefBcmEcmpHost_ok_spec E sP3 r.vrf
          fB.nhops s3 hB0 (p + 1) hndP3 hlk3 hcl3d
        rcases hshape with ⟨hm2, hh3, he3⟩ | ⟨hm1, _, _⟩
        · refine ⟨fun k => ?_, fun j => ?_⟩
          · refine hostRc_eq_of_hosts_eq ?_ k
            rw [hh3, hf3.1, hacq3s, hcl2s, hf2.1, hBhosts]
          · have hsP3e : sP3.ecmpHosts =
                setA s1.ecmpHosts (r.vrf, fB.nhops) (hB0, p + 1) := by
              rw [hf3.2, hacq3s, hcl2s, hf2.2, hBecmp]
            have e2 := ecmpRc_eq_setA (lookupA_isSome_of_eq hlk3) he3
            have e1 := ecmpRc_eq_setA (lookupA_isSome_of_eq hlkB) hsP3e
            rw [e2 j, e1 j]
            by_cases hj : j = (r.vrf, fB.nhops)
            · rw [if_pos hj, hj,
                show ecmpRc s1 (r.vrf, fB.nhops) = p from by
                  simp [ecmpRc, hlkB]]
              omega
            · simp [hj]
        · omega
      · -- fwd_B's ECMP host is created fresh, then destroyed again
        have hlk3 : lookupA sP3.ecmpHosts (r.vrf, fB.nhops)
            = some (hB, 1) := by
          rw [hf3.2, hacq3s, hcl2s, hf2.2, hBecmp]
          simp [lookupA]
        have hndP3 : (sP3.hosts.map Prod.fst).Nodup := by
          rw [hf3.1, hacq3s, hcl2s, hf2.1]
          exact hnodB hnd1
        obtain ⟨hnd3', hshape⟩ := derefBcmEcmpHost_ok_spec E sP3 r.vrf
          fB.nhops s3 hB 1 hndP3 hlk3 hcl3d
        rcases hshape with ⟨hm2, _, _⟩ | ⟨_, he3, hrc3⟩
        · omega
        · refine ⟨fun k => ?_, fun j => ?_⟩
          · rw [hrc3 k, hBv, hBf]
            rw [show hostRc sP3 k = hostRc sA2 k from
              hostRc_eq_of_hosts_eq (by rw [hf3.1, hacq3s, hcl2s, hf2.1]) k]
            rw [hBrc k]
            omega
          · have he : s3.ecmpHosts = s1.ecmpHosts := by
              rw [he3, hf3.2, hacq3s, hcl2s, hf2.2, hBecmp]
              exact eraseA_cons_self s1.ecmpHosts (r.vrf, fB.nhops) (hB, 1)
            exact ecmpRc_eq_of_ecmp_eq he j
  · -- fwd_A acquires an ECMP-host reference
    obtain ⟨hvA, hnodA, hcaseA⟩ :=
      incRefOrCreateBcmEcmpHost_ok_spec E s r.vrf fA.nhops hA1 sA1 hiA1
    have hcl2d : derefBcmEcmpHost E sP2 r.vrf fA.nhops = .ok () s2 := by
      rcases hcl2 with ⟨habs, _⟩ | ⟨_, hx⟩
      · exact absurd habs hAne
      · exact hx
    have hacq3x : ∃ h, incRefOrCreateBcmEcmpHost E s2 r.vrf fA.nhops
        = .ok h sA3 := by
      rcases hacq3 with ⟨habs, _⟩ | ⟨_, _, hx⟩
      · exact absurd habs hAne
      · exact hx
    obtain ⟨hA3, hiA3⟩ := hacq3x
    obtain ⟨hvA3, hnodA3, hcaseA3⟩ :=
      incRefOrCreateBcmEcmpHost_ok_spec E s2 r.vrf fA.nhops hA3 sA3 hiA3
    rcases hcaseA with ⟨hA0, n, hlkA, hhA, hAhosts, hAecmp⟩ |
        ⟨hlkA, hAv, hAf, hAecmp, hArc⟩
    · -- the fwd_A ECMP host already existed: its refcount round-trips
      have hn1 : 1 ≤ n := by
        have := hwfE.2 _ (lookupA_mem hlkA)
        simpa using this
      have E1e' : s1.ecmpHosts =
          setA s.ecmpHosts (r.vrf, fA.nhops) (hA0, n + 1) := by
        rw [E1e, hAecmp]
      have E1h' : s1.hosts = s.hosts := by
        rw [E1h, hAhosts]
      have hacq2' := hacq2
      have hBpre : (sP2.hosts.map Prod.fst).Nodup ∧
          lookupA sP2.ecmpHosts (r.vrf, fA.nhops) = some (hA0, n + 1) := by
        rcases hacq2' with ⟨hBnil, hsA2s⟩ | ⟨hBact, hBne, hB, hiB⟩
        · subst hsA2s
          refine ⟨by rw [hf2.1, E1h']; exact hndH, ?_⟩
          rw [hf2.2, E1e']
          exact lookupA_setA_self s.ecmpHosts _ _ (lookupA_isSome_of_eq hlkA)
        · obtain ⟨hvB, hnodB, hcaseB⟩ :=
            incRefOrCreateBcmEcmpHost_ok_spec E s1 r.vrf fB.nhops hB sA2 hiB
          have hfne : fA.nhops ≠ fB.nhops := hKne hAact hBact
          have hKne2 : ((r.vrf, fA.nhops) : Vrf × List Nexthop)
              ≠ (r.vrf, fB.nhops) := by simp [hfne]
          rcases hcaseB with ⟨hB0, p, hlkB, hhB, hBhosts, hBecmp⟩ |
              ⟨hlkB, hBv, hBf, hBecmp, hBrc⟩
          · refine ⟨by rw [hf2.1, hBhosts, E1h']; exact hndH, ?_⟩
            rw [hf2.2, hBecmp,
              lookupA_setA_ne s1.ecmpHosts (r.vrf, fB.nhops)
                (r.vrf, fA.nhops) (hB0, p + 1) hKne2, E1e']
            exact lookupA_setA_self s.ecmpHosts _ _ (lookupA_isSome_of_eq hlkA)
          · refine ⟨by rw [hf2.1]; exact hnodB hnd1, ?_⟩
            rw [hf2.2, hBecmp, show lookupA
                (((r.vrf, fB.nhops), (hB, 1)) :: s1.ecmpHosts)
                (r.vrf, fA.nhops) = lookupA s1.ecmpHosts (r.vrf, fA.nhops)
              from by simp [lookupA, Ne.symm hfne], E1e']
            exact lookupA_setA_self s.ecmpHosts _ _ (lookupA_isSome_of_eq hlkA)
      obtain ⟨hndP2, hlkP2⟩ := hBpre
      obtain ⟨hnd2', hshape2⟩ := derefBcmEcmpHost_ok_spec E sP2 r.vrf
        fA.nhops s2 hA0 (n + 1) hndP2 hlkP2 hcl2d
      rcases hshape2 with ⟨hm2, hh2, he2⟩ | ⟨hm1, _, _⟩
      swap
      · omega
      have hlkS2 : lookupA s2.ecmpHosts (r.vrf, fA.nhops)
          = some (hA0, n + 1 - 1) := by
        rw [he2]
        exact lookupA_setA_self sP2.ecmpHosts _ _ (lookupA_isSome_of_eq hlkP2)
      rcases hcaseA3 with ⟨h0', n', hlk', hh', hA3hosts, hA3ecmp⟩ |
          ⟨hlk', _, _, _, _⟩
      swap
      · rw [hlkS2] at hlk'
        simp at hlk'
      have hinj := hlk'.symm.trans hlkS2
      simp at hinj
      obtain ⟨hh0eq, hneq⟩ := hinj
      rw [hh0eq, hneq] at hA3ecmp
      rcases hacq2 with ⟨hBnil, hsA2s⟩ | ⟨hBact, hBne, hB, hiB⟩
      · -- fwd_B has no next hops
        rw [hsA2s] at hf2
        have hs3P : s3 = sP3 := by
          rcases hcl3 with ⟨_, hx⟩ | ⟨habs, _⟩
          · exact hx
          · exact absurd hBnil habs
        refine ⟨fun k => hostRc_eq_of_hosts_eq ?_ k, fun j => ?_⟩
        · rw [hs3P, hf3.1, hA3hosts, hh2, hf2.1]
        · have eX3 : ∀ j2, ecmpRc s3 j2 =
              if j2 = (r.vrf, fA.nhops) then n + 1
              else ecmpRc s2 j2 := by
            have hx : s3.ecmpHosts =
                setA s2.ecmpHosts (r.vrf, fA.nhops) (hA0, n + 1) := by
              rw [hs3P, hf3.2, hA3ecmp]
            exact ecmpRc_eq_setA (lookupA_isSome_of_eq hlkS2) hx
          have eX2 : ∀ j2, ecmpRc s2 j2 =
              if j2 = (r.vrf, fA.nhops) then n + 1 - 1 else ecmpRc sP2 j2 :=
            ecmpRc_eq_setA (lookupA_isSome_of_eq hlkP2) he2
          have eP2 : ∀ j2, ecmpRc sP2 j2 = ecmpRc s1 j2 :=
            ecmpRc_eq_of_ecmp_eq hf2.2
          have e1 : ∀ j2, ecmpRc s1 j2 =
              if j2 = (r.vrf, fA.nhops) then n + 1 else ecmpRc s j2 :=
            ecmpRc_eq_setA (lookupA_isSome_of_eq hlkA) E1e'
          rw [eX3 j, eX2 j, eP2 j]
          by_cases hj : j = (r.vrf, fA.nhops)
          · rw [if_pos hj, hj, show ecmpRc s1 (r.vrf, fA.nhops) = n + 1
              from by rw [e1 (r.vrf, fA.nhops)]; simp]
          · simp [hj]
      · -- fwd_B acquires a reference released again by the third call
        obtain ⟨hvB, hnodB, hcaseB⟩ :=
          incRefOrCreateBcmEcmpHost_ok_spec E s1 r.vrf fB.nhops hB sA2 hiB
        have hfne : fA.nhops ≠ fB.nhops := hKne hAact hBact
        have hKne2 : ((r.vrf, fA.nhops) : Vrf × List Nexthop)
            ≠ (r.vrf, fB.nhops) := by simp [hfne]
        have hKne2' : ¬((r.vrf, fB.nhops) : Vrf × List Nexthop)
            = (r.vrf, fA.nhops) := fun hcc => hKne2 hcc.symm
        have hcl3d : derefBcmEcmpHost E sP3 r.vrf fB.nhops = .ok () s3 := by
          rcases hcl3 with ⟨habs, _⟩ | ⟨_, hx⟩
          · exact absurd habs hBne
          · exact hx
        rcases hcaseB with ⟨hB0, p, hlkB, hhB, hBhosts, hBecmp⟩ |
            ⟨hlkB, hBv, hBf, hBecmp, hBrc⟩
        · -- fwd_B's ECMP host already existed
          have hp1 : 1 ≤ p := by
            have := hwf1.2 _ (lookupA_mem hlkB)
            simpa using this
          have hlk3 : lookupA sP3.ecmpHosts (r.vrf, fB.nhops)
              = some (hB0, p + 1) := by
            rw [hf3.2, hA3ecmp,
              lookupA_setA_ne s2.ecmpHosts (r.vrf, fA.nhops)
                (r.vrf, fB.nhops) (hA0, n + 1) hKne2', he2,
              lookupA_setA_ne sP2.ecmpHosts (r.vrf, fA.nhops)
                (r.vrf, fB.nhops) (hA0, n + 1 - 1) hKne2', hf2.2, hBecmp]
            exact lookupA_setA_self s1.ecmpHosts _ _
              (lookupA_isSome_of_eq hlkB)
          have hndP3 : (sP3.hosts.map Prod.fst).Nodup := by
            rw [hf3.1, hA3hosts, hh2, hf2.1, hBhosts]
            exact hnd1
          obtain ⟨hnd3', hshape3⟩ := derefBcmEcmpHost_ok_spec E sP3 r.vrf
            fB.nhops s3 hB0 (p + 1) hndP3 hlk3 hcl3d
          rcases hshape3 with ⟨hm3, hh3, he3⟩ | ⟨hm3, _, _⟩
          swap
          · omega
          refine ⟨fun k => hostRc_eq_of_hosts_eq ?_ k, fun j => ?_⟩
          · rw [hh3, hf3.1, hA3hosts, hh2, hf2.1, hBhosts]
          · have eS3 : ∀ j2, ecmpRc s3 j2 =
                if j2 = (r.vrf, fB.nhops) then p + 1 - 1
                else ecmpRc sP3 j2 :=
              ecmpRc_eq_setA (lookupA_isSome_of_eq hlk3) he3
            have eA3 : ∀ j2, ecmpRc sP3 j2 =
                if j2 = (r.vrf, fA.nhops) then n + 1
                else ecmpRc s2 j2 := by
              have hx : sP3.ecmpHosts =
                  setA s2.ecmpHosts (r.vrf, fA.nhops) (hA0, n + 1) := by
                rw [hf3.2, hA3ecmp]
              exact ecmpRc_eq_setA (lookupA_isSome_of_eq hlkS2) hx
            have eX2 : ∀ j2, ecmpRc s2 j2 =
                if j2 = (r.vrf, fA.nhops) then n + 1 - 1
                else ecmpRc sP2 j2 :=
              ecmpRc_eq_setA (lookupA_isSome_of_eq hlkP2) he2
            have eB2 : ∀ j2, ecmpRc sP2 j2 =
                if j2 = (r.vrf, fB.nhops) then p + 1 else ecmpRc s1 j2 := by
              have hx2 : sP2.ecmpHosts =
                  setA s1.ecmpHosts (r.vrf, fB.nhops) (hB0, p + 1) := by
                rw [hf2.2, hBecmp]
              exact ecmpRc_eq_setA (lookupA_isSome_of_eq hlkB) hx2
            have e1 : ∀ j2, ecmpRc s1 j2 =
                if j2 = (r.vrf, fA.nhops) then n + 1 else ecmpRc s j2 :=
              ecmpRc_eq_setA (lookupA_isSome_of_eq hlkA) E1e'
            rw [eS3 j, eA3 j, eX2 j, eB2 j]
            by_cases hjB : j = (r.vrf, fB.nhops)
            · rw [if_pos hjB, hjB,
                show ecmpRc s1 (r.vrf, fB.nhops) = p from by
                  simp [ecmpRc, hlkB]]
              omega
            · rw [if_neg hjB]
              by_cases hjA : j = (r.vrf, fA.nhops)
              · rw [if_pos hjA, hjA,
                  show ecmpRc s1 (r.vrf, fA.nhops) = n + 1 from by
                    rw [e1 (r.vrf, fA.nhops)]; simp]
              · rw [if_neg hjA, if_neg hjA, if_neg hjB]
        · -- fwd_B's ECMP host is created fresh and destroyed again
          have hlkBs : lookupA s1.ecmpHosts (r.vrf, fB.nhops) = none := hlkB
          have hlk3 : lookupA sP3.ecmpHosts (r.vrf, fB.nhops)
              = some (hB, 1) := by
            rw [hf3.2, hA3ecmp,
              lookupA_setA_ne s2.ecmpHosts (r.vrf, fA.nhops)
                (r.vrf, fB.nhops) (hA0, n + 1) hKne2', he2,
              lookupA_setA_ne sP2.ecmpHosts (r.vrf, fA.nhops)
                (r.vrf, fB.nhops) (hA0, n + 1 - 1) hKne2', hf2.2, hBecmp]
            simp [lookupA]
          have hndP3 : (sP3.hosts.map Prod.fst).Nodup := by
            rw [hf3.1, hA3hosts, hh2, hf2.1]
            exact hnodB hnd1
          obtain ⟨hnd3', hshape3⟩ := derefBcmEcmpHost_ok_spec E sP3 r.vrf
            fB.nhops s3 hB 1 hndP3 hlk3 hcl3d
          rcases hshape3 with ⟨hm3, _, _⟩ | ⟨_, he3, hrc3⟩
          · omega
          · have hwfP3 : WfMap sP3.ecmpHosts := by
              rw [hf3.2, hA3ecmp]
              refine WfMap_setA ?_ (lookupA_isSome_of_eq hlkS2) (by omega)
              rw [he2]
              refine WfMap_setA ?_ (lookupA_isSome_of_eq hlkP2) (by omega)
              rw [hf2.2, hBecmp]
              exact WfMap_cons hwf1 hlkBs (by omega)
            refine ⟨fun k => ?_, fun j => ?_⟩
            · rw [hrc3 k, hBv, hBf,
                show hostRc sP3 k = hostRc sA2 k from
                  hostRc_eq_of_hosts_eq
                    (by rw [hf3.1, hA3hosts, hh2, hf2.1]) k,
                hBrc k]
              omega
            · have eE3 : ∀ j2, ecmpRc s3 j2 =
                  if j2 = (r.vrf, fB.nhops) then 0 else ecmpRc sP3 j2 :=
                ecmpRc_eq_erase hwfP3.1 he3
              have eA3 : ∀ j2, ecmpRc sP3 j2 =
                  if j2 = (r.vrf, fA.nhops) then n + 1
                  else ecmpRc s2 j2 := by
                have hx : sP3.ecmpHosts =
                    setA s2.ecmpHosts (r.vrf, fA.nhops) (hA0, n + 1) := by
                  rw [hf3.2, hA3ecmp]
                exact ecmpRc_eq_setA (lookupA_isSome_of_eq hlkS2) hx
              have eX2 : ∀ j2, ecmpRc s2 j2 =
                  if j2 = (r.vrf, fA.nhops) then n + 1 - 1
                  else ecmpRc sP2 j2 :=
                ecmpRc_eq_setA (lookupA_isSome_of_eq hlkP2) he2
              have eB2 : ∀ j2, ecmpRc sP2 j2 =
                  if j2 = (r.vrf, fB.nhops) then 1 else ecmpRc s1 j2 := by
                have hx2 : sP2.ecmpHosts =
                    ((r.vrf, fB.nhops), (hB, 1)) :: s1.ecmpHosts := by
                  rw [hf2.2, hBecmp]
                exact ecmpRc_eq_cons hx2
              have e1 : ∀ j2, ecmpRc s1 j2 =
                  if j2 = (r.vrf, fA.nhops) then n + 1 else ecmpRc s j2 :=
                ecmpRc_eq_setA (lookupA_isSome_of_eq hlkA) E1e'
              rw [eE3 j, eA3 j, eX2 j, eB2 j]
              by_cases hjB : j = (r.vrf, fB.nhops)
              · rw [if_pos hjB, hjB,
                  show ecmpRc s1 (r.vrf, fB.nhops) = 0 from by
                    simp [ecmpRc, hlkBs]]
              · rw [if_neg hjB]
                by_cases hjA : j = (r.vrf, fA.nhops)
                · rw [if_pos hjA, hjA,
                    show ecmpRc s1 (r.vrf, fA.nhops) = n + 1 from by
                      rw [e1 (r.vrf, fA.nhops)]; simp]
                · rw [if_neg hjA, if_neg hjA, if_neg hjB]
    · -- the fwd_A ECMP host is created fresh, destroyed by the second
      -- call's cleanup, and re-created by the third call
      have E1e' : s1.ecmpHosts =
          ((r.vrf, fA.nhops), (hA1, 1)) :: s.ecmpHosts := by
        rw [E1e, hAecmp]
      have R1 : ∀ k, hostRc s1 k = hostRc s k + multNh r.vrf fA.nhops k := by
        intro k
        rw [hostRc_eq_of_hosts_eq E1h k, hArc k]
      rcases hacq2 with ⟨hBnil, hsA2s⟩ | ⟨hBact, hBne, hB, hiB⟩
      · -- fwd_B has no next hops
        rw [hsA2s] at hf2
        have hlkP2 : lookupA sP2.ecmpHosts (r.vrf, fA.nhops)
            = some (hA1, 1) := by
          rw [hf2.2, E1e']
          simp [lookupA]
        have hndP2 : (sP2.hosts.map Prod.fst).Nodup := by
          rw [hf2.1]
          exact hnd1
        obtain ⟨hnd2', hshape2⟩ := derefBcmEcmpHost_ok_spec E sP2 r.vrf
          fA.nhops s2 hA1 1 hndP2 hlkP2 hcl2d
        rcases hshape2 with ⟨hm2, _, _⟩ | ⟨_, he2, hrc2⟩
        · omega
        have he2' : s2.ecmpHosts = s.ecmpHosts := by
          rw [he2, hf2.2, E1e']
          exact eraseA_cons_self s.ecmpHosts (r.vrf, fA.nhops) (hA1, 1)
        rcases hcaseA3 with ⟨h0', n', hlk', hh', hA3hosts, hA3ecmp⟩ |
            ⟨hlk3', hA3v, hA3f, hA3ecmp, hA3rc⟩
        · rw [he2', hlkA] at hlk'
          simp at hlk'
        · have hs3P : s3 = sP3 := by
            rcases hcl3 with ⟨_, hx⟩ | ⟨habs, _⟩
            · exact hx
            · exact absurd hBnil habs
          refine ⟨fun k => ?_, fun j => ?_⟩
          · have a1 : hostRc sP2 k = hostRc s1 k :=
              hostRc_eq_of_hosts_eq hf2.1 k
            have a2 : hostRc s2 k
                = hostRc sP2 k - multNh r.vrf fA.nhops k := by
              rw [hrc2 k, hAv, hAf]
            have a3 : hostRc s3 k
                = hostRc s2 k + multNh r.vrf fA.nhops k := by
              rw [show hostRc s3 k = hostRc sA3 k from
                hostRc_eq_of_hosts_eq (by rw [hs3P, hf3.1]) k, hA3rc k]
            have a4 := R1 k
            omega
          · have e3 : ∀ j2, ecmpRc s3 j2 =
                if j2 = (r.vrf, fA.nhops) then 1 else ecmpRc s2 j2 := by
              have hx : s3.ecmpHosts =
                  ((r.vrf, fA.nhops), (hA3, 1)) :: s2.ecmpHosts := by
                rw [hs3P, hf3.2, hA3ecmp]
              exact ecmpRc_eq_cons hx
            have e2 : ∀ j2, ecmpRc s2 j2 = ecmpRc s j2 :=
              ecmpRc_eq_of_ecmp_eq he2'
            have e1 : ∀ j2, ecmpRc s1 j2 =
                if j2 = (r.vrf, fA.nhops) then 1 else ecmpRc s j2 :=
              ecmpRc_eq_cons E1e'
            rw [e3 j, e2 j, e1 j]
      · -- fwd_B acquires its own ECMP-host reference
        obtain ⟨hvB, hnodB, hcaseB⟩ :=
          incRefOrCreateBcmEcmpHost_ok_spec E s1 r.vrf fB.nhops hB sA2 hiB
        have hfne : fA.nhops ≠ fB.nhops := hKne hAact hBact
        have hKne2 : ((r.vrf, fA.nhops) : Vrf × List Nexthop)
            ≠ (r.vrf, fB.nhops) := by simp [hfne]
        have hKne2' : ¬((r.vrf, fB.nhops) : Vrf × List Nexthop)
            = (r.vrf, fA.nhops) := fun hcc => hKne2 hcc.symm
        have hcl3d : derefBcmEcmpHost E sP3 r.vrf fB.nhops = .ok () s3 := by
          rcases hcl3 with ⟨habs, _⟩ | ⟨_, hx⟩
          · exact absurd habs hBne
          · exact hx
        rcases hcaseB with ⟨hB0, p, hlkB, hhB, hBhosts, hBecmp⟩ |
            ⟨hlkB, hBv, hBf, hBecmp, hBrc⟩
        · -- fwd_B's ECMP host already existed: bumped then decremented
          have hp1 : 1 ≤ p := by
            have := hwf1.2 _ (lookupA_mem hlkB)
            simpa using this
          have hlkBs : lookupA s.ecmpHosts (r.vrf, fB.nhops)
              = some (hB0, p) := by
            have hx := hlkB
            rw [E1e'] at hx
            simpa [lookupA, hfne] using hx
          have hlkP2 : lookupA sP2.ecmpHosts (r.vrf, fA.nhops)
              = some (hA1, 1) := by
            rw [hf2.2, hBecmp,
              lookupA_setA_ne s1.ecmpHosts (r.vrf, fB.nhops)
                (r.vrf, fA.nhops) (hB0, p + 1) hKne2, E1e']
            simp [lookupA]
          have hndP2 : (sP2.hosts.map Prod.fst).Nodup := by
            rw [hf2.1, hBhosts]
            exact hnd1
          obtain ⟨hnd2', hshape2⟩ := derefBcmEcmpHost_ok_spec E sP2 r.vrf
            fA.nhops s2 hA1 1 hndP2 hlkP2 hcl2d
          rcases hshape2 with ⟨hm2, _, _⟩ | ⟨_, he2, hrc2⟩
          · omega
          have he2' : s2.ecmpHosts =
              setA s.ecmpHosts (r.vrf, fB.nhops) (hB0, p + 1) := by
            rw [he2, hf2.2, hBecmp, E1e',
              show setA (((r.vrf, fA.nhops), (hA1, 1)) :: s.ecmpHosts)
                  (r.vrf, fB.nhops) (hB0, p + 1)
                = ((r.vrf, fA.nhops), (hA1, 1)) ::
                  setA s.ecmpHosts (r.vrf, fB.nhops) (hB0, p + 1)
              from by simp [setA, hfne]]
            exact eraseA_cons_self
              (setA s.ecmpHosts (r.vrf, fB.nhops) (hB0, p + 1))
              (r.vrf, fA.nhops) (hA1, 1)
          have hlkS2 : lookupA s2.ecmpHosts (r.vrf, fA.nhops) = none := by
            rw [he2',
              lookupA_setA_ne s.ecmpHosts (r.vrf, fB.nhops)
                (r.vrf, fA.nhops) (hB0, p + 1) hKne2]
            exact hlkA
          rcases hcaseA3 with ⟨h0', n', hlk', hh', hA3hosts, hA3ecmp⟩ |
              ⟨hlk3', hA3v, hA3f, hA3ecmp, hA3rc⟩
          · rw [hlkS2] at hlk'
            simp at hlk'
          · have hlk3 : lookupA sP3.ecmpHosts (r.vrf, fB.nhops)
                = some (hB0, p + 1) := by
              rw [hf3.2, hA3ecmp,
                show lookupA
                    (((r.vrf, fA.nhops), (hA3, 1)) :: s2.ecmpHosts)
                    (r.vrf, fB.nhops)
                  = lookupA s2.ecmpHosts (r.vrf, fB.nhops)
                from by simp [lookupA, hfne], he2']
              exact lookupA_setA_self s.ecmpHosts (r.vrf, fB.nhops)
                (hB0, p + 1) (lookupA_isSome_of_eq hlkBs)
            have hndP3 : (sP3.hosts.map Prod.fst).Nodup := by
              rw [hf3.1]
              exact hnodA3 hnd2
            obtain ⟨hnd3', hshape3⟩ := derefBcmEcmpHost_ok_spec E sP3 r.vrf
              fB.nhops s3 hB0 (p + 1) hndP3 hlk3 hcl3d
            rcases hshape3 with ⟨hm3, hh3, he3⟩ | ⟨hm3, _, _⟩
            swap
            · omega
            refine ⟨fun k => ?_, fun j => ?_⟩
            · have a1 : hostRc s3 k = hostRc sA3 k :=
                hostRc_eq_of_hosts_eq (by rw [hh3, hf3.1]) k
              have a2 := hA3rc k
              have a3 : hostRc s2 k
                  = hostRc sP2 k - multNh r.vrf fA.nhops k := by
                rw [hrc2 k, hAv, hAf]
              have a4 : hostRc sP2 k = hostRc s1 k :=
                hostRc_eq_of_hosts_eq (by rw [hf2.1, hBhosts]) k
              have a5 := R1 k
              omega
            · have eE3 : ∀ j2, ecmpRc s3 j2 =
                  if j2 = (r.vrf, fB.nhops) then p + 1 - 1
                  else ecmpRc sP3 j2 :=
                ecmpRc_eq_setA (lookupA_isSome_of_eq hlk3) he3
              have eA3 : ∀ j2, ecmpRc sP3 j2 =
                  if j2 = (r.vrf, fA.nhops) then 1
                  else ecmpRc s2 j2 := by
                have hx : sP3.ecmpHosts =
                    ((r.vrf, fA.nhops), (hA3, 1)) :: s2.ecmpHosts := by
                  rw [hf3.2, hA3ecmp]
                exact ecmpRc_eq_cons hx
              have eX2 : ∀ j2, ecmpRc s2 j2 =
                  if j2 = (r.vrf, fB.nhops) then p + 1
                  else ecmpRc s j2 :=
                ecmpRc_eq_setA (lookupA_isSome_of_eq hlkBs) he2'
              have e1 : ∀ j2, ecmpRc s1 j2 =
                  if j2 = (r.vrf, fA.nhops) then 1 else ecmpRc s j2 :=
                ecmpRc_eq_cons E1e'
              rw [eE3 j, eA3 j, eX2 j, e1 j]
              by_cases hjB : j = (r.vrf, fB.nhops)
              · rw [if_pos hjB, hjB, if_neg hKne2']
                have hz : ecmpRc s (r.vrf, fB.nhops) = p := by
                  simp [ecmpRc, hlkBs]
                omega
              · rw [if_neg hjB]
                by_cases hjA : j = (r.vrf, fA.nhops)
                · simp [hjA]
                · rw [if_neg hjA, if_neg hjA, if_neg hjB]
        · -- fwd_B's ECMP host is also created fresh and destroyed again
          have hlkBs : lookupA s.ecmpHosts (r.vrf, fB.nhops) = none := by
            have hx := hlkB
            rw [E1e'] at hx
            simpa [lookupA, hfne] using hx
          have hlkP2 : lookupA sP2.ecmpHosts (r.vrf, fA.nhops)
              = some (hA1, 1) := by
            rw [hf2.2, hBecmp,
              show lookupA (((r.vrf, fB.nhops), (hB, 1)) :: s1.ecmpHosts)
                  (r.vrf, fA.nhops)
                = lookupA s1.ecmpHosts (r.vrf, fA.nhops)
              from by simp [lookupA, Ne.symm hfne], E1e']
            simp [lookupA]
          have hndP2 : (sP2.hosts.map Prod.fst).Nodup := by
            rw [hf2.1]
            exact hnodB hnd1
          obtain ⟨hnd2', hshape2⟩ := derefBcmEcmpHost_ok_spec E sP2 r.vrf
            fA.nhops s2 hA1 1 hndP2 hlkP2 hcl2d
          rcases hshape2 with ⟨hm2, _, _⟩ | ⟨_, he2, hrc2⟩
          · omega
          have he2' : s2.ecmpHosts =
              ((r.vrf, fB.nhops), (hB, 1)) :: s.ecmpHosts := by
            rw [he2, hf2.2, hBecmp, E1e']
            simp [eraseA, Ne.symm hfne]
          have hlkS2 : lookupA s2.ecmpHosts (r.vrf, fA.nhops) = none := by
            rw [he2',
              show lookupA (((r.vrf, fB.nhops), (hB, 1)) :: s.ecmpHosts)
                  (r.vrf, fA.nhops)
                = lookupA s.ecmpHosts (r.vrf, fA.nhops)
              from by simp [lookupA, Ne.symm hfne]]
            exact hlkA
          rcases hcaseA3 with ⟨h0', n', hlk', hh', hA3hosts, hA3ecmp⟩ |
              ⟨hlk3', hA3v, hA3f, hA3ecmp, hA3rc⟩
          · rw [hlkS2] at hlk'
            simp at hlk'
          · have hlk3 : lookupA sP3.ecmpHosts (r.vrf, fB.nhops)
                = some (hB, 1) := by
              rw [hf3.2, hA3ecmp,
                show lookupA
                    (((r.vrf, fA.nhops), (hA3, 1)) :: s2.ecmpHosts)
                    (r.vrf, fB.nhops)
                  = lookupA s2.ecmpHosts (r.vrf, fB.nhops)
                from by simp [lookupA, hfne], he2']
              simp [lookupA]
            have hndP3 : (sP3.hosts.map Prod.fst).Nodup := by
              rw [hf3.1]
              exact hnodA3 hnd2
            obtain ⟨hnd3', hshape3⟩ := derefBcmEcmpHost_ok_spec E sP3 r.vrf
              fB.nhops s3 hB 1 hndP3 hlk3 hcl3d
            rcases hshape3 with ⟨hm3, _, _⟩ | ⟨_, he3, hrc3⟩
            · omega
            · have hwfP3 : WfMap sP3.ecmpHosts := by
                rw [hf3.2, hA3ecmp]
                refine WfMap_cons ?_ hlkS2 (by omega)
                rw [he2']
                exact WfMap_cons hwfE hlkBs (by omega)
              refine ⟨fun k => ?_, fun j => ?_⟩
              · have a1 : hostRc s3 k
                    = hostRc sP3 k - multNh r.vrf fB.nhops k := by
                  rw [hrc3 k, hBv, hBf]
                have a2 : hostRc sP3 k = hostRc sA3 k :=
                  hostRc_eq_of_hosts_eq hf3.1 k
                have a3 := hA3rc k
                have a4 : hostRc s2 k
                    = hostRc sP2 k - multNh r.vrf fA.nhops k := by
                  rw [hrc2 k, hAv, hAf]
                have a5 : hostRc sP2 k = hostRc sA2 k :=
                  hostRc_eq_of_hosts_eq hf2.1 k
                have a6 := hBrc k
                have a7 := R1 k
                omega
              · have eE3 : ∀ j2, ecmpRc s3 j2 =
                    if j2 = (r.vrf, fB.nhops) then 0
                    else ecmpRc sP3 j2 :=
                  ecmpRc_eq_erase hwfP3.1 he3
                have eA3 : ∀ j2, ecmpRc sP3 j2 =
                    if j2 = (r.vrf, fA.nhops) then 1
                    else ecmpRc s2 j2 := by
                  have hx : sP3.ecmpHosts =
                      ((r.vrf, fA.nhops), (hA3, 1)) :: s2.ecmpHosts := by
                    rw [hf3.2, hA3ecmp]
                  exact ecmpRc_eq_cons hx
                have eX2 : ∀ j2, ecmpRc s2 j2 =
                    if j2 = (r.vrf, fB.nhops) then 1
                    else ecmpRc s j2 :=
                  ecmpRc_eq_cons he2'
                have e1 : ∀ j2, ecmpRc s1 j2 =
                    if j2 = (r.vrf, fA.nhops) then 1 else ecmpRc s j2 :=
                  ecmpRc_eq_cons E1e'
                rw [eE3 j, eA3 j, eX2 j, e1 j]
                by_cases hjB : j = (r.vrf, fB.nhops)
                · rw [if_pos hjB, hjB, if_neg hKne2']
                  simp [ecmpRc, hlkBs]
                · rw [if_neg hjB]
                  by_cases hjA : j = (r.vrf, fA.nhops)
                  · simp [hjA]
                  · rw [if_neg hjA, if_neg hjA, if_neg hjB]

/-- Closed instance of the amended C3 law: the chain fwd_A, fwd_B, fwd_A
on a fresh route under the all-ok oracle programs three routes and
round-trips the refcounts. -/
theorem c3_witness :
    canUseHostTable envPlain rFresh = false ∧
    rFresh.added = false ∧
    fwdA ≠ fwdB ∧
    countRouteAdds
      (programChain envPlain statePlain rFresh [fwdA, fwdB, fwdA]).stateOf
      = countRouteAdds statePlain + 3 ∧
    hostRc
      (programChain envPlain statePlain rFresh [fwdA, fwdB, fwdA]).stateOf
      (0, IP.v4 7)
      = hostRc (programChain envPlain statePlain rFresh [fwdA]).stateOf
        (0, IP.v4 7) ∧
    ecmpRc
      (programChain envPlain statePlain rFresh [fwdA, fwdB, fwdA]).stateOf
      (0, [nhopA])
      = ecmpRc (programChain envPlain statePlain rFresh [fwdA]).stateOf
        (0, [nhopA]) := by
  have hok : (programChain envPlain statePlain rFresh
      [fwdA, fwdB, fwdA]).isOk = true := by decide
  rcases h1 : bcmRouteProgram envPlain statePlain rFresh fwdA with
    ⟨r1, s1⟩ | s1 | s1
  · rcases h2 : bcmRouteProgram envPlain s1 r1 fwdB with
      ⟨r2, s2⟩ | s2 | s2
    · rcases h3 : bcmRouteProgram envPlain s2 r2 fwdA with
        ⟨r3, s3⟩ | s3 | s3
      · have hchain3 : programChain envPlain statePlain rFresh
            [fwdA, fwdB, fwdA] = .ok r3 s3 := by
          simp [programChain, h1, h2, h3]
        have hchain1 : programChain envPlain statePlain rFresh [fwdA]
            = .ok r1 s1 := by
          simp [programChain, h1]
        obtain ⟨hcount, hhost, hecmp⟩ :=
          c3_three_programs envPlain statePlain rFresh fwdA fwdB r1 r2 r3
            s1 s2 s3 (by decide) (by decide) (by decide) rfl rfl
            (by decide) (Or.inl rfl) (Or.inl rfl) h1 h2 h3
        refine ⟨by decide, rfl, by decide, ?_, ?_, ?_⟩
        · rw [hchain3]
          exact hcount
        · rw [hchain3, hchain1]
          exact hhost (0, IP.v4 7)
        · rw [hchain3, hchain1]
          exact hecmp (0, [nhopA])
      · rw [show programChain envPlain statePlain rFresh
            [fwdA, fwdB, fwdA] = .err s3 from by
          simp [programChain, h1, h2, h3]] at hok
        simp [Outcome.isOk] at hok
      · rw [show programChain envPlain statePlain rFresh
            [fwdA, fwdB, fwdA] = .fatal s3 from by
          simp [programChain, h1, h2, h3]] at hok
        simp [Outcome.isOk] at hok
    · rw [show programChain envPlain statePlain rFresh
          [fwdA, fwdB, fwdA] = .err s2 from by
        simp [programChain, h1, h2]] at hok
      simp [Outcome.isOk] at hok
    · rw [show programChain envPlain statePlain rFresh
          [fwdA, fwdB, fwdA] = .fatal s2 from by
        simp [programChain, h1, h2]] at hok
      simp [Outcome.isOk] at hok
  · rw [show programChain envPlain statePlain rFresh
        [fwdA, fwdB, fwdA] = .err s1 from by
      simp [programChain, h1]] at hok
    simp [Outcome.isOk] at hok
  · rw [show programChain envPlain statePlain rFresh
        [fwdA, fwdB, fwdA] = .fatal s1 from by
      simp [programChain, h1]] at hok
    simp [Outcome.isOk] at hok

end Fboss
